import Mathlib

/-
Verification development for the 3D pedestrian agent simulation of the
urban-planning dashboard (frontend/src/components/CitySim.tsx and
frontend/public/lib/citySim.ts).

The embedding mirrors the TypeScript source:
  * THREE.Vector3 payloads become the structure P3 with real coordinates;
    `distanceTo` becomes distV (Euclidean distance, Real.sqrt based).
  * RoadNode / RoadEdge / RoadGraph keep their fields; the mutually
    recursive object references of the source (nodes hold edge objects,
    edges hold node objects) are flattened into integer ids indexing the
    node and edge arrays, exactly as the ids are assigned by the builder.
  * JS `Map` values (`gScore`, `fScore`, `came`) become functions into
    Option (none plays the role of a missing key, read back as Infinity
    by the source's `?? Infinity`); the JS `Set` `open` becomes a list in
    insertion order (Set iteration order), since the selection loop takes
    the first strict minimum in iteration order.
  * The `while` loop of aStar is modelled with explicit fuel; running out
    of fuel is a separate result (AStarRes.fuelOut) so that it is never
    conflated with the source's `return null`.  `FindRouteReturns` then
    quantifies the fuel existentially, which matches the source loop
    semantics on every terminating execution.
  * Scene ray casts (obstacle probes, shade sampling) are modelled by
    oracle functions passed as parameters: the source delegates those
    queries to the three.js raycaster, which is outside the algorithmic
    core.
-/

namespace CitySim

open scoped Classical

noncomputable section

/-- Mirror of the THREE.Vector3 payload used by the simulation: a point of
the local 3D scene space, y pointing up. -/
structure P3 where
  x : ℝ
  y : ℝ
  z : ℝ

instance : Inhabited P3 := ⟨⟨0, 0, 0⟩⟩

/-- Euclidean distance, the semantics of `a.distanceTo(b)` used by `distV`
in the source. -/
def distV (a b : P3) : ℝ :=
  Real.sqrt ((a.x - b.x) ^ 2 + (a.y - b.y) ^ 2 + (a.z - b.z) ^ 2)

/-- Vector subtraction `new THREE.Vector3().subVectors(a, b)`. -/
def vsub (a b : P3) : P3 := ⟨a.x - b.x, a.y - b.y, a.z - b.z⟩

/-- Dot product `a.dot(b)`. -/
def vdot (a b : P3) : ℝ := a.x * b.x + a.y * b.y + a.z * b.z

/-- `a.clone().addScaledVector(b, s)`. -/
def vadds (a b : P3) (s : ℝ) : P3 := ⟨a.x + b.x * s, a.y + b.y * s, a.z + b.z * s⟩

/-- `v.lengthSq()`. -/
def lengthSq (a : P3) : ℝ := a.x * a.x + a.y * a.y + a.z * a.z

/-- `THREE.MathUtils.clamp(x, lo, hi)`. -/
def clampR (x lo hi : ℝ) : ℝ := max lo (min hi x)

/-- RoadNode of the source; `edges` is the list of incident edge ids in
push order (the source stores the edge objects themselves). -/
structure RoadNode where
  id : ℕ
  p : P3
  edges : List ℕ

instance : Inhabited RoadNode := ⟨⟨0, default, []⟩⟩

/-- RoadEdge of the source; `a`, `b` are node ids (the source stores the
node objects), `poly` is the two-point segment geometry. -/
structure RoadEdge where
  id : ℕ
  a : ℕ
  b : ℕ
  poly : List P3
  length : ℝ
  shadeScore : ℝ

instance : Inhabited RoadEdge := ⟨⟨0, 0, 0, [], 0, 0⟩⟩

/-- RoadGraph of the source. -/
structure RoadGraph where
  nodes : List RoadNode
  edges : List RoadEdge

/-- Position of the node with a given id (the source dereferences the node
object directly; under the graph well-formedness used below the lookup
always succeeds). -/
def nodeP (g : RoadGraph) (i : ℕ) : P3 := ((g.nodes.get? i).getD default).p

/-- Edge-id list of the node with a given id. -/
def nodeEdges (g : RoadGraph) (i : ℕ) : List ℕ := ((g.nodes.get? i).getD default).edges

/-- `heur(a, b) = distV(a.p, b.p)` of the source, on node ids. -/
def heur (g : RoadGraph) (i j : ℕ) : ℝ := distV (nodeP g i) (nodeP g j)

/-- Comparison against possibly missing scores: `x < (m.get(n) ?? Infinity)`
with a missing key read as Infinity.  A missing left operand is Infinity as
well and is never strictly below anything. -/
def oLT : Option ℝ → Option ℝ → Prop
  | none, _ => False
  | some _, none => True
  | some a, some b => a < b

/-- Pointwise update of a map modelled as a function (JS `Map.set`; the
iteration order of these maps is never used by the source). -/
def fupd {α : Type} (f : ℕ → Option α) (k : ℕ) (v : α) : ℕ → Option α :=
  fun m => if m = k then some v else f m

/-- JS `Set.add`: append if absent (JS sets iterate in insertion order). -/
def addOpen (l : List ℕ) (n : ℕ) : List ℕ := if n ∈ l then l else l ++ [n]

/-- The mutable state of the aStar loop. -/
structure AState where
  openL : List ℕ
  came : ℕ → Option ℕ
  gsc : ℕ → Option ℝ
  fsc : ℕ → Option ℝ

/-- The `for (const n of open)` selection: first strict minimum of fScore
(missing = Infinity), starting from `current = null`, `bestF = Infinity`. -/
def selBest (fsc : ℕ → Option ℝ) (l : List ℕ) : Option ℕ × Option ℝ :=
  l.foldl (fun best n => if oLT (fsc n) best.2 then (some n, fsc n) else best)
    ((none : Option ℕ), (none : Option ℝ))

/-- One relaxation `for (const e of current.edges)` body: neighbour through
the edge, tentative score, strict-improvement update of came/gScore/fScore
and re-insertion into the open set. -/
def relaxEdge (g : RoadGraph) (goal : ℕ) (costFn : RoadEdge → ℝ) (cur : ℕ)
    (σ : AState) (eid : ℕ) : AState :=
  match g.edges.get? eid with
  | none => σ
  | some e =>
    let nb := if e.a = cur then e.b else e.a
    match σ.gsc cur with
    | none => σ
    | some gc =>
      let tent := gc + costFn e
      if oLT (some tent) (σ.gsc nb) then
        ⟨addOpen σ.openL nb, fupd σ.came nb cur, fupd σ.gsc nb tent,
          fupd σ.fsc nb (tent + heur g nb goal)⟩
      else σ

/-- All relaxations of the popped node, in edge-list order. -/
def relaxAll (g : RoadGraph) (goal : ℕ) (costFn : RoadEdge → ℝ) (cur : ℕ)
    (σ : AState) : AState :=
  (nodeEdges g cur).foldl (relaxEdge g goal costFn cur) σ

/-- Path reconstruction `while (came.has(current))`, accumulating so the
result comes out already reversed into start-to-goal order.  The explicit
bound mirrors the guaranteed termination of the source loop: under the
invariants established below the parent chain strictly decreases gScore,
so it visits pairwise distinct nodes and `g.nodes.length + 1` steps always
suffice. -/
def reconstruct (came : ℕ → Option ℕ) : ℕ → ℕ → List ℕ → List ℕ
  | 0, cur, acc => cur :: acc
  | fuel + 1, cur, acc =>
    match came cur with
    | none => cur :: acc
    | some p => reconstruct came fuel p (cur :: acc)

/-- Result of the aStar while loop.  fuelOut is an artefact of the fuel
parameter and is kept distinct from the source's `return null`. -/
inductive AStarRes where
  | found : List ℕ → AStarRes
  | noPath : AStarRes
  | fuelOut : AStarRes

/-- The aStar `while (open.size)` loop of the source. -/
def aStarLoop (g : RoadGraph) (goal : ℕ) (costFn : RoadEdge → ℝ) :
    ℕ → AState → AStarRes
  | 0, _ => .fuelOut
  | fuel + 1, σ =>
    if σ.openL = [] then .noPath
    else
      match (selBest σ.fsc σ.openL).1 with
      | none => .noPath
      | some cur =>
        if cur = goal then
          .found (reconstruct σ.came (g.nodes.length + 1) cur [])
        else
          aStarLoop g goal costFn fuel
            (relaxAll g goal costFn cur ⟨σ.openL.erase cur, σ.came, σ.gsc, σ.fsc⟩)

/-- Initial aStar state: `open = {start}`, `gScore = {start: 0}`,
`fScore = {start: heur(start, goal)}`. -/
def aStarInit (g : RoadGraph) (start goal : ℕ) : AState :=
  ⟨[start], fun _ => none, fupd (fun _ => none) start 0,
    fupd (fun _ => none) start (heur g start goal)⟩

/-- aStar with an explicit iteration budget. -/
def aStarF (g : RoadGraph) (start goal : ℕ) (costFn : RoadEdge → ℝ)
    (fuel : ℕ) : AStarRes :=
  aStarLoop g goal costFn fuel (aStarInit g start goal)

/-- `nearestPointOnEdge`: projection of p onto the two-point segment of an
edge, clamped to the segment; returns (q, t, d). -/
structure SnapPt where
  q : P3
  t : ℝ
  d : ℝ

def nearestPointOnEdge (e : RoadEdge) (p : P3) : SnapPt :=
  let a := (e.poly.get? 0).getD default
  let b := (e.poly.get? 1).getD default
  let ab := vsub b a
  let t := clampR (vdot (vsub p a) ab / lengthSq ab) 0 1
  let q := vadds a ab t
  ⟨q, t, distV p q⟩

/-- `snapToGraph`: linear scan over the edges keeping the first strict
minimum distance; `null` exactly on the empty edge list. -/
structure Snapped where
  e : RoadEdge
  q : P3
  t : ℝ
  d : ℝ

def snapStep (p : P3) (best : Option Snapped) (e : RoadEdge) : Option Snapped :=
  let s := nearestPointOnEdge e p
  match best with
  | none => some ⟨e, s.q, s.t, s.d⟩
  | some bst => if s.d < bst.d then some ⟨e, s.q, s.t, s.d⟩ else some bst

def snapToGraph (g : RoadGraph) (p : P3) : Option Snapped :=
  g.edges.foldl (snapStep p) none

/-- `nearestNodeToPoint` of findRouteOnRoads: first strict minimum over the
nodes, `bd` starting at Infinity.  The source asserts the result non-null
(`best!`); the none case corresponds to an empty node array, on which the
source would throw. -/
def nnStep (pt : P3) (best : Option ℕ × Option ℝ) (n : RoadNode) :
    Option ℕ × Option ℝ :=
  if oLT (some (distV n.p pt)) best.2 then (some n.id, some (distV n.p pt))
  else best

def nearestNodeToPoint (g : RoadGraph) (pt : P3) : Option ℕ :=
  (g.nodes.foldl (nnStep pt) ((none : Option ℕ), (none : Option ℝ))).1

/-- The shade-biased edge cost of findRouteOnRoads:
`e.length * Math.max(0.2, 1 - shadeBias * e.shadeScore)`. -/
def edgeCost (shadeBias : ℝ) (e : RoadEdge) : ℝ :=
  e.length * max 0.2 (1 - shadeBias * e.shadeScore)

/-- `nodesPathToPolyline`. -/
def nodesPathToPolyline (g : RoadGraph) (path : List ℕ) : List P3 :=
  path.map (nodeP g)

/-- Result of findRouteOnRoads with explicit fuel: `out` only when the
aStar budget ran out (never the case for the terminating source loop). -/
inductive RouteRes where
  | out : RouteRes
  | res : Option (List P3) → RouteRes

/-- `findRouteOnRoads` of the source, with the aStar fuel made explicit. -/
def findRouteOnRoadsF (fuel : ℕ) (g : RoadGraph) (ws wg : P3)
    (shadeBias : ℝ) : RouteRes :=
  match snapToGraph g ws, snapToGraph g wg with
  | none, _ => .res none
  | some _, none => .res none
  | some s, some t =>
    match nearestNodeToPoint g s.q, nearestNodeToPoint g t.q with
    | some nS, some nG =>
      match aStarF g nS nG (edgeCost shadeBias) fuel with
      | .found p => .res (some (nodesPathToPolyline g p))
      | .noPath => .res none
      | .fuelOut => .out
    | _, _ => .res none

/-- The value findRouteOnRoads returns on some terminating execution of its
aStar loop; the loop body is deterministic, so at most one `r` satisfies
this for given inputs. -/
def FindRouteReturns (g : RoadGraph) (ws wg : P3) (shadeBias : ℝ)
    (r : Option (List P3)) : Prop :=
  ∃ fuel, findRouteOnRoadsF fuel g ws wg shadeBias = .res r

/-- `v.length()`. -/
def vlen (a : P3) : ℝ := Real.sqrt (lengthSq a)

/-- `v.multiplyScalar(s)`. -/
def vscale (a : P3) (s : ℝ) : P3 := ⟨a.x * s, a.y * s, a.z * s⟩

/-- `a.clone().lerp(b, t)`. -/
def vlerp (a b : P3) (t : ℝ) : P3 :=
  ⟨a.x + (b.x - a.x) * t, a.y + (b.y - a.y) * t, a.z + (b.z - a.z) * t⟩

/-- Overwrite only the y coordinate (`p.y = v`). -/
def setY (p : P3) (v : ℝ) : P3 := ⟨p.x, v, p.z⟩

/-- `Math.atan2(y, x)`. -/
def atan2 (y x : ℝ) : ℝ :=
  if 0 < x then Real.arctan (y / x)
  else if x < 0 then
    (if 0 ≤ y then Real.arctan (y / x) + Real.pi else Real.arctan (y / x) - Real.pi)
  else if 0 < y then Real.pi / 2
  else if y < 0 then -(Real.pi / 2)
  else 0

/-- The per-agent mutable fields of class Agent that the steering logic
reads or writes.  The render-only members (meshes, FOV fan, hit markers)
carry no feedback into steering and are outside the model. -/
structure AgentState where
  pos : P3
  yaw : ℝ
  baseSpeed : ℝ
  speed : ℝ
  route : List P3
  routeIdx : ℕ
  finalGoal : Option P3
  rerouteCooldown : ℝ
  stuckAcc : ℝ
  lastPos : P3

/-- `Agent.setPolylineRoute`: store clones of the waypoints, reset the
index, teleport to the first waypoint, pin y of the agent and of every
waypoint to 0.05, and store the last waypoint as the final goal.  On an
empty polyline the source throws (`this.route[this.route.length-1]` is
undefined), modelled by `none`. -/
def setPolylineRoute (σ : AgentState) (poly : List P3) : Option AgentState :=
  let pos1 := match poly.head? with
    | some p0 => p0
    | none => σ.pos
  let route2 := poly.map (fun p => setY p 0.05)
  match route2.getLast? with
  | none => none
  | some lastP =>
    some { σ with route := route2, routeIdx := 0, pos := setY pos1 0.05,
                  finalGoal := some lastP }

/-- `Agent._trySmartReroute`.  `hasGraph` is the truthiness of the optional
`roadGraph` argument; `router from goal` stands for
`findRouteOnRoads(roadGraph, from, goal, shadeBias)`. -/
def trySmartReroute (hasGraph : Bool) (router : P3 → P3 → Option (List P3))
    (σ : AgentState) : Bool × AgentState :=
  if hasGraph = false then (false, σ)
  else
    match σ.finalGoal with
    | none => (false, σ)
    | some fg =>
      if 0 < σ.rerouteCooldown then (false, σ)
      else
        match router σ.pos fg with
        | some poly =>
          if 1 < poly.length then
            match setPolylineRoute σ poly with
            | some σ2 => (true, { σ2 with rerouteCooldown := 2.5 })
            | none => (false, σ)
          else (false, σ)
        | none => (false, σ)

/-- `Agent.update`.  `obst start dir` is the distance of the first hit of
the forward ray on an obstacle-tagged mesh
(`hits.find(h => h.object.userData?.isObstacle)`), an external scene
query.  `_updateFOVSurface` only rebuilds render geometry and is omitted.
The JS fallback chain `this.speed || this.baseSpeed || 20` reads a zero
speed as missing. -/
def advanceWaypoint (σ : AgentState) : AgentState :=
  if σ.routeIdx < σ.route.length - 1 then { σ with routeIdx := σ.routeIdx + 1 } else σ

def setYaw (σ : AgentState) (y : ℝ) : AgentState := { σ with yaw := y }

def movePos (σ : AgentState) (p : P3) : AgentState := { σ with pos := p }

/-- The `hit.distance < STOP_DIST` branch: crawl 10% forward and attempt an
immediate reroute. -/
def stopBranch (hasGraph : Bool) (router : P3 → P3 → Option (List P3))
    (σy : AgentState) (dirMove : P3) (STEP : ℝ) : AgentState :=
  (trySmartReroute hasGraph router
    (movePos σy (vadds σy.pos dirMove (STEP * 0.1)))).2

/-- The `hit.distance < AVOID_DIST` branch: lateral slide plus reduced
forward step, stuck accounting, and the 0.8 s stuck reroute. -/
def avoidBranch (hasGraph : Bool) (router : P3 → P3 → Option (List P3))
    (σy : AgentState) (dirMove : P3) (hd STEP delta : ℝ) : AgentState :=
  let σ' := movePos σy
    (vadds (vadds σy.pos ⟨-dirMove.z, 0, dirMove.x⟩ ((0.9 - hd) * 0.4))
      dirMove (STEP * 0.6))
  let prog := distV σ'.pos σ'.lastPos
  let σ'' :=
    if prog < 0.03 then { σ' with stuckAcc := σ'.stuckAcc + delta }
    else { σ' with stuckAcc := 0, lastPos := σ'.pos }
  if 0.8 < σ''.stuckAcc then
    let r := trySmartReroute hasGraph router σ''
    if r.1 then { r.2 with stuckAcc := 0 } else r.2
  else σ''

def steerFrom (hasGraph : Bool) (router : P3 → P3 → Option (List P3))
    (obst : P3 → P3 → Option ℝ) (delta : ℝ) (σ : AgentState) : AgentState :=
  let idx := min σ.routeIdx (σ.route.length - 1)
  let target := (σ.route.get? idx).getD default
  let toV : P3 := ⟨target.x - σ.pos.x, 0, target.z - σ.pos.z⟩
  let d := vlen toV
  if d < 0.5 then advanceWaypoint σ
  else
    let dirMove := vscale toV (1 / d)
    let σy := setYaw σ (atan2 dirMove.x dirMove.z)
    let spd : ℝ := if σy.speed ≠ 0 then σy.speed
                   else if σy.baseSpeed ≠ 0 then σy.baseSpeed else (20 : ℝ)
    let STEP : ℝ := spd * delta
    match obst (vadds σy.pos ⟨0, 1.5, 0⟩ 1) dirMove with
    | some hd =>
      if hd < 0.25 then stopBranch hasGraph router σy dirMove STEP
      else if hd < 0.9 then avoidBranch hasGraph router σy dirMove hd STEP delta
      else movePos σy (vadds σy.pos dirMove (min STEP d))
    | none => movePos σy (vadds σy.pos dirMove (min STEP d))

/-- The steering phase of Agent.update for a non-empty route: the lazy
initialisation of `_lastPos` followed by waypoint tracking and the
obstacle branches. -/
def updateSteer (hasGraph : Bool) (router : P3 → P3 → Option (List P3))
    (obst : P3 → P3 → Option ℝ) (delta : ℝ) (σp : AgentState) : AgentState :=
  steerFrom hasGraph router obst delta
    (if lengthSq σp.lastPos = 0 then { σp with lastPos := σp.pos } else σp)

/-- `Agent.update`: clamp the frame delta, run down the reroute cooldown,
return immediately on an empty route, otherwise steer and finally pin y to
the ground offset 0.05 (`if (this.root.position.y !== 0.05) ...`). -/
def update (hasGraph : Bool) (router : P3 → P3 → Option (List P3))
    (obst : P3 → P3 → Option ℝ) (dt : ℝ) (σ0 : AgentState) : AgentState :=
  let delta := min 0.033 dt
  let σ := { σ0 with rerouteCooldown := max 0 (σ0.rerouteCooldown - delta) }
  if σ.route = [] then σ
  else
    let σ2 := updateSteer hasGraph router obst delta σ
    { σ2 with pos := setY σ2.pos 0.05 }

/-- A sequence of simulation ticks: each tick supplies its frame delta and
its obstacle-ray oracle (the scene may change between frames). -/
def runUpdates (hasGraph : Bool) (router : P3 → P3 → Option (List P3))
    (ticks : List (ℝ × (P3 → P3 → Option ℝ))) (σ : AgentState) : AgentState :=
  ticks.foldl (fun s t => update hasGraph router t.2 t.1 s) σ

/-- Simulated time elapsed by a tick sequence: the sum of the per-tick
deltas after the 33 ms clamp applied by Agent.update. -/
def simTime (ticks : List (ℝ × (P3 → P3 → Option ℝ))) : ℝ :=
  (ticks.map (fun t => min 0.033 t.1)).sum

/-- `THREE.MathUtils.degToRad`. -/
def degToRad (d : ℝ) : ℝ := d * (Real.pi / 180)

/-- `THREE.MathUtils.radToDeg`. -/
def radToDeg (r : ℝ) : ℝ := r * (180 / Real.pi)

/-- JS truncation toward zero, used by the JS `%` operator. -/
def jsTrunc (x : ℝ) : ℝ := if 0 ≤ x then (⌊x⌋ : ℝ) else (⌈x⌉ : ℝ)

/-- The JS remainder operator `a % b` (sign of the dividend). -/
def jsMod (a b : ℝ) : ℝ := a - b * jsTrunc (a / b)

/-- The UTC calendar fields that `solarPositionLocal` reads off the parsed
`Date`.  `utcMonth` is 0-based as in JS. -/
structure JSDate where
  utcFullYear : ℤ
  utcMonth : ℤ
  utcDate : ℤ
  utcHours : ℤ
  utcMinutes : ℤ
  utcSeconds : ℤ

/-- `solarPositionLocal(lat, lon, whenISO)` of public/lib/citySim.ts, the
solar estimator the specification describes (Julian date, century fraction,
equation of center, nutation, obliquity, declination, equation of time,
true solar time, hour angle).  The argument `d` is the result of
`new Date(whenISO)`: `none` models an Invalid Date (`isNaN(d)`), on which
the source returns the fixed fallback pair before computing anything.
Returns (azimuth, altitude) in degrees. -/
def solarPositionLocal (lat lon : ℝ) (d : Option JSDate) : ℝ × ℝ :=
  match d with
  | none => (160, 45)
  | some dd =>
    let time : ℝ := (dd.utcHours : ℝ) + (dd.utcMinutes : ℝ) / 60 + (dd.utcSeconds : ℝ) / 3600
    let y : ℝ := (dd.utcFullYear : ℝ)
    let m : ℝ := (dd.utcMonth : ℝ) + 1
    let day : ℝ := (dd.utcDate : ℝ) + time / 24
    let a : ℝ := (⌊(14 - m) / 12⌋ : ℝ)
    let y2 : ℝ := y + 4800 - a
    let m2 : ℝ := m + 12 * a - 3
    let JDN : ℝ := day + (⌊(153 * m2 + 2) / 5⌋ : ℝ) + 365 * y2 + (⌊y2 / 4⌋ : ℝ)
      - (⌊y2 / 100⌋ : ℝ) + (⌊y2 / 400⌋ : ℝ) - 32045
    let T : ℝ := (JDN - 2451545.0) / 36525.0
    let L0 : ℝ := jsMod (280.46646 + 36000.76983 * T + 0.0003032 * T * T) 360
    let M : ℝ := 357.52911 + 35999.05029 * T - 0.0001537 * T * T
    let e : ℝ := 0.016708634 - 0.000042037 * T - 0.0000001267 * T * T
    let C : ℝ := (1.914602 - 0.004817 * T - 0.000014 * T * T) * Real.sin (degToRad M)
      + (0.019993 - 0.000101 * T) * Real.sin (degToRad (2 * M))
      + 0.000289 * Real.sin (degToRad (3 * M))
    let trueLong : ℝ := L0 + C
    let omega : ℝ := 125.04 - 1934.136 * T
    let lambda : ℝ := trueLong - 0.00569 - 0.00478 * Real.sin (degToRad omega)
    let epsilon0 : ℝ := 23.439291 - 0.0130042 * T
    let epsilon : ℝ := epsilon0 + 0.00256 * Real.cos (degToRad omega)
    let sinDec : ℝ := Real.sin (degToRad epsilon) * Real.sin (degToRad lambda)
    let decl : ℝ := Real.arcsin sinDec
    let yE : ℝ := Real.tan (degToRad (epsilon / 2))
    let yE2 : ℝ := yE * yE
    let EoT : ℝ := 4 * radToDeg (yE2 * Real.sin (2 * degToRad L0)
      - 2 * e * Real.sin (degToRad M)
      + 4 * e * yE2 * Real.sin (degToRad M) * Real.cos (2 * degToRad L0)
      - 0.5 * yE2 * yE2 * Real.sin (4 * degToRad L0)
      - 1.25 * e * e * Real.sin (2 * degToRad M))
    let trueSolarTimeMin : ℝ :=
      jsMod (((dd.utcHours : ℝ) * 60 + (dd.utcMinutes : ℝ) + (dd.utcSeconds : ℝ) / 60)
        + (EoT + 4 * lon)) 1440
    let H : ℝ := degToRad (if trueSolarTimeMin / 4 < 0 then trueSolarTimeMin / 4 + 180
      else trueSolarTimeMin / 4 - 180)
    let latR : ℝ := degToRad lat
    let alt : ℝ := Real.arcsin
      (Real.sin latR * Real.sin decl + Real.cos latR * Real.cos decl * Real.cos H)
    let az : ℝ := Real.arccos
      ((Real.sin decl - Real.sin alt * Real.sin latR) / (Real.cos alt * Real.cos latR))
    let azDeg : ℝ := if 0 < Real.sin H then 360 - radToDeg az else radToDeg az
    (azDeg, radToDeg alt)

/-- Constants of the graph building section of the source. -/
def MERGE_EPS : ℝ := 1.0

def ROAD_SAMPLE_DENSITY : ℝ := 8

def SHADE_SAMPLES_PER_EDGE : ℕ := 6

def SHADE_LOOKAHEAD : ℝ := 1.2

/-- A parametric curve as the builder consumes it: the two THREE.Curve
methods the source calls.  `getSpacedPoints n` returns the n+1 evenly
spaced points of the three.js contract. -/
structure Curve3 where
  getLength : ℝ
  getSpacedPoints : ℕ → List P3

/-- `spacedPointsFromCurve`. -/
def spacedPointsFromCurve (c : Curve3) : List P3 :=
  let L := max 1 c.getLength
  let n := max 10 (Int.toNat ⌊L / 100 * ROAD_SAMPLE_DENSITY⌋ + 2)
  c.getSpacedPoints n

/-- `findOrCreateNode`: first node within MERGE_EPS, else a fresh node at
the point, with id = current node count.  Returns the possibly extended
node array together with the id of the resolved node. -/
def findOrCreateNode (nodes : List RoadNode) (p : P3) : List RoadNode × ℕ :=
  match nodes.find? (fun n => distV n.p p ≤ MERGE_EPS) with
  | some n => (nodes, n.id)
  | none => (nodes ++ [⟨nodes.length, p, []⟩], nodes.length)

/-- Append an edge id to the edge list of the node with the given id
(`n.edges.push(e)` on the node object). -/
def pushEdgeToNode (nodes : List RoadNode) (nid eid : ℕ) : List RoadNode :=
  nodes.map (fun n => if n.id = nid then { n with edges := n.edges ++ [eid] } else n)

/-- The node/edge accumulator of buildRoadGraphFromCurves. -/
structure BuildState where
  nodes : List RoadNode
  edges : List RoadEdge

/-- The body of the builder's inner loop for one consecutive sample pair:
find-or-create both endpoint nodes, reject self-loops, reject duplicates by
scanning the first node's edge list, otherwise create the edge and push it
onto both endpoint edge lists. -/
def addSegment (st : BuildState) (p0 p1 : P3) : BuildState :=
  let r0 := findOrCreateNode st.nodes p0
  let r1 := findOrCreateNode r0.1 p1
  let nodes := r1.1
  let n0 := r0.2
  let n1 := r1.2
  if n0 = n1 then ⟨nodes, st.edges⟩
  else
    let exists0 := (((nodes.get? n0).getD default).edges).any (fun eid =>
      match st.edges.get? eid with
      | some e => (e.a == n0 && e.b == n1) || (e.a == n1 && e.b == n0)
      | none => false)
    if exists0 then ⟨nodes, st.edges⟩
    else
      let L := distV p0 p1
      let e : RoadEdge := ⟨st.edges.length, n0, n1, [p0, p1], L, 0⟩
      ⟨pushEdgeToNode (pushEdgeToNode nodes n0 e.id) n1 e.id, st.edges ++ [e]⟩

/-- The consecutive pairs `(pts[i], pts[i+1])` of the sampling loop. -/
def consecPairs (pts : List P3) : List (P3 × P3) := pts.zip pts.tail

/-- Process all consecutive sample pairs of one curve. -/
def addCurvePts (st : BuildState) (pts : List P3) : BuildState :=
  (consecPairs pts).foldl (fun s pr => addSegment s pr.1 pr.2) st

/-- The topology phase of buildRoadGraphFromCurves over all curves. -/
def buildTopology (curves : List Curve3) : BuildState :=
  curves.foldl (fun st c => addCurvePts st (spacedPointsFromCurve c)) ⟨[], []⟩

/-- `approximateEdgeShade`: six mid-offset samples along the edge segment;
`ray origin` is the distance of the first scene hit of the raycaster shot
from origin toward the light (`raycaster.set(origin, LIGHT_TO_POS)`), an
external scene query. -/
def approximateEdgeShade (ray : P3 → Option ℝ) (poly : List P3) : ℝ :=
  if poly.length < 2 then 0
  else
    let p0 := (poly.get? 0).getD default
    let p1 := (poly.get? 1).getD default
    let shaded := ((List.range SHADE_SAMPLES_PER_EDGE).filter (fun i =>
      let t := ((i : ℝ) + 0.5) / (SHADE_SAMPLES_PER_EDGE : ℝ)
      let q := vlerp p0 p1 t
      match ray ⟨q.x, q.y + SHADE_LOOKAHEAD, q.z⟩ with
      | some dd => dd < 500
      | none => False)).length
    (shaded : ℝ) / (SHADE_SAMPLES_PER_EDGE : ℝ)

/-- `buildRoadGraphFromCurves`: topology phase, then the shade pass that
fills in every edge's shadeScore. -/
def buildRoadGraphFromCurves (curves : List Curve3) (ray : P3 → Option ℝ) :
    RoadGraph :=
  let st := buildTopology curves
  ⟨st.nodes, st.edges.map (fun e => { e with shadeScore := approximateEdgeShade ray e.poly })⟩

/-- `tubeFromPoints` as far as routing is concerned: fewer than two points
yield no curve (`return null`), hence nothing is pushed onto the curve
list; otherwise the CatmullRom curve over the points is built (the spline
constructor itself belongs to the geometry library and is abstracted by
`mk`). -/
def tubeFromPoints (mk : List P3 → Curve3) (points : List P3) : Option Curve3 :=
  if points.length < 2 then none else some (mk points)

/-- A freshly constructed agent before any route assignment: the Agent
constructor leaves the route empty and parks the root at
`this.root.position.y = 0.01` (source line 436), with speed 22 as in the
default AgentOpts. -/
def agentFresh : AgentState :=
  ⟨⟨0, 0.01, 0⟩, 0, 22, 22, [], 0, none, 0, 0, ⟨0, 0, 0⟩⟩

/-- Edge-id list of the node with a given id, on a bare node array. -/
def nodeEdgesL (nodes : List RoadNode) (i : ℕ) : List ℕ :=
  ((nodes.get? i).getD default).edges

/-- Two edges connect the same unordered node pair. -/
def SamePair (e1 e2 : RoadEdge) : Prop :=
  (e1.a = e2.a ∧ e1.b = e2.b) ∨ (e1.a = e2.b ∧ e1.b = e2.a)

/-- The structural well-formedness the builder maintains: arrays indexed by
ids, edges between existing distinct nodes, edge lists complete and sound,
and no two edges on the same unordered pair. -/
structure BuildInv (st : BuildState) : Prop where
  nodeIds : ∀ i n, st.nodes.get? i = some n → n.id = i
  edgeIds : ∀ j e, st.edges.get? j = some e → e.id = j
  endpoints : ∀ e ∈ st.edges, e.a < st.nodes.length ∧ e.b < st.nodes.length
  noSelf : ∀ e ∈ st.edges, e.a ≠ e.b
  incidence : ∀ e ∈ st.edges, e.id ∈ nodeEdgesL st.nodes e.a ∧ e.id ∈ nodeEdgesL st.nodes e.b
  edgeListSound : ∀ i n, st.nodes.get? i = some n → ∀ eid ∈ n.edges,
    ∃ e, st.edges.get? eid = some e ∧ (e.a = i ∨ e.b = i)
  noDup : ∀ j1 e1 j2 e2, st.edges.get? j1 = some e1 → st.edges.get? j2 = some e2 →
    j1 ≠ j2 → ¬ SamePair e1 e2

/-- The 11-sample straight probe curve used to exhibit chain merging: total
length 9, consecutive samples 0.9 apart. -/
def chainCurve : Curve3 :=
  ⟨9, fun n => (List.range (n + 1)).map (fun i => ⟨0.9 * (i : ℝ), 0, 0⟩)⟩

/-- A degenerate short road curve: total length 0.9, so all of its samples
fall within one merge epsilon of the first. -/
def tinyCurve : Curve3 :=
  ⟨0.9, fun n => (List.range (n + 1)).map (fun i => ⟨0.09 * (i : ℝ), 0, 0⟩)⟩

/-- A curve that doubles back: samples 0, 0.9, then -0.9 (and stays there),
so its second and third samples are 1.8 apart yet both merge into the node
created at the first sample. -/
def zigzagCurve : Curve3 :=
  ⟨2, fun n => (List.range (n + 1)).map
    (fun i => if i = 0 then ⟨0, 0, 0⟩ else if i = 1 then ⟨0.9, 0, 0⟩ else ⟨-0.9, 0, 0⟩)⟩

/-- The edge record joins the two node ids (in either orientation). -/
def EdgeConn (e : RoadEdge) (u v : ℕ) : Prop :=
  (e.a = u ∧ e.b = v) ∨ (e.a = v ∧ e.b = u)

/-- A walk in the graph from u to w along the listed edge ids. -/
inductive IsWalk (g : RoadGraph) : ℕ → List ℕ → ℕ → Prop where
  | nil (u : ℕ) : IsWalk g u [] u
  | cons (u v w eid : ℕ) (es : List ℕ) (e : RoadEdge) :
      g.edges.get? eid = some e → EdgeConn e u v → IsWalk g v es w →
      IsWalk g u (eid :: es) w

/-- Total cost of a walk under a cost function. -/
def walkCost (g : RoadGraph) (costFn : RoadEdge → ℝ) (es : List ℕ) : ℝ :=
  (es.map (fun eid => costFn ((g.edges.get? eid).getD default))).sum

/-- The neighbour reached through an edge, as the relaxation computes it
(`e.a === current ? e.b : e.a`). -/
def stepNode (g : RoadGraph) (u eid : ℕ) : ℕ :=
  let e := (g.edges.get? eid).getD default
  if e.a = u then e.b else e.a

/-- The node id sequence of a walk. -/
def walkNodes (g : RoadGraph) : ℕ → List ℕ → List ℕ
  | u, [] => [u]
  | u, eid :: es => u :: walkNodes g (stepNode g u eid) es

/-- Geometric length of a polyline: sum of consecutive distances. -/
def polyLen (l : List P3) : ℝ :=
  ((l.zip l.tail).map (fun pr => distV pr.1 pr.2)).sum

/-- The cross-reference well-formedness of a road graph, as the builder
produces it: arrays indexed by ids, edges between existing nodes, and node
edge lists sound and complete. -/
structure GraphWF (g : RoadGraph) : Prop where
  nodeIds : ∀ i n, g.nodes.get? i = some n → n.id = i
  edgeIds : ∀ j e, g.edges.get? j = some e → e.id = j
  endpoints : ∀ e ∈ g.edges, e.a < g.nodes.length ∧ e.b < g.nodes.length
  incidence : ∀ e ∈ g.edges, e.id ∈ nodeEdges g e.a ∧ e.id ∈ nodeEdges g e.b
  edgeListSound : ∀ i n, g.nodes.get? i = some n → ∀ eid ∈ n.edges,
    ∃ e, g.edges.get? eid = some e ∧ (e.a = i ∨ e.b = i)

/-- Admissibility of the Euclidean heuristic toward a goal: the straight
line to the goal never exceeds the cost of any walk to the goal. -/
def Admissible (g : RoadGraph) (costFn : RoadEdge → ℝ) (goal : ℕ) : Prop :=
  ∀ y es, IsWalk g y es goal → heur g y goal ≤ walkCost g costFn es

/-- Number of nodes currently carrying a finite gScore. -/
def cntFin (g : RoadGraph) (σ : AState) : ℕ :=
  ((Finset.range g.nodes.length).filter (fun m => (σ.gsc m).isSome)).card

/-- The loop invariant of the aStar state. -/
structure AStarInv (g : RoadGraph) (costFn : RoadEdge → ℝ) (start goal : ℕ)
    (σ : AState) : Prop where
  openSub : ∀ n ∈ σ.openL, n < g.nodes.length
  openNodup : σ.openL.Nodup
  openG : ∀ n ∈ σ.openL, ∃ v, σ.gsc n = some v
  fInv : ∀ n v, σ.gsc n = some v → σ.fsc n = some (v + heur g n goal)
  fDom : ∀ n v, σ.fsc n = some v → ∃ w, σ.gsc n = some w
  gs0 : σ.gsc start = some 0
  gNonneg : ∀ n v, σ.gsc n = some v → 0 ≤ v
  cameInv : ∀ n p, σ.came n = some p → ∃ e vn vp, (∃ j, g.edges.get? j = some e) ∧
    EdgeConn e p n ∧ σ.gsc n = some vn ∧ σ.gsc p = some vp ∧ vp + costFn e ≤ vn
  cameNone : ∀ n v, σ.gsc n = some v → σ.came n = none → n = start
  closure : ∀ n vn, n ∉ σ.openL → σ.gsc n = some vn →
    ∀ eid ∈ nodeEdges g n, ∀ e, g.edges.get? eid = some e → ∀ m, EdgeConn e n m →
    ∃ vm, σ.gsc m = some vm ∧ vm ≤ vn + costFn e
  goalOpen : ∀ v, σ.gsc goal = some v → goal ∈ σ.openL
  gWalk : ∀ n v, σ.gsc n = some v →
    ∃ es, IsWalk g start es n ∧ walkCost g costFn es = v
  gDom : ∀ n v, σ.gsc n = some v → n < g.nodes.length
  gCnt : ∀ cmax, 0 ≤ cmax → (∀ e ∈ g.edges, costFn e ≤ cmax) →
    ∀ n v, σ.gsc n = some v → v ≤ (cntFin g σ : ℝ) * cmax

/-- The relaxation guarantee one edge of the popped node provides once its
loop body has run: the neighbour's score is at most tentative. -/
def RelaxedAt (g : RoadGraph) (costFn : RoadEdge → ℝ) (cur : ℕ) (σ : AState)
    (eid : ℕ) : Prop :=
  ∀ e, g.edges.get? eid = some e → ∀ m, EdgeConn e cur m →
    ∀ vc, σ.gsc cur = some vc → ∃ vm, σ.gsc m = some vm ∧ vm ≤ vc + costFn e

/-- The invariant holding while the popped node's edges are being relaxed:
closure is only guaranteed away from the popped node. -/
structure MidInv (g : RoadGraph) (costFn : RoadEdge → ℝ) (start goal cur : ℕ)
    (σ : AState) : Prop where
  openSub : ∀ n ∈ σ.openL, n < g.nodes.length
  openNodup : σ.openL.Nodup
  openG : ∀ n ∈ σ.openL, ∃ v, σ.gsc n = some v
  fInv : ∀ n v, σ.gsc n = some v → σ.fsc n = some (v + heur g n goal)
  fDom : ∀ n v, σ.fsc n = some v → ∃ w, σ.gsc n = some w
  gs0 : σ.gsc start = some 0
  gNonneg : ∀ n v, σ.gsc n = some v → 0 ≤ v
  cameInv : ∀ n p, σ.came n = some p → ∃ e vn vp, (∃ j, g.edges.get? j = some e) ∧
    EdgeConn e p n ∧ σ.gsc n = some vn ∧ σ.gsc p = some vp ∧ vp + costFn e ≤ vn
  cameNone : ∀ n v, σ.gsc n = some v → σ.came n = none → n = start
  closure : ∀ n vn, n ∉ σ.openL → n ≠ cur → σ.gsc n = some vn →
    ∀ eid ∈ nodeEdges g n, ∀ e, g.edges.get? eid = some e → ∀ m, EdgeConn e n m →
    ∃ vm, σ.gsc m = some vm ∧ vm ≤ vn + costFn e
  goalOpen : ∀ v, σ.gsc goal = some v → goal ∈ σ.openL
  gWalk : ∀ n v, σ.gsc n = some v →
    ∃ es, IsWalk g start es n ∧ walkCost g costFn es = v
  gDom : ∀ n v, σ.gsc n = some v → n < g.nodes.length
  gCnt : ∀ cmax, 0 ≤ cmax → (∀ e ∈ g.edges, costFn e ≤ cmax) →
    ∀ n v, σ.gsc n = some v → v ≤ (cntFin g σ : ℝ) * cmax
  curG : ∃ vc, σ.gsc cur = some vc

/-- The done-prefix guarantee while relaxing the popped node: if the popped
node has not re-entered the open set, every already-processed edge is
relaxed. -/
def CurDone (g : RoadGraph) (costFn : RoadEdge → ℝ) (cur : ℕ) (σ : AState)
    (done : List ℕ) : Prop :=
  cur ∉ σ.openL → ∀ eid ∈ done, RelaxedAt g costFn cur σ eid

/-- Rank of a node by how many finite gScores lie strictly below its own:
the parent chains of the recorded cameFrom map strictly descend this rank,
which bounds the reconstruction loop. -/
def gRank (g : RoadGraph) (σ : AState) (n : ℕ) : ℕ :=
  ((Finset.range g.nodes.length).filter
    (fun m => ∃ v w, σ.gsc m = some v ∧ σ.gsc n = some w ∧ v < w)).card

/-- Rank of a score against a finite reference set of possible values:
how many reference values lie strictly below it (infinity ranks above
everything). -/
def rankOf (F : Set ℝ) : Option ℝ → ℕ
  | none => F.ncard
  | some v => (F ∩ {w | w < v}).ncard

/-- Sum of score ranks over the node ids of the graph. -/
def sumRank (g : RoadGraph) (F : Set ℝ) (σ : AState) : ℕ :=
  ∑ n ∈ Finset.range g.nodes.length, rankOf F (σ.gsc n)

/-- The loop variant: rank mass weighted beyond the open-list length. -/
def measureA (g : RoadGraph) (F : Set ℝ) (σ : AState) : ℕ :=
  sumRank g F σ * (g.nodes.length + 1) + σ.openL.length

/-- Coordinate embedding of scene points into three-dimensional Euclidean
space, used to transport the triangle inequality to distV. -/
def E3 (p : P3) : EuclideanSpace ℝ (Fin 3) := ![p.x, p.y, p.z]

/-- Concrete road graph on which the shade-biased cost makes the Euclidean
heuristic inadmissible: a detour S-A-G of length 28 with full shade versus
a direct unshaded edge S-G of length 14. -/
def cexG1 : RoadGraph :=
  ⟨[⟨0, ⟨0, 0, 0⟩, [0, 1]⟩, ⟨1, ⟨14, 0, 0⟩, [0, 2]⟩, ⟨2, ⟨5, 0, 12⟩, [1, 2]⟩],
   [⟨0, 0, 1, [⟨0, 0, 0⟩, ⟨14, 0, 0⟩], 14, 0⟩,
    ⟨1, 0, 2, [⟨0, 0, 0⟩, ⟨5, 0, 12⟩], 13, 1⟩,
    ⟨2, 2, 1, [⟨5, 0, 12⟩, ⟨14, 0, 0⟩], 15, 1⟩]⟩

/-- Concrete road graph exhibiting the merge slack: edge lengths measure
the sampled segment endpoints, which may sit up to MERGE_EPS away from the
stored node positions, so a two-edge detour of total length 19.5 loses to
the direct edge of length 20 although it is shorter. -/
def cexG2 : RoadGraph :=
  ⟨[⟨0, ⟨0, 0, 0⟩, [0, 1]⟩, ⟨1, ⟨20, 0, 0⟩, [0, 2]⟩, ⟨2, ⟨10, 0, 0⟩, [1, 2]⟩],
   [⟨0, 0, 1, [⟨0, 0, 0⟩, ⟨20, 0, 0⟩], 20, 0⟩,
    ⟨1, 0, 2, [⟨0, 0, 0⟩, ⟨10.5, 0, 0⟩], 10.5, 0⟩,
    ⟨2, 2, 1, [⟨11, 0, 0⟩, ⟨20, 0, 0⟩], 9, 0⟩]⟩

/-- The empty road graph. -/
def emptyG : RoadGraph := ⟨[], []⟩

/-- Edge id lists of bounded length over the edge ids of the graph. -/
def validEdgeLists (E K : ℕ) : Set (List ℕ) :=
  {es | (∀ i ∈ es, i < E) ∧ es.length ≤ K}

/-- All walk costs realisable with at most K edges: the finite value set
the gScores live in. -/
def costSet (g : RoadGraph) (costFn : RoadEdge → ℝ) (K : ℕ) : Set ℝ :=
  walkCost g costFn '' validEdgeLists g.edges.length K

end

/- ===================== Theorems ===================== -/

section SolarTheorems

/-- C9: for every invalid or degenerate timestamp (a parse producing an
Invalid Date), the solar position estimation step returns the fixed
fallback pair azimuth 160°, altitude 45° instead of computing with NaN
fields, for every latitude and longitude. -/
theorem solarPositionLocal_invalid_fallback (lat lon : ℝ) :
    solarPositionLocal lat lon none = (160, 45) := rfl

end SolarTheorems

section AgentTheorems

/-- C10: assigning any non-empty polyline route teleports the agent to the
first waypoint, resets the waypoint index to 0, overwrites the y
coordinate of the agent position and of every stored waypoint with 0.05,
and stores the final waypoint as the agent's final goal. -/
theorem setPolylineRoute_assigns (σ : AgentState) (p0 : P3) (rest : List P3) :
    ∃ σ2, setPolylineRoute σ (p0 :: rest) = some σ2 ∧
      σ2.pos = ⟨p0.x, 0.05, p0.z⟩ ∧
      σ2.routeIdx = 0 ∧
      σ2.route = (p0 :: rest).map (fun p => setY p 0.05) ∧
      (∀ q ∈ σ2.route, q.y = 0.05) ∧ σ2.pos.y = 0.05 ∧
      ∃ lastP, σ2.route.getLast? = some lastP ∧ σ2.finalGoal = some lastP := by
  rcases hlast : ((p0 :: rest).map (fun p => setY p 0.05)).getLast? with _ | lastP
  · exact absurd (List.getLast?_eq_none_iff.mp hlast) (by simp)
  · have hlast' : (setY p0 0.05 :: List.map (fun p => setY p 0.05) rest).getLast?
        = some lastP := by simpa using hlast
    refine ⟨⟨setY p0 0.05, σ.yaw, σ.baseSpeed, σ.speed,
        (p0 :: rest).map (fun p => setY p 0.05), 0, some lastP,
        σ.rerouteCooldown, σ.stuckAcc, σ.lastPos⟩, ?_, rfl, rfl, rfl,
        ?_, rfl, lastP, hlast, rfl⟩
    · unfold setPolylineRoute
      simp only [List.head?_cons, List.map_cons]
      rw [hlast']
    · intro q hq
      simp only [List.mem_map] at hq
      rcases hq with ⟨p, _, rfl⟩
      rfl

/-- On an empty route Agent.update returns before the ground pin, leaving
the position (and its y) untouched. -/
theorem update_empty_route (hasGraph : Bool) (router : P3 → P3 → Option (List P3))
    (obst : P3 → P3 → Option ℝ) (dt : ℝ) (σ : AgentState) (h : σ.route = []) :
    (update hasGraph router obst dt σ).pos = σ.pos ∧
    (update hasGraph router obst dt σ).route = [] := by
  unfold update
  simp [h]

/-- C8 counterexample: a freshly constructed agent (empty route, the
constructor's y offset 0.01) keeps y = 0.01 ≠ 0.05 through a tick, because
the early `if (!this.route.length) return` skips the ground pin.  This
refutes the claim for the empty-route state. -/
theorem update_y_not_pinned_on_empty_route :
    (update false (fun _ _ => none) (fun _ _ => none) 0.016 agentFresh).pos.y = 0.01 ∧
    (0.01 : ℝ) ≠ 0.05 := by
  constructor
  · have h := update_empty_route false (fun _ _ => none) (fun _ _ => none) 0.016
      agentFresh rfl
    rw [h.1]
    rfl
  · norm_num

/-- C8 amended: whenever the route is non-empty, every control path of
Agent.update ends in the ground pin, so the post-tick y is exactly 0.05 for
every dt, steering branch and obstacle configuration. -/
theorem update_pins_y_on_nonempty_route (hasGraph : Bool)
    (router : P3 → P3 → Option (List P3)) (obst : P3 → P3 → Option ℝ)
    (dt : ℝ) (σ : AgentState) (h : σ.route ≠ []) :
    (update hasGraph router obst dt σ).pos.y = 0.05 := by
  unfold update
  rw [if_neg]
  · rfl
  · simpa using h

/-- C8 amended witness at a concrete one-waypoint agent. -/
theorem update_pins_y_witness :
    ({ agentFresh with route := [⟨1, 0, 1⟩] } : AgentState).route ≠ [] ∧
    (update false (fun _ _ => none) (fun _ _ => none) 0.016
      { agentFresh with route := [⟨1, 0, 1⟩] }).pos.y = 0.05 :=
  ⟨by simp, update_pins_y_on_nonempty_route false (fun _ _ => none)
    (fun _ _ => none) 0.016 { agentFresh with route := [⟨1, 0, 1⟩] } (by simp)⟩

/-- A reroute attempt during an active cooldown is suppressed and leaves
the whole agent state unchanged. -/
theorem trySmartReroute_cooldown_pos (hasGraph : Bool)
    (router : P3 → P3 → Option (List P3)) (σ : AgentState)
    (h : 0 < σ.rerouteCooldown) :
    trySmartReroute hasGraph router σ = (false, σ) := by
  unfold trySmartReroute
  cases hasGraph
  · simp
  · rcases hfg : σ.finalGoal with _ | fg <;> simp [hfg, h]

/-- A successful reroute leaves the cooldown timer at exactly 2.5 s. -/
theorem trySmartReroute_success_cooldown (hasGraph : Bool)
    (router : P3 → P3 → Option (List P3)) (σ σ2 : AgentState)
    (h : trySmartReroute hasGraph router σ = (true, σ2)) :
    σ2.rerouteCooldown = 2.5 := by
  unfold trySmartReroute at h
  split at h
  · simp at h
  · split at h
    · simp at h
    · split at h
      · simp at h
      · split at h
        · split at h
          · split at h
            · rw [Prod.mk.injEq] at h
              rw [← h.2]
            · simp at h
          · simp at h
        · simp at h

/-- Waypoint advancement touches only the waypoint index. -/
theorem advanceWaypoint_rc (σ : AgentState) :
    (advanceWaypoint σ).route = σ.route ∧
    (advanceWaypoint σ).rerouteCooldown = σ.rerouteCooldown := by
  unfold advanceWaypoint
  split_ifs <;> exact ⟨rfl, rfl⟩

/-- The stop branch is inert on route and cooldown while the cooldown
runs. -/
theorem stopBranch_rc (hasGraph : Bool) (router : P3 → P3 → Option (List P3))
    (σy : AgentState) (dirMove : P3) (STEP : ℝ) (h : 0 < σy.rerouteCooldown) :
    (stopBranch hasGraph router σy dirMove STEP).route = σy.route ∧
    (stopBranch hasGraph router σy dirMove STEP).rerouteCooldown
      = σy.rerouteCooldown := by
  unfold stopBranch
  rw [trySmartReroute_cooldown_pos hasGraph router _
    (show 0 < (movePos σy (vadds σy.pos dirMove (STEP * 0.1))).rerouteCooldown from h)]
  exact ⟨rfl, rfl⟩

/-- The avoidance branch is inert on route and cooldown while the cooldown
runs. -/
theorem avoidBranch_rc (hasGraph : Bool) (router : P3 → P3 → Option (List P3))
    (σy : AgentState) (dirMove : P3) (hd STEP δ : ℝ) (h : 0 < σy.rerouteCooldown) :
    (avoidBranch hasGraph router σy dirMove hd STEP δ).route = σy.route ∧
    (avoidBranch hasGraph router σy dirMove hd STEP δ).rerouteCooldown
      = σy.rerouteCooldown := by
  unfold avoidBranch
  lift_lets
  extract_lets σ' prog
  have hc' : σ'.rerouteCooldown = σy.rerouteCooldown := rfl
  by_cases hp : prog < 0.03
  · rw [if_pos hp]
    extract_lets σ''
    have h'' : 0 < σ''.rerouteCooldown := h
    split_ifs with hstk
    · rw [trySmartReroute_cooldown_pos hasGraph router σ'' h'']
      exact ⟨rfl, rfl⟩
    · exact ⟨rfl, rfl⟩
  · rw [if_neg hp]
    extract_lets σ''
    have h'' : 0 < σ''.rerouteCooldown := h
    split_ifs with hstk
    · rw [trySmartReroute_cooldown_pos hasGraph router σ'' h'']
      exact ⟨rfl, rfl⟩
    · exact ⟨rfl, rfl⟩

/-- Both projections of the steering phase that matter to the cooldown
argument are preserved while the cooldown is still running: every reroute
call site inside the steering branches is suppressed. -/
theorem steerFrom_route_cooldown (hasGraph : Bool)
    (router : P3 → P3 → Option (List P3)) (obst : P3 → P3 → Option ℝ)
    (δ : ℝ) (σ : AgentState) (h : 0 < σ.rerouteCooldown) :
    (steerFrom hasGraph router obst δ σ).route = σ.route ∧
    (steerFrom hasGraph router obst δ σ).rerouteCooldown = σ.rerouteCooldown := by
  unfold steerFrom
  lift_lets
  extract_lets idx target toV d
  split_ifs with h05
  · exact advanceWaypoint_rc σ
  · extract_lets dirMove σy spd STEP
    have hy : 0 < σy.rerouteCooldown := h
    split
    · split_ifs with h25 h09
      · exact stopBranch_rc hasGraph router σy dirMove STEP hy
      · exact avoidBranch_rc hasGraph router σy dirMove _ STEP δ hy
      · exact ⟨rfl, rfl⟩
    · exact ⟨rfl, rfl⟩

/-- Lifting of the previous lemma over the lazy `_lastPos`
initialisation. -/
theorem updateSteer_route_cooldown (hasGraph : Bool)
    (router : P3 → P3 → Option (List P3)) (obst : P3 → P3 → Option ℝ)
    (δ : ℝ) (σ : AgentState) (h : 0 < σ.rerouteCooldown) :
    (updateSteer hasGraph router obst δ σ).route = σ.route ∧
    (updateSteer hasGraph router obst δ σ).rerouteCooldown = σ.rerouteCooldown := by
  unfold updateSteer
  split_ifs
  · exact steerFrom_route_cooldown hasGraph router obst δ _ h
  · exact steerFrom_route_cooldown hasGraph router obst δ _ h

/-- One tick under a still-running cooldown: the route survives and the
cooldown decreases by exactly the clamped delta. -/
theorem update_route_cooldown (hasGraph : Bool)
    (router : P3 → P3 → Option (List P3)) (obst : P3 → P3 → Option ℝ)
    (dt : ℝ) (σ : AgentState) (h : min 0.033 dt < σ.rerouteCooldown) :
    (update hasGraph router obst dt σ).route = σ.route ∧
    (update hasGraph router obst dt σ).rerouteCooldown
      = σ.rerouteCooldown - min 0.033 dt := by
  have hpos : (0 : ℝ) < σ.rerouteCooldown - min 0.033 dt := by linarith
  have hmax : max 0 (σ.rerouteCooldown - min 0.033 dt)
      = σ.rerouteCooldown - min 0.033 dt := max_eq_right (le_of_lt hpos)
  unfold update
  by_cases hr : σ.route = []
  · simp [hr, hmax]
  · rw [if_neg (by simpa using hr)]
    have hst := updateSteer_route_cooldown hasGraph router obst (min 0.033 dt)
      { σ with rerouteCooldown := max 0 (σ.rerouteCooldown - min 0.033 dt) }
      (by simpa [hmax] using hpos)
    refine ⟨?_, ?_⟩
    · simpa using hst.1
    · simpa [hmax] using hst.2

/-- C7: along any tick sequence with nonnegative frame deltas whose total
simulated time (after the source's 33 ms clamp) stays below 2.5 s, an
agent whose cooldown was just reset keeps its route unchanged — every
reroute attempt in that window is suppressed — and, conversely, every
successful reroute resets the cooldown to 2.5 s, so only after 2.5 s of
simulated time can a reroute replace the route. -/
theorem reroute_cooldown_suppression (hasGraph : Bool)
    (router : P3 → P3 → Option (List P3))
    (ticks : List (ℝ × (P3 → P3 → Option ℝ))) (σ0 : AgentState)
    (hpos : ∀ t ∈ ticks, 0 ≤ t.1)
    (hc : σ0.rerouteCooldown = 2.5) (hst : simTime ticks < 2.5) :
    (runUpdates hasGraph router ticks σ0).route = σ0.route ∧
    (∀ σ σ2, trySmartReroute hasGraph router σ = (true, σ2) →
      σ2.rerouteCooldown = 2.5) := by
  refine ⟨?_, fun σ σ2 h => trySmartReroute_success_cooldown hasGraph router σ σ2 h⟩
  have key : ∀ (ts : List (ℝ × (P3 → P3 → Option ℝ))) (σ : AgentState),
      (∀ t ∈ ts, 0 ≤ t.1) → simTime ts < σ.rerouteCooldown →
      (runUpdates hasGraph router ts σ).route = σ.route := by
    intro ts
    induction ts with
    | nil => intro σ _ _; rfl
    | cons t ts ih =>
      intro σ hp hsum
      have hsum' : simTime ts + min 0.033 t.1 < σ.rerouteCooldown := by
        have : simTime (t :: ts) = min 0.033 t.1 + simTime ts := by
          simp [simTime]
        linarith [hsum, this ▸ hsum]
      have hts0 : (0 : ℝ) ≤ simTime ts := by
        have : ∀ s ∈ ts.map (fun t => min 0.033 t.1), 0 ≤ s := by
          intro s hs
          rcases List.mem_map.mp hs with ⟨u, hu, rfl⟩
          have h0 : 0 ≤ u.1 := hp u (List.mem_cons_of_mem _ hu)
          have : (0 : ℝ) ≤ min 0.033 u.1 := le_min (by norm_num) h0
          exact this
        exact List.sum_nonneg this
      have hlt : min 0.033 t.1 < σ.rerouteCooldown := by linarith
      have hstep := update_route_cooldown hasGraph router t.2 t.1 σ hlt
      have hrun : runUpdates hasGraph router (t :: ts) σ
          = runUpdates hasGraph router ts (update hasGraph router t.2 t.1 σ) := rfl
      rw [hrun, ih (update hasGraph router t.2 t.1 σ)
        (fun u hu => hp u (List.mem_cons_of_mem _ hu)) (by rw [hstep.2]; linarith),
        hstep.1]
  exact key ticks σ0 hpos (by rw [hc]; exact hst)

/-- C7 witness: a concrete three-tick sequence 0.6 s short of the
cooldown. -/
theorem reroute_cooldown_suppression_witness :
    ((∀ t ∈ ([(0.6, fun _ _ => none), (0.7, fun _ _ => none)] :
        List (ℝ × (P3 → P3 → Option ℝ))), 0 ≤ t.1) ∧
      ({ agentFresh with rerouteCooldown := 2.5 } : AgentState).rerouteCooldown = 2.5 ∧
      simTime [(0.6, fun _ _ => none), (0.7, fun _ _ => none)] < 2.5) ∧
    (runUpdates false (fun _ _ => none)
        [(0.6, fun _ _ => none), (0.7, fun _ _ => none)]
        { agentFresh with rerouteCooldown := 2.5 }).route
      = ({ agentFresh with rerouteCooldown := 2.5 } : AgentState).route ∧
    (∀ σ σ2, trySmartReroute false (fun _ _ => none) σ = (true, σ2) →
      σ2.rerouteCooldown = 2.5) := by
  have h1 : ∀ t ∈ ([(0.6, fun _ _ => none), (0.7, fun _ _ => none)] :
      List (ℝ × (P3 → P3 → Option ℝ))), (0 : ℝ) ≤ t.1 := by
    intro t ht
    rcases List.mem_cons.mp ht with rfl | ht
    · norm_num
    · rcases List.mem_cons.mp ht with rfl | ht
      · norm_num
      · simp at ht
  have h2 : ({ agentFresh with rerouteCooldown := 2.5 } : AgentState).rerouteCooldown
      = 2.5 := rfl
  have h3 : simTime [(0.6, fun _ _ => none), (0.7, fun _ _ => none)] < 2.5 := by
    simp [simTime]
    rw [min_eq_left (by norm_num), min_eq_left (by norm_num)]
    norm_num
  have := reroute_cooldown_suppression false (fun _ _ => none)
    [(0.6, fun _ _ => none), (0.7, fun _ _ => none)]
    { agentFresh with rerouteCooldown := 2.5 } h1 h2 h3
  exact ⟨⟨h1, h2, h3⟩, this.1, this.2⟩

end AgentTheorems

section BuilderTheorems

/-- The found case of findOrCreateNode. -/
theorem findOrCreateNode_found (nodes : List RoadNode) (p : P3) (n : RoadNode)
    (h : nodes.find? (fun n => distV n.p p ≤ MERGE_EPS) = some n) :
    findOrCreateNode nodes p = (nodes, n.id) := by
  unfold findOrCreateNode
  rw [h]

/-- The fresh-node case of findOrCreateNode. -/
theorem findOrCreateNode_new (nodes : List RoadNode) (p : P3)
    (h : nodes.find? (fun n => distV n.p p ≤ MERGE_EPS) = none) :
    findOrCreateNode nodes p = (nodes ++ [⟨nodes.length, p, []⟩], nodes.length) := by
  unfold findOrCreateNode
  rw [h]

/-- findOrCreateNode either merges into a node within MERGE_EPS of the
point, or appends a fresh node exactly at the point because every existing
node is farther than MERGE_EPS. -/
theorem findOrCreateNode_cases (nodes : List RoadNode) (p : P3) :
    (∃ n ∈ nodes, findOrCreateNode nodes p = (nodes, n.id) ∧ distV n.p p ≤ MERGE_EPS) ∨
    (findOrCreateNode nodes p = (nodes ++ [⟨nodes.length, p, []⟩], nodes.length) ∧
      ∀ n ∈ nodes, MERGE_EPS < distV n.p p) := by
  rcases hf : nodes.find? (fun n => distV n.p p ≤ MERGE_EPS) with _ | n
  · right
    refine ⟨findOrCreateNode_new _ _ hf, fun n hn => ?_⟩
    have := List.find?_eq_none.mp hf n hn
    simpa using this
  · left
    refine ⟨n, List.mem_of_find?_eq_some hf, findOrCreateNode_found _ _ _ hf, ?_⟩
    have := List.find?_some hf
    simpa using this

theorem pushEdgeToNode_length (nodes : List RoadNode) (nid eid : ℕ) :
    (pushEdgeToNode nodes nid eid).length = nodes.length := by
  simp [pushEdgeToNode]

theorem pushEdgeToNode_get? (nodes : List RoadNode) (nid eid i : ℕ) :
    (pushEdgeToNode nodes nid eid).get? i
      = (nodes.get? i).map
          (fun n => if n.id = nid then { n with edges := n.edges ++ [eid] } else n) := by
  simp [pushEdgeToNode]

/-- Under id indexing, pushing an edge id touches exactly the edge list of
the target node. -/
theorem nodeEdgesL_push (nodes : List RoadNode) (nid eid i : ℕ)
    (hids : ∀ j n, nodes.get? j = some n → n.id = j) :
    nodeEdgesL (pushEdgeToNode nodes nid eid) i
      = if i = nid ∧ i < nodes.length then nodeEdgesL nodes i ++ [eid]
        else nodeEdgesL nodes i := by
  unfold nodeEdgesL
  rw [pushEdgeToNode_get?]
  by_cases hi : i < nodes.length
  · rcases List.get?_eq_get hi with hg
    rw [hg]
    have hid : nodes[i].id = i := hids i _ hg
    by_cases heq : i = nid
    · subst heq
      rw [if_pos ⟨rfl, hi⟩]
      simp [hid]
    · rw [if_neg (by tauto)]
      simp [hid, heq]
  · have : nodes.get? i = none := List.get?_eq_none.mpr (le_of_not_lt hi)
    rw [this]
    rw [if_neg (by tauto)]
    simp

/-- Ids and positions survive pushEdgeToNode. -/
theorem pushEdgeToNode_get?_id_p (nodes : List RoadNode) (nid eid i : ℕ)
    (n : RoadNode) (h : nodes.get? i = some n) :
    ∃ n2, (pushEdgeToNode nodes nid eid).get? i = some n2 ∧
      n2.id = n.id ∧ n2.p = n.p := by
  rw [pushEdgeToNode_get?, h]
  by_cases hn : n.id = nid
  · exact ⟨_, rfl, by simp [hn], by simp [hn]⟩
  · exact ⟨_, rfl, by simp [hn], by simp [hn]⟩

theorem nodeEdgesL_append (nodes l : List RoadNode) (i : ℕ) (hi : i < nodes.length) :
    nodeEdgesL (nodes ++ l) i = nodeEdgesL nodes i := by
  unfold nodeEdgesL
  rw [List.get?_append hi]

/-- pushEdgeToNode keeps the id indexing. -/
theorem pushEdgeToNode_nodeIds (nodes : List RoadNode) (nid eid : ℕ)
    (hids : ∀ j n, nodes.get? j = some n → n.id = j) :
    ∀ i n2, (pushEdgeToNode nodes nid eid).get? i = some n2 → n2.id = i := by
  intro i n2 h
  rw [pushEdgeToNode_get?] at h
  rcases Option.map_eq_some'.mp h with ⟨n, hn, hfn⟩
  have hid := hids i n hn
  by_cases hnid : n.id = nid
  · rw [if_pos hnid] at hfn
    rw [← hfn]
    exact hid
  · rw [if_neg hnid] at hfn
    rw [← hfn]
    exact hid

/-- findOrCreateNode preserves the invariant (the edges are untouched),
returns a valid id, and leaves every existing node entry unchanged. -/
theorem findOrCreateNode_inv (nodes : List RoadNode) (edges : List RoadEdge)
    (p : P3) (hI : BuildInv ⟨nodes, edges⟩) :
    BuildInv ⟨(findOrCreateNode nodes p).1, edges⟩ ∧
    (findOrCreateNode nodes p).2 < (findOrCreateNode nodes p).1.length ∧
    nodes.length ≤ (findOrCreateNode nodes p).1.length ∧
    (∀ i, i < nodes.length → (findOrCreateNode nodes p).1.get? i = nodes.get? i) := by
  rcases findOrCreateNode_cases nodes p with ⟨n, hn, heq, hd⟩ | ⟨heq, hfar⟩
  · rw [heq]
    refine ⟨hI, ?_, le_refl _, fun i _ => rfl⟩
    rcases List.mem_iff_get.mp hn with ⟨⟨i, hi⟩, rfl⟩
    have hid : (nodes.get ⟨i, hi⟩).id = i := hI.nodeIds i _ (List.get?_eq_get hi)
    rw [hid]
    exact hi
  · rw [heq]
    have hlen : (nodes ++ [(⟨nodes.length, p, []⟩ : RoadNode)]).length
        = nodes.length + 1 := by simp
    have hget : ∀ i, i < nodes.length →
        (nodes ++ [(⟨nodes.length, p, []⟩ : RoadNode)]).get? i = nodes.get? i :=
      fun i hi => List.get?_append hi
    refine ⟨?_, by simp, by simp, hget⟩
    refine ⟨?_, hI.edgeIds, ?_, hI.noSelf, ?_, ?_, hI.noDup⟩
    · intro i n2 h
      by_cases hi : i < nodes.length
      · exact hI.nodeIds i n2 (by rwa [hget i hi] at h)
      · by_cases hieq : i = nodes.length
        · subst hieq
          rw [List.get?_concat_length] at h
          cases h
          rfl
        · have hge : (nodes ++ [(⟨nodes.length, p, []⟩ : RoadNode)]).length ≤ i := by
            rw [hlen]
            omega
          rw [List.get?_eq_none.mpr hge] at h
          cases h
    · intro e he
      have h2 := hI.endpoints e he
      exact ⟨by rw [hlen]; exact Nat.lt_succ_of_lt h2.1,
        by rw [hlen]; exact Nat.lt_succ_of_lt h2.2⟩
    · intro e he
      have hb := hI.endpoints e he
      have hi := hI.incidence e he
      rw [nodeEdgesL_append _ _ _ hb.1, nodeEdgesL_append _ _ _ hb.2]
      exact hi
    · intro i n2 h eid hmem
      by_cases hi : i < nodes.length
      · exact hI.edgeListSound i n2 (by rwa [hget i hi] at h) eid hmem
      · by_cases hieq : i = nodes.length
        · subst hieq
          rw [List.get?_concat_length] at h
          cases h
          simp at hmem
        · have hge : (nodes ++ [(⟨nodes.length, p, []⟩ : RoadNode)]).length ≤ i := by
            rw [hlen]
            omega
          rw [List.get?_eq_none.mpr hge] at h
          cases h

theorem SamePair_symm {e1 e2 : RoadEdge} (h : SamePair e1 e2) : SamePair e2 e1 := by
  unfold SamePair at *
  tauto

/-- addSegment preserves the builder invariant and only appends edges. -/
theorem addSegment_inv (st : BuildState) (p0 p1 : P3) (hI : BuildInv st) :
    BuildInv (addSegment st p0 p1) ∧
    ∃ tail, (addSegment st p0 p1).edges = st.edges ++ tail := by
  obtain ⟨hI1, hlt0, hle0, hget0⟩ := findOrCreateNode_inv st.nodes st.edges p0 hI
  obtain ⟨hI2, hlt1, hle1, hget1⟩ :=
    findOrCreateNode_inv (findOrCreateNode st.nodes p0).1 st.edges p1 hI1
  show (fun stR => BuildInv stR ∧ ∃ tail, stR.edges = st.edges ++ tail)
    (addSegment st p0 p1)
  unfold addSegment
  lift_lets
  extract_lets r0 r1 nodes n0 n1
  split_ifs with hnn
  · exact ⟨hI2, [], by simp⟩
  · extract_lets exists0
    split_ifs with hex
    · exact ⟨hI2, [], by simp⟩
    · extract_lets L e
      have hn0 : n0 < nodes.length := lt_of_lt_of_le hlt0 hle1
      have hn1 : n1 < nodes.length := hlt1
      have hidsN : ∀ j n, nodes.get? j = some n → n.id = j := hI2.nodeIds
      have hids1 : ∀ j n, (pushEdgeToNode nodes n0 e.id).get? j = some n → n.id = j :=
        pushEdgeToNode_nodeIds nodes n0 e.id hidsN
      have hids3 : ∀ j n,
          (pushEdgeToNode (pushEdgeToNode nodes n0 e.id) n1 e.id).get? j = some n →
          n.id = j :=
        pushEdgeToNode_nodeIds _ n1 e.id hids1
      have len1 : (pushEdgeToNode nodes n0 e.id).length = nodes.length :=
        pushEdgeToNode_length nodes n0 e.id
      have len3 : (pushEdgeToNode (pushEdgeToNode nodes n0 e.id) n1 e.id).length
          = nodes.length := by
        rw [pushEdgeToNode_length, len1]
      have hNEn0 : nodeEdgesL (pushEdgeToNode (pushEdgeToNode nodes n0 e.id) n1 e.id) n0
          = nodeEdgesL nodes n0 ++ [e.id] := by
        rw [nodeEdgesL_push _ _ _ _ hids1, if_neg (by tauto),
          nodeEdgesL_push _ _ _ _ hidsN, if_pos ⟨rfl, hn0⟩]
      have hNEn1 : nodeEdgesL (pushEdgeToNode (pushEdgeToNode nodes n0 e.id) n1 e.id) n1
          = nodeEdgesL nodes n1 ++ [e.id] := by
        rw [nodeEdgesL_push _ _ _ _ hids1, if_pos ⟨rfl, by rw [len1]; exact hn1⟩,
          nodeEdgesL_push _ _ _ _ hidsN, if_neg (by tauto)]
      have hNEoth : ∀ i, i ≠ n0 → i ≠ n1 →
          nodeEdgesL (pushEdgeToNode (pushEdgeToNode nodes n0 e.id) n1 e.id) i
            = nodeEdgesL nodes i := by
        intro i h0 h1
        rw [nodeEdgesL_push _ _ _ _ hids1, if_neg (by tauto),
          nodeEdgesL_push _ _ _ _ hidsN, if_neg (by tauto)]
      have hSub : ∀ i x, x ∈ nodeEdgesL nodes i →
          x ∈ nodeEdgesL (pushEdgeToNode (pushEdgeToNode nodes n0 e.id) n1 e.id) i := by
        intro i x hx
        by_cases h0 : i = n0
        · subst h0
          rw [hNEn0]
          exact List.mem_append_left _ hx
        · by_cases h1 : i = n1
          · subst h1
            rw [hNEn1]
            exact List.mem_append_left _ hx
          · rw [hNEoth i h0 h1]
            exact hx
      have hE1 : ∀ j, j < st.edges.length →
          (st.edges ++ [e]).get? j = st.edges.get? j :=
        fun j hj => List.get?_append hj
      have hE2 : (st.edges ++ [e]).get? st.edges.length = some e :=
        List.get?_concat_length st.edges e
      have hdup : ∀ eid ∈ nodeEdgesL nodes n0, ∀ e',
          st.edges.get? eid = some e' → ¬ SamePair e' e := by
        intro eid hmem e' hgete hsp
        apply hex
        show (nodeEdgesL nodes n0).any _ = true
        rw [List.any_eq_true]
        refine ⟨eid, hmem, ?_⟩
        rw [hgete]
        show (e'.a == n0 && e'.b == n1 || e'.a == n1 && e'.b == n0) = true
        have hea : e.a = n0 := rfl
        have heb : e.b = n1 := rfl
        rcases hsp with ⟨ha, hb⟩ | ⟨ha, hb⟩
        · simp [ha, hb, hea, heb]
        · simp [ha, hb, hea, heb]
      have hmemE3 : ∀ e', e' ∈ st.edges ++ [e] → e' ∈ st.edges ∨ e' = e := by
        intro e' h
        rcases List.mem_append.mp h with h | h
        · exact Or.inl h
        · right
          simpa using h
      refine ⟨⟨hids3, ?_, ?_, ?_, ?_, ?_, ?_⟩, [e], rfl⟩
      · intro j e' h
        by_cases hj : j < st.edges.length
        · rw [hE1 j hj] at h
          exact hI2.edgeIds j e' h
        · by_cases hjeq : j = st.edges.length
          · subst hjeq
            rw [hE2] at h
            cases h
            rfl
          · rw [List.get?_eq_none.mpr (by simp; omega)] at h
            cases h
      · intro e' he'
        rcases hmemE3 e' he' with h | rfl
        · have h2 := hI2.endpoints e' h
          rw [len3]
          exact h2
        · rw [len3]
          exact ⟨hn0, hn1⟩
      · intro e' he'
        rcases hmemE3 e' he' with h | rfl
        · exact hI2.noSelf e' h
        · exact hnn
      · intro e' he'
        rcases hmemE3 e' he' with h | rfl
        · have h2 := hI2.incidence e' h
          exact ⟨hSub _ _ h2.1, hSub _ _ h2.2⟩
        · constructor
          · show e.id ∈ nodeEdgesL _ n0
            rw [hNEn0]
            exact List.mem_append_right _ (by simp)
          · show e.id ∈ nodeEdgesL _ n1
            rw [hNEn1]
            exact List.mem_append_right _ (by simp)
      · intro i n2 hget eid hmem
        have hlist : eid ∈ nodeEdgesL
            (pushEdgeToNode (pushEdgeToNode nodes n0 e.id) n1 e.id) i := by
          unfold nodeEdgesL
          rw [hget]
          exact hmem
        have main : ∀ i2, eid ∈ nodeEdgesL nodes i2 ∨
            (eid = e.id ∧ (i2 = n0 ∨ i2 = n1)) →
            ∃ e2, (st.edges ++ [e]).get? eid = some e2 ∧ (e2.a = i2 ∨ e2.b = i2) := by
          intro i2 hc
          rcases hc with hold | ⟨rfl, hcase⟩
          · by_cases hi2 : i2 < nodes.length
            · rcases hg2 : nodes.get? i2 with _ | nOld
              · rw [List.get?_eq_none] at hg2
                omega
              · have : eid ∈ nOld.edges := by
                  unfold nodeEdgesL at hold
                  rwa [hg2] at hold
                obtain ⟨e2, hge2, hinc⟩ := hI2.edgeListSound i2 nOld hg2 eid this
                have hb : eid < st.edges.length := (List.get?_eq_some.mp hge2).choose
                exact ⟨e2, by rw [hE1 eid hb]; exact hge2, hinc⟩
            · exfalso
              have : nodes.get? i2 = none :=
                List.get?_eq_none.mpr (le_of_not_lt hi2)
              unfold nodeEdgesL at hold
              rw [this] at hold
              simp [default] at hold
          · refine ⟨e, ?_, ?_⟩
            · show (st.edges ++ [e]).get? e.id = some e
              exact hE2
            · rcases hcase with rfl | rfl
              · exact Or.inl rfl
              · exact Or.inr rfl
        apply main
        by_cases h0 : i = n0
        · subst h0
          rw [hNEn0] at hlist
          rcases List.mem_append.mp hlist with h | h
          · exact Or.inl h
          · exact Or.inr ⟨by simpa using h, Or.inl rfl⟩
        · by_cases h1 : i = n1
          · subst h1
            rw [hNEn1] at hlist
            rcases List.mem_append.mp hlist with h | h
            · exact Or.inl h
            · exact Or.inr ⟨by simpa using h, Or.inr rfl⟩
          · rw [hNEoth i h0 h1] at hlist
            exact Or.inl hlist
      · intro j1 e1 j2 e2 h1 h2 hjne hsp
        have hnewCase : ∀ j3 e3, j3 < st.edges.length →
            st.edges.get? j3 = some e3 → ¬ SamePair e3 e := by
          intro j3 e3 hj3 hg3 hsp3
          have hmem3 : e3 ∈ st.edges := List.get?_mem hg3
          have hinc3 := hI2.incidence e3 hmem3
          have hid3 : e3.id = j3 := hI2.edgeIds j3 e3 hg3
          have hj3n0 : e3.id ∈ nodeEdgesL nodes n0 := by
            rcases hsp3 with ⟨ha, hb⟩ | ⟨ha, hb⟩
            · have : e3.a = n0 := by rw [ha]
              rw [← this]
              exact hinc3.1
            · have : e3.b = n0 := by rw [hb]
              rw [← this]
              exact hinc3.2
          rw [hid3] at hj3n0
          exact hdup j3 hj3n0 e3 hg3 hsp3
        by_cases hj1 : j1 < st.edges.length
        · by_cases hj2 : j2 < st.edges.length
          · rw [hE1 j1 hj1] at h1
            rw [hE1 j2 hj2] at h2
            exact hI2.noDup j1 e1 j2 e2 h1 h2 hjne hsp
          · have hj2eq : j2 = st.edges.length := by
              by_contra hne
              rw [List.get?_eq_none.mpr (by simp; omega)] at h2
              cases h2
            subst hj2eq
            rw [hE2] at h2
            cases h2
            rw [hE1 j1 hj1] at h1
            exact hnewCase j1 e1 hj1 h1 hsp
        · have hj1eq : j1 = st.edges.length := by
            by_contra hne
            rw [List.get?_eq_none.mpr (by simp; omega)] at h1
            cases h1
          subst hj1eq
          rw [hE2] at h1
          cases h1
          by_cases hj2 : j2 < st.edges.length
          · rw [hE1 j2 hj2] at h2
            exact hnewCase j2 e2 hj2 h2 (SamePair_symm hsp)
          · have : j2 = st.edges.length := by
              by_contra hne
              rw [List.get?_eq_none.mpr (by simp; omega)] at h2
              cases h2
            omega

/-- Invariant preservation through a whole pair list, edges only grow. -/
theorem foldSeg_inv : ∀ (l : List (P3 × P3)) (st : BuildState), BuildInv st →
    BuildInv (l.foldl (fun s pr => addSegment s pr.1 pr.2) st) ∧
    ∃ tail, (l.foldl (fun s pr => addSegment s pr.1 pr.2) st).edges
      = st.edges ++ tail := by
  intro l
  induction l with
  | nil => exact fun st h => ⟨h, [], by simp⟩
  | cons pr l ih =>
    intro st h
    obtain ⟨h1, t1, ht1⟩ := addSegment_inv st pr.1 pr.2 h
    obtain ⟨h2, t2, ht2⟩ := ih _ h1
    refine ⟨h2, t1 ++ t2, ?_⟩
    rw [List.foldl_cons, ht2, ht1, List.append_assoc]

theorem buildInv_empty : BuildInv ⟨[], []⟩ := by
  refine ⟨?_, ?_, ?_, ?_, ?_, ?_, ?_⟩ <;>
    first
      | (intro i n h; simp at h)
      | (intro e he; simp at he)
      | (intro j1 e1 j2 e2 h1 h2; simp at h1)

/-- The builder's topology phase satisfies the invariant. -/
theorem buildTopology_inv (curves : List Curve3) : BuildInv (buildTopology curves) := by
  unfold buildTopology
  have main : ∀ (cs : List Curve3) (st : BuildState), BuildInv st →
      BuildInv (cs.foldl (fun st c => addCurvePts st (spacedPointsFromCurve c)) st) := by
    intro cs
    induction cs with
    | nil => exact fun st h => h
    | cons c cs ih =>
      intro st h
      apply ih
      exact (foldSeg_inv (consecPairs (spacedPointsFromCurve c)) st h).1
  exact main curves ⟨[], []⟩ buildInv_empty

/-- C3: in every RoadGraph produced by buildRoadGraphFromCurves — over any
curve list and any shadow-ray oracle — no edge joins a node to itself, and
no two distinct edges connect the same unordered node pair. -/
theorem build_no_selfloops_no_duplicates (curves : List Curve3)
    (ray : P3 → Option ℝ) :
    (∀ e ∈ (buildRoadGraphFromCurves curves ray).edges, e.a ≠ e.b) ∧
    (∀ j1 e1 j2 e2, (buildRoadGraphFromCurves curves ray).edges.get? j1 = some e1 →
      (buildRoadGraphFromCurves curves ray).edges.get? j2 = some e2 →
      j1 ≠ j2 → ¬ SamePair e1 e2) := by
  have hI := buildTopology_inv curves
  unfold buildRoadGraphFromCurves
  constructor
  · intro e he
    simp only [List.mem_map] at he
    rcases he with ⟨e0, he0, rfl⟩
    exact hI.noSelf e0 he0
  · intro j1 e1 j2 e2 h1 h2 hjne hsp
    simp only [List.get?_map] at h1 h2
    rcases Option.map_eq_some'.mp h1 with ⟨f1, hf1, hfe1⟩
    rcases Option.map_eq_some'.mp h2 with ⟨f2, hf2, hfe2⟩
    apply hI.noDup j1 f1 j2 f2 hf1 hf2 hjne
    unfold SamePair at hsp ⊢
    rw [← hfe1, ← hfe2] at hsp
    simpa using hsp

theorem distV_self (p : P3) : distV p p = 0 := by
  simp [distV]

theorem distV_xaxis (a b : ℝ) : distV ⟨a, 0, 0⟩ ⟨b, 0, 0⟩ = |a - b| := by
  unfold distV
  simp [Real.sqrt_sq_eq_abs]

/-- The found case on a singleton array. -/
theorem addSegment_both_near (st : BuildState) (n0 : RoadNode)
    (hnodes : st.nodes = [n0]) (p q : P3)
    (hp : distV n0.p p ≤ MERGE_EPS) (hq : distV n0.p q ≤ MERGE_EPS) :
    addSegment st p q = ⟨[n0], st.edges⟩ := by
  have f1 : findOrCreateNode st.nodes p = ([n0], n0.id) := by
    rw [hnodes]
    exact findOrCreateNode_found _ _ _ (List.find?_cons_of_pos _ (by simpa using hp))
  have f2 : findOrCreateNode [n0] q = ([n0], n0.id) :=
    findOrCreateNode_found _ _ _ (List.find?_cons_of_pos _ (by simpa using hq))
  unfold addSegment
  rw [f1]
  simp only [f2]
  rw [if_pos trivial]

/-- The creating case on a singleton array: the far second point creates a
second node and hence an edge. -/
theorem addSegment_creates (st : BuildState) (n0 : RoadNode)
    (hnodes : st.nodes = [n0]) (hid : n0.id = 0) (hed : n0.edges = []) (p q : P3)
    (hp : distV n0.p p ≤ MERGE_EPS) (hq : MERGE_EPS < distV n0.p q) :
    ∃ e, (addSegment st p q).edges = st.edges ++ [e] := by
  have f1 : findOrCreateNode st.nodes p = ([n0], n0.id) := by
    rw [hnodes]
    exact findOrCreateNode_found _ _ _ (List.find?_cons_of_pos _ (by simpa using hp))
  have f2 : findOrCreateNode [n0] q = ([n0] ++ [⟨1, q, []⟩], 1) := by
    have : List.find? (fun n => distV n.p q ≤ MERGE_EPS) [n0] = none := by
      rw [List.find?_cons_of_neg]
      · rfl
      · simp
        exact hq
    simpa using findOrCreateNode_new [n0] q this
  unfold addSegment
  rw [f1]
  simp only [f2]
  rw [if_neg (by rw [hid]; norm_num)]
  have hne : nodeEdgesL ([n0] ++ [(⟨1, q, []⟩ : RoadNode)]) n0.id = [] := by
    rw [hid]
    unfold nodeEdgesL
    simp [hed]
  rw [show (((([n0] ++ [(⟨1, q, []⟩ : RoadNode)]).get? n0.id).getD default).edges)
      = [] from hne]
  simp

/-- While every processed point stays within MERGE_EPS of the single node,
the builder state does not move. -/
theorem foldSeg_stay (n0 : RoadNode) :
    ∀ (l : List (P3 × P3)) (st : BuildState), st.nodes = [n0] → st.edges = [] →
    (∀ pr ∈ l, distV n0.p pr.1 ≤ MERGE_EPS ∧ distV n0.p pr.2 ≤ MERGE_EPS) →
    l.foldl (fun s pr => addSegment s pr.1 pr.2) st = ⟨[n0], []⟩ := by
  intro l
  induction l with
  | nil =>
    intro st h1 h2 _
    rw [List.foldl_nil]
    cases st
    simp only at h1 h2
    rw [h1, h2]
  | cons pr l ih =>
    intro st h1 h2 hnear
    rw [List.foldl_cons]
    have hstep : addSegment st pr.1 pr.2 = ⟨[n0], st.edges⟩ :=
      addSegment_both_near st n0 h1 pr.1 pr.2 (hnear pr (by simp)).1
        (hnear pr (by simp)).2
    rw [hstep]
    exact ih ⟨[n0], st.edges⟩ rfl (by simpa using h2)
      (fun pr2 hpr2 => hnear pr2 (by simp [hpr2]))

theorem floor_small_nonneg (x : ℝ) (h0 : 0 ≤ x) (h1 : x < 1) : ⌊x⌋ = 0 := by
  rw [Int.floor_eq_zero_iff]
  exact ⟨h0, h1⟩

/-- The builder samples the chain curve at 11 points, 0.9 apart. -/
theorem spacedPoints_chainCurve :
    spacedPointsFromCurve chainCurve
      = (List.range 11).map (fun i => ⟨0.9 * (i : ℝ), 0, 0⟩) := by
  unfold spacedPointsFromCurve
  have h1 : max (1 : ℝ) chainCurve.getLength = 9 := by
    show max (1 : ℝ) 9 = 9
    norm_num
  rw [h1]
  have h2 : ⌊(9 : ℝ) / 100 * ROAD_SAMPLE_DENSITY⌋ = 0 := by
    apply floor_small_nonneg <;> unfold ROAD_SAMPLE_DENSITY <;> norm_num
  simp only [h2]
  rfl

/-- The builder samples the tiny curve at 11 points, 0.09 apart. -/
theorem spacedPoints_tinyCurve :
    spacedPointsFromCurve tinyCurve
      = (List.range 11).map (fun i => ⟨0.09 * (i : ℝ), 0, 0⟩) := by
  unfold spacedPointsFromCurve
  have h1 : max (1 : ℝ) tinyCurve.getLength = 1 := by
    show max (1 : ℝ) 0.9 = 1
    norm_num
  rw [h1]
  have h2 : ⌊(1 : ℝ) / 100 * ROAD_SAMPLE_DENSITY⌋ = 0 := by
    apply floor_small_nonneg <;> unfold ROAD_SAMPLE_DENSITY <;> norm_num
  simp only [h2]
  rfl

/-- The builder samples the zigzag curve at 11 points: 0, 0.9, then -0.9
repeated. -/
theorem spacedPoints_zigzagCurve :
    spacedPointsFromCurve zigzagCurve
      = (List.range 11).map
          (fun i => if i = 0 then ⟨0, 0, 0⟩ else if i = 1 then ⟨0.9, 0, 0⟩
            else ⟨-0.9, 0, 0⟩) := by
  unfold spacedPointsFromCurve
  have h1 : max (1 : ℝ) zigzagCurve.getLength = 2 := by
    show max (1 : ℝ) 2 = 2
    norm_num
  rw [h1]
  have h2 : ⌊(2 : ℝ) / 100 * ROAD_SAMPLE_DENSITY⌋ = 0 := by
    apply floor_small_nonneg <;> unfold ROAD_SAMPLE_DENSITY <;> norm_num
  simp only [h2]
  rfl

theorem distV_xaxis_le (a b c : ℝ) (h1 : a - b ≤ c) (h2 : b - a ≤ c) :
    distV ⟨a, 0, 0⟩ ⟨b, 0, 0⟩ ≤ c := by
  rw [distV_xaxis]
  exact abs_sub_le_iff.mpr ⟨h1, h2⟩

theorem distV_xaxis_lt (a b c : ℝ) (h : c < a - b ∨ c < b - a) :
    c < distV ⟨a, 0, 0⟩ ⟨b, 0, 0⟩ := by
  rw [distV_xaxis]
  rcases h with h | h
  · exact lt_of_lt_of_le h (le_abs_self _)
  · exact lt_of_lt_of_le h (by rw [abs_sub_comm]; exact le_abs_self _)

/-- The first segment of a curve whose endpoints merge: one node, no
edge. -/
theorem addSegment_empty_near (p q : P3) (h : distV p q ≤ MERGE_EPS) :
    addSegment ⟨[], []⟩ p q = ⟨[⟨0, p, []⟩], []⟩ := by
  have f1 : findOrCreateNode ([] : List RoadNode) p = ([⟨0, p, []⟩], 0) := by
    simpa using findOrCreateNode_new [] p rfl
  have f2 : findOrCreateNode [(⟨0, p, []⟩ : RoadNode)] q = ([⟨0, p, []⟩], 0) := by
    have := findOrCreateNode_found [⟨0, p, []⟩] q ⟨0, p, []⟩
      (List.find?_cons_of_pos _ (by simpa using h))
    simpa using this
  unfold addSegment
  rw [f1]
  simp only [f2]
  rw [if_pos trivial]

/-- The first segment of a curve whose endpoints do not merge: two nodes
and an edge. -/
theorem addSegment_empty_far (p q : P3) (h : MERGE_EPS < distV p q) :
    ∃ e, (addSegment ⟨[], []⟩ p q).edges = [e] := by
  have f1 : findOrCreateNode ([] : List RoadNode) p = ([⟨0, p, []⟩], 0) := by
    simpa using findOrCreateNode_new [] p rfl
  have f2 : findOrCreateNode [(⟨0, p, []⟩ : RoadNode)] q
      = ([⟨0, p, []⟩] ++ [⟨1, q, []⟩], 1) := by
    have hnone : List.find? (fun n => distV n.p q ≤ MERGE_EPS) [(⟨0, p, []⟩ : RoadNode)]
        = none := by
      rw [List.find?_cons_of_neg]
      · rfl
      · simp
        exact h
    simpa using findOrCreateNode_new [⟨0, p, []⟩] q hnone
  unfold addSegment
  rw [f1]
  simp only [f2]
  rw [if_neg (by norm_num)]
  rw [if_neg (by simp)]
  exact ⟨_, rfl⟩

theorem addSegment_edges_mono (st : BuildState) (p q : P3) :
    ∃ tail, (addSegment st p q).edges = st.edges ++ tail := by
  show (fun stR => ∃ tail, stR.edges = st.edges ++ tail) (addSegment st p q)
  unfold addSegment
  lift_lets
  extract_lets r0 r1 nodes n0 n1
  split_ifs with hnn
  · exact ⟨[], by simp⟩
  · extract_lets exists0
    split_ifs with hex
    · exact ⟨[], by simp⟩
    · extract_lets L e
      exact ⟨[e], rfl⟩

theorem foldSeg_edges_mono : ∀ (l : List (P3 × P3)) (st : BuildState),
    ∃ tail, (l.foldl (fun s pr => addSegment s pr.1 pr.2) st).edges
      = st.edges ++ tail := by
  intro l
  induction l with
  | nil => exact fun st => ⟨[], by simp⟩
  | cons pr l ih =>
    intro st
    obtain ⟨t1, ht1⟩ := addSegment_edges_mono st pr.1 pr.2
    obtain ⟨t2, ht2⟩ := ih (addSegment st pr.1 pr.2)
    exact ⟨t1 ++ t2, by rw [List.foldl_cons, ht2, ht1, List.append_assoc]⟩

/-- If a single curve's build from the empty state creates no edge, then
every sample merges with the node at the first sample. -/
theorem no_edge_all_near (p0 : P3) : ∀ (rest : List P3) (prev : P3),
    distV p0 prev ≤ MERGE_EPS →
    (((prev :: rest).zip rest).foldl (fun s pr => addSegment s pr.1 pr.2)
      ⟨[⟨0, p0, []⟩], []⟩).edges = [] →
    ∀ q ∈ rest, distV p0 q ≤ MERGE_EPS := by
  intro rest
  induction rest with
  | nil =>
    intro prev _ _ q hq
    simp at hq
  | cons q rest ih =>
    intro prev hprev hrun q2 hq2
    rw [show (prev :: q :: rest).zip (q :: rest)
        = (prev, q) :: ((q :: rest).zip rest) from rfl, List.foldl_cons] at hrun
    by_cases hnear : distV p0 q ≤ MERGE_EPS
    · rw [addSegment_both_near _ ⟨0, p0, []⟩ rfl prev q hprev hnear] at hrun
      rcases List.mem_cons.mp hq2 with rfl | hq2
      · exact hnear
      · exact ih q hnear hrun q2 hq2
    · exfalso
      obtain ⟨e, he⟩ := addSegment_creates ⟨[⟨0, p0, []⟩], []⟩ ⟨0, p0, []⟩ rfl rfl rfl
        prev q hprev (lt_of_not_le hnear)
      obtain ⟨tail, htail⟩ := foldSeg_edges_mono ((q :: rest).zip rest)
        (addSegment ⟨[⟨0, p0, []⟩], []⟩ prev q)
      rw [htail, he] at hrun
      simp at hrun

theorem chainCurve_samples :
    spacedPointsFromCurve chainCurve
      = [⟨0, 0, 0⟩, ⟨0.9, 0, 0⟩, ⟨1.8, 0, 0⟩, ⟨2.7, 0, 0⟩, ⟨3.6, 0, 0⟩,
          ⟨4.5, 0, 0⟩, ⟨5.4, 0, 0⟩, ⟨6.3, 0, 0⟩, ⟨7.2, 0, 0⟩, ⟨8.1, 0, 0⟩,
          ⟨9, 0, 0⟩] := by
  rw [spacedPoints_chainCurve]
  have hr : List.range 11 = [0, 1, 2, 3, 4, 5, 6, 7, 8, 9, 10] := rfl
  rw [hr]
  simp only [List.map_cons, List.map_nil]
  norm_num [P3.mk.injEq]

theorem tinyCurve_samples :
    spacedPointsFromCurve tinyCurve
      = [⟨0, 0, 0⟩, ⟨0.09, 0, 0⟩, ⟨0.18, 0, 0⟩, ⟨0.27, 0, 0⟩, ⟨0.36, 0, 0⟩,
          ⟨0.45, 0, 0⟩, ⟨0.54, 0, 0⟩, ⟨0.63, 0, 0⟩, ⟨0.72, 0, 0⟩, ⟨0.81, 0, 0⟩,
          ⟨0.9, 0, 0⟩] := by
  rw [spacedPoints_tinyCurve]
  have hr : List.range 11 = [0, 1, 2, 3, 4, 5, 6, 7, 8, 9, 10] := rfl
  rw [hr]
  simp only [List.map_cons, List.map_nil]
  norm_num [P3.mk.injEq]

theorem zigzagCurve_samples :
    spacedPointsFromCurve zigzagCurve
      = [⟨0, 0, 0⟩, ⟨0.9, 0, 0⟩, ⟨-0.9, 0, 0⟩, ⟨-0.9, 0, 0⟩, ⟨-0.9, 0, 0⟩,
          ⟨-0.9, 0, 0⟩, ⟨-0.9, 0, 0⟩, ⟨-0.9, 0, 0⟩, ⟨-0.9, 0, 0⟩, ⟨-0.9, 0, 0⟩,
          ⟨-0.9, 0, 0⟩] := by
  rw [spacedPoints_zigzagCurve]
  have hr : List.range 11 = [0, 1, 2, 3, 4, 5, 6, 7, 8, 9, 10] := rfl
  rw [hr]
  simp only [List.map_cons, List.map_nil]
  norm_num [P3.mk.injEq]

/-- C5 counterexample: both halves of the merge claim fail on the code.
During construction of the chain curve, its second and third samples are
0.9 ≤ MERGE_EPS apart yet the builder resolves them to different nodes
(ids 0 and 1); during construction of the zigzag curve, its second and
third samples are 1.8 > MERGE_EPS apart yet both resolve to node 0.  Each
resolution below is the findOrCreateNode call addSegment performs at the
genuine intermediate state of the build. -/
theorem merge_eps_claim_false :
    (∃ p0 p1 p2,
      (consecPairs (spacedPointsFromCurve chainCurve)).take 2
        = [(p0, p1), (p1, p2)] ∧
      distV p1 p2 ≤ MERGE_EPS ∧
      (findOrCreateNode (addSegment ⟨[], []⟩ p0 p1).nodes p1).2 = 0 ∧
      (findOrCreateNode (findOrCreateNode (addSegment ⟨[], []⟩ p0 p1).nodes p1).1
        p2).2 = 1) ∧
    (∃ q0 q1 q2,
      (consecPairs (spacedPointsFromCurve zigzagCurve)).take 2
        = [(q0, q1), (q1, q2)] ∧
      MERGE_EPS < distV q1 q2 ∧
      (findOrCreateNode (addSegment ⟨[], []⟩ q0 q1).nodes q1).2 = 0 ∧
      (findOrCreateNode (findOrCreateNode (addSegment ⟨[], []⟩ q0 q1).nodes q1).1
        q2).2 = 0) := by
  have hME : MERGE_EPS = 1 := by unfold MERGE_EPS; norm_num
  constructor
  · refine ⟨⟨0, 0, 0⟩, ⟨0.9, 0, 0⟩, ⟨1.8, 0, 0⟩, ?_, ?_, ?_, ?_⟩
    · rw [chainCurve_samples]
      rfl
    · apply distV_xaxis_le <;> rw [hME] <;> norm_num
    · rw [addSegment_empty_near _ _ (by apply distV_xaxis_le <;> rw [hME] <;> norm_num)]
      rw [findOrCreateNode_found _ _ ⟨0, ⟨0, 0, 0⟩, []⟩
        (List.find?_cons_of_pos _ (by
          simp only [decide_eq_true_eq]
          apply distV_xaxis_le <;> rw [hME] <;> norm_num))]
    · rw [addSegment_empty_near _ _ (by apply distV_xaxis_le <;> rw [hME] <;> norm_num)]
      rw [findOrCreateNode_found _ _ ⟨0, ⟨0, 0, 0⟩, []⟩
        (List.find?_cons_of_pos _ (by
          simp only [decide_eq_true_eq]
          apply distV_xaxis_le <;> rw [hME] <;> norm_num))]
      rw [findOrCreateNode_new _ _ (by
        rw [List.find?_cons_of_neg]
        · rfl
        · simp only [decide_eq_true_eq, not_le]
          apply distV_xaxis_lt
          rw [hME]
          norm_num)]
      rfl
  · refine ⟨⟨0, 0, 0⟩, ⟨0.9, 0, 0⟩, ⟨-0.9, 0, 0⟩, ?_, ?_, ?_, ?_⟩
    · rw [zigzagCurve_samples]
      rfl
    · apply distV_xaxis_lt
      rw [hME]
      norm_num
    · rw [addSegment_empty_near _ _ (by apply distV_xaxis_le <;> rw [hME] <;> norm_num)]
      rw [findOrCreateNode_found _ _ ⟨0, ⟨0, 0, 0⟩, []⟩
        (List.find?_cons_of_pos _ (by
          simp only [decide_eq_true_eq]
          apply distV_xaxis_le <;> rw [hME] <;> norm_num))]
    · rw [addSegment_empty_near _ _ (by apply distV_xaxis_le <;> rw [hME] <;> norm_num)]
      rw [findOrCreateNode_found _ _ ⟨0, ⟨0, 0, 0⟩, []⟩
        (List.find?_cons_of_pos _ (by
          simp only [decide_eq_true_eq]
          apply distV_xaxis_le <;> rw [hME] <;> norm_num))]
      rw [findOrCreateNode_found _ _ ⟨0, ⟨0, 0, 0⟩, []⟩
        (List.find?_cons_of_pos _ (by
          simp only [decide_eq_true_eq]
          apply distV_xaxis_le <;> rw [hME] <;> norm_num))]

/-- C5 amended: each sample point resolves to a node whose stored position
is within MERGE_EPS of it, and a fresh node — placed exactly at the point,
with id = node count — is created precisely when every existing node
position is farther than MERGE_EPS.  (Merging is relative to stored node
positions, not pairwise between sample points.) -/
theorem findOrCreateNode_merge_spec (nodes : List RoadNode) (p : P3)
    (hids : ∀ j n, nodes.get? j = some n → n.id = j) :
    (∃ n2, (findOrCreateNode nodes p).1.get? (findOrCreateNode nodes p).2 = some n2 ∧
      distV n2.p p ≤ MERGE_EPS) ∧
    (((findOrCreateNode nodes p).1 = nodes ∧ ∃ n ∈ nodes, distV n.p p ≤ MERGE_EPS) ∨
      ((findOrCreateNode nodes p).1 = nodes ++ [⟨nodes.length, p, []⟩] ∧
        (findOrCreateNode nodes p).2 = nodes.length ∧
        ∀ n ∈ nodes, MERGE_EPS < distV n.p p)) := by
  rcases findOrCreateNode_cases nodes p with ⟨n, hn, heq, hd⟩ | ⟨heq, hfar⟩
  · rw [heq]
    constructor
    · refine ⟨n, ?_, hd⟩
      rcases List.mem_iff_get.mp hn with ⟨⟨i, hi⟩, rfl⟩
      have hid : (nodes.get ⟨i, hi⟩).id = i := hids i _ (List.get?_eq_get hi)
      show nodes.get? (nodes.get ⟨i, hi⟩).id = _
      rw [hid]
      exact (List.get?_eq_get hi).symm ▸ (List.get?_eq_get hi)
    · exact Or.inl ⟨rfl, n, hn, hd⟩
  · rw [heq]
    constructor
    · refine ⟨⟨nodes.length, p, []⟩, ?_, ?_⟩
      · show (nodes ++ [(⟨nodes.length, p, []⟩ : RoadNode)]).get? nodes.length = _
        exact List.get?_concat_length _ _
      · rw [distV_self]
        rw [show MERGE_EPS = 1 by unfold MERGE_EPS; norm_num]
        norm_num
    · exact Or.inr ⟨rfl, rfl, hfar⟩

/-- C5 amended witness: resolving the origin against an empty node set
creates node 0 at the origin. -/
theorem findOrCreateNode_merge_spec_witness :
    (∀ j n, ([] : List RoadNode).get? j = some n → n.id = j) ∧
    ((∃ n2, (findOrCreateNode [] ⟨0, 0, 0⟩).1.get?
        (findOrCreateNode [] ⟨0, 0, 0⟩).2 = some n2 ∧
      distV n2.p ⟨0, 0, 0⟩ ≤ MERGE_EPS) ∧
    (((findOrCreateNode [] ⟨0, 0, 0⟩).1 = [] ∧
        ∃ n ∈ ([] : List RoadNode), distV n.p ⟨0, 0, 0⟩ ≤ MERGE_EPS) ∨
      ((findOrCreateNode [] ⟨0, 0, 0⟩).1 = [] ++ [⟨0, ⟨0, 0, 0⟩, []⟩] ∧
        (findOrCreateNode [] ⟨0, 0, 0⟩).2 = 0 ∧
        ∀ n ∈ ([] : List RoadNode), MERGE_EPS < distV n.p ⟨0, 0, 0⟩))) := by
  have hids : ∀ j n, ([] : List RoadNode).get? j = some n → n.id = j := by
    intro j n h
    simp at h
  exact ⟨hids, findOrCreateNode_merge_spec [] ⟨0, 0, 0⟩ hids⟩

theorem buildTopology_single (c : Curve3) :
    buildTopology [c] = addCurvePts ⟨[], []⟩ (spacedPointsFromCurve c) := rfl

/-- One curve whose samples all merge into the first node builds a single
node and no edge. -/
theorem addCurvePts_all_near (p0 q : P3) (rest : List P3)
    (hnear : ∀ x ∈ p0 :: q :: rest, distV p0 x ≤ MERGE_EPS) :
    addCurvePts ⟨[], []⟩ (p0 :: q :: rest) = ⟨[⟨0, p0, []⟩], []⟩ := by
  unfold addCurvePts consecPairs
  rw [show (p0 :: q :: rest).zip (p0 :: q :: rest).tail
      = (p0, q) :: ((q :: rest).zip rest) from rfl]
  rw [List.foldl_cons]
  rw [addSegment_empty_near p0 q (hnear q (by simp))]
  apply foldSeg_stay ⟨0, p0, []⟩ _ _ rfl rfl
  intro pr hpr
  rcases pr with ⟨x, y⟩
  have hz := List.of_mem_zip hpr
  exact ⟨hnear x (List.mem_cons_of_mem _ hz.1),
    hnear y (List.mem_cons_of_mem _ (List.mem_cons_of_mem _ hz.2))⟩

/-- C6 counterexample: the tiny curve's sampled polyline has 11 ≥ 2 points,
yet graph construction yields no edge at all, because every sample lies
within MERGE_EPS of the first and the whole polyline merges into one
node. -/
theorem tinyCurve_no_edges :
    2 ≤ (spacedPointsFromCurve tinyCurve).length ∧
    (buildRoadGraphFromCurves [tinyCurve] (fun _ => none)).edges = [] := by
  constructor
  · rw [tinyCurve_samples]
    simp
  · have hnear : ∀ x ∈ spacedPointsFromCurve tinyCurve,
        distV ⟨0, 0, 0⟩ x ≤ MERGE_EPS := by
      intro x hx
      rw [tinyCurve_samples] at hx
      simp only [List.mem_cons, List.not_mem_nil, or_false] at hx
      rcases hx with rfl | rfl | rfl | rfl | rfl | rfl | rfl | rfl | rfl | rfl | rfl <;>
        (apply distV_xaxis_le <;> rw [show MERGE_EPS = 1 by unfold MERGE_EPS; norm_num] <;> norm_num)
    have hdecomp := tinyCurve_samples
    unfold buildRoadGraphFromCurves
    rw [buildTopology_single]
    rw [hdecomp]
    rw [addCurvePts_all_near _ _ _ (by rw [← hdecomp]; exact hnear)]
    rfl

/-- C6 amended: an input polyline with fewer than two points produces no
curve at all (tubeFromPoints is null), and a road curve one of whose
samples lies farther than MERGE_EPS from the first sample always produces
at least one edge; only curves whose samples all merge into the first node
(short curves) produce none. -/
theorem curve_with_far_sample_yields_edge (c : Curve3) (ray : P3 → Option ℝ)
    (mk : List P3 → Curve3) (p0 q : P3) (rest : List P3)
    (hpts : spacedPointsFromCurve c = p0 :: rest) (hq : q ∈ rest)
    (hfar : MERGE_EPS < distV p0 q) :
    (buildRoadGraphFromCurves [c] ray).edges ≠ [] ∧
    ∀ pts : List P3, pts.length < 2 → tubeFromPoints mk pts = none := by
  refine ⟨?_, fun pts h => by unfold tubeFromPoints; rw [if_pos h]⟩
  intro hempty
  have htopo : (buildTopology [c]).edges = [] := by
    unfold buildRoadGraphFromCurves at hempty
    simpa using hempty
  rw [buildTopology_single, hpts] at htopo
  rcases rest with _ | ⟨q1, rest'⟩
  · simp at hq
  · unfold addCurvePts consecPairs at htopo
    rw [show (p0 :: q1 :: rest').zip (p0 :: q1 :: rest').tail
        = (p0, q1) :: ((q1 :: rest').zip rest') from rfl, List.foldl_cons] at htopo
    by_cases hn1 : distV p0 q1 ≤ MERGE_EPS
    · rw [addSegment_empty_near p0 q1 hn1] at htopo
      have hall := no_edge_all_near p0 rest' q1 hn1 htopo
      rcases List.mem_cons.mp hq with rfl | hq
      · exact absurd hn1 (not_le.mpr hfar)
      · exact absurd (hall q hq) (not_le.mpr hfar)
    · obtain ⟨e, he⟩ := addSegment_empty_far p0 q1 (lt_of_not_le hn1)
      obtain ⟨tail, htail⟩ := foldSeg_edges_mono ((q1 :: rest').zip rest') _
      rw [htail, he] at htopo
      simp at htopo

/-- C6 amended witness: the chain curve has a sample 1.8 > MERGE_EPS from
its first sample, and indeed builds at least one edge. -/
theorem curve_with_far_sample_yields_edge_witness :
    (spacedPointsFromCurve chainCurve
        = ⟨0, 0, 0⟩ :: [⟨0.9, 0, 0⟩, ⟨1.8, 0, 0⟩, ⟨2.7, 0, 0⟩, ⟨3.6, 0, 0⟩,
            ⟨4.5, 0, 0⟩, ⟨5.4, 0, 0⟩, ⟨6.3, 0, 0⟩, ⟨7.2, 0, 0⟩, ⟨8.1, 0, 0⟩,
            ⟨9, 0, 0⟩] ∧
      (⟨1.8, 0, 0⟩ : P3) ∈ [(⟨0.9, 0, 0⟩ : P3), ⟨1.8, 0, 0⟩, ⟨2.7, 0, 0⟩,
          ⟨3.6, 0, 0⟩, ⟨4.5, 0, 0⟩, ⟨5.4, 0, 0⟩, ⟨6.3, 0, 0⟩, ⟨7.2, 0, 0⟩,
          ⟨8.1, 0, 0⟩, ⟨9, 0, 0⟩] ∧
      MERGE_EPS < distV ⟨0, 0, 0⟩ ⟨1.8, 0, 0⟩) ∧
    ((buildRoadGraphFromCurves [chainCurve] (fun _ => none)).edges ≠ [] ∧
      ∀ pts : List P3, pts.length < 2 →
        tubeFromPoints (fun _ => chainCurve) pts = none) := by
  have h1 : spacedPointsFromCurve chainCurve = _ := chainCurve_samples
  have h2 : (⟨1.8, 0, 0⟩ : P3) ∈ [(⟨0.9, 0, 0⟩ : P3), ⟨1.8, 0, 0⟩, ⟨2.7, 0, 0⟩,
      ⟨3.6, 0, 0⟩, ⟨4.5, 0, 0⟩, ⟨5.4, 0, 0⟩, ⟨6.3, 0, 0⟩, ⟨7.2, 0, 0⟩,
      ⟨8.1, 0, 0⟩, ⟨9, 0, 0⟩] := by simp
  have h3 : MERGE_EPS < distV ⟨0, 0, 0⟩ ⟨1.8, 0, 0⟩ := by
    apply distV_xaxis_lt
    rw [show MERGE_EPS = 1 by unfold MERGE_EPS; norm_num]
    norm_num
  exact ⟨⟨h1, h2, h3⟩,
    curve_with_far_sample_yields_edge chainCurve (fun _ => none)
      (fun _ => chainCurve) ⟨0, 0, 0⟩ ⟨1.8, 0, 0⟩ _ h1 h2 h3⟩

end BuilderTheorems

section AStarTheorems

theorem oLT_irrefl (x : Option ℝ) : ¬ oLT x x := by
  cases x <;> simp [oLT]

theorem oLT_trans {x y z : Option ℝ} (h1 : oLT x y) (h2 : oLT y z) : oLT x z := by
  cases x <;> cases y <;> cases z <;> simp [oLT] at * <;> linarith

/-- The selection fold: characterisation of the first strict minimum. -/
theorem selBest_fold (fsc : ℕ → Option ℝ) :
    ∀ (l : List ℕ) (acc : Option ℕ × Option ℝ),
    (∀ m, acc.1 = some m → acc.2 = fsc m ∧ ∃ v, fsc m = some v) →
    (acc.1 = none → acc.2 = none) →
    (∀ m, (l.foldl (fun best n => if oLT (fsc n) best.2 then (some n, fsc n) else best)
        acc).1 = some m →
      ((l.foldl (fun best n => if oLT (fsc n) best.2 then (some n, fsc n) else best)
        acc).2 = fsc m ∧ ∃ v, fsc m = some v ∧ (m ∈ l ∨ acc.1 = some m))) ∧
    ((l.foldl (fun best n => if oLT (fsc n) best.2 then (some n, fsc n) else best)
        acc).1 = none →
      (acc.1 = none ∧ ∀ n ∈ l, fsc n = none)) ∧
    (∀ x, oLT x (l.foldl (fun best n => if oLT (fsc n) best.2 then (some n, fsc n)
        else best) acc).2 → oLT x acc.2) ∧
    (∀ n ∈ l, ¬ oLT (fsc n)
      (l.foldl (fun best n => if oLT (fsc n) best.2 then (some n, fsc n) else best)
        acc).2) := by
  intro l
  induction l with
  | nil =>
    intro acc h1 h2
    refine ⟨?_, ?_, ?_, ?_⟩
    · intro m hm
      obtain ⟨hv, v, hfv⟩ := h1 m hm
      exact ⟨hv, v, hfv, Or.inr hm⟩
    · intro hm
      exact ⟨hm, by simp⟩
    · intro x hx
      exact hx
    · intro n hn
      simp at hn
  | cons a l ih =>
    intro acc h1 h2
    rw [List.foldl_cons]
    by_cases hlt : oLT (fsc a) acc.2
    · rw [if_pos hlt]
      have hfa : ∃ v, fsc a = some v := by
        rcases hfa : fsc a with _ | v
        · rw [hfa] at hlt
          simp [oLT] at hlt
        · exact ⟨v, rfl⟩
      obtain ⟨ihA, ihB, ihC, ihD⟩ := ih (some a, fsc a)
        (fun m hm => by cases hm; exact ⟨rfl, hfa⟩) (by intro h; cases h)
      refine ⟨?_, ?_, ?_, ?_⟩
      · intro m hm
        obtain ⟨hv, v, hfv, hmem⟩ := ihA m hm
        refine ⟨hv, v, hfv, ?_⟩
        rcases hmem with hmem | hmem
        · exact Or.inl (List.mem_cons_of_mem _ hmem)
        · cases hmem
          exact Or.inl (by simp)
      · intro hm
        obtain ⟨hnone, _⟩ := ihB hm
        cases hnone
      · intro x hx
        exact oLT_trans (ihC x hx) hlt
      · intro n hn
        rcases List.mem_cons.mp hn with rfl | hn
        · intro hcon
          exact oLT_irrefl _ (ihC _ hcon)
        · exact ihD n hn
    · rw [if_neg hlt]
      obtain ⟨ihA, ihB, ihC, ihD⟩ := ih acc h1 h2
      refine ⟨?_, ?_, ?_, ?_⟩
      · intro m hm
        obtain ⟨hv, v, hfv, hmem⟩ := ihA m hm
        refine ⟨hv, v, hfv, ?_⟩
        rcases hmem with hmem | hmem
        · exact Or.inl (List.mem_cons_of_mem _ hmem)
        · exact Or.inr hmem
      · intro hm
        obtain ⟨hacc, hall⟩ := ihB hm
        refine ⟨hacc, fun n hn => ?_⟩
        rcases List.mem_cons.mp hn with rfl | hn
        · rcases hfa : fsc n with _ | v
          · rfl
          · exfalso
            rw [h2 hacc, hfa] at hlt
            exact hlt trivial
        · exact hall n hn
      · exact fun x hx => ihC x hx
      · intro n hn
        rcases List.mem_cons.mp hn with rfl | hn
        · intro hcon
          exact hlt (ihC _ hcon)
        · exact ihD n hn

/-- selBest returning a node: it is a member, its fScore is finite and
minimal over the open list. -/
theorem selBest_some (fsc : ℕ → Option ℝ) (l : List ℕ) (cur : ℕ)
    (h : (selBest fsc l).1 = some cur) :
    cur ∈ l ∧ ∃ fc, fsc cur = some fc ∧
      ∀ n ∈ l, ∀ fn, fsc n = some fn → fc ≤ fn := by
  obtain ⟨ihA, _, _, ihD⟩ := selBest_fold fsc l (none, none) (by intro m hm; cases hm)
    (fun _ => rfl)
  obtain ⟨hv, v, hfv, hmem⟩ := ihA cur h
  refine ⟨?_, v, hfv, ?_⟩
  · rcases hmem with hmem | hmem
    · exact hmem
    · cases hmem
  · intro n hn fn hfn
    have hnot := ihD n hn
    rw [hv, hfv, hfn] at hnot
    simp [oLT] at hnot
    exact hnot

/-- selBest returning null: every open entry has a missing fScore. -/
theorem selBest_none (fsc : ℕ → Option ℝ) (l : List ℕ)
    (h : (selBest fsc l).1 = none) : ∀ n ∈ l, fsc n = none := by
  obtain ⟨_, ihB, _, _⟩ := selBest_fold fsc l (none, none) (by intro m hm; cases hm)
    (fun _ => rfl)
  exact (ihB h).2

/-- Appending one edge to a walk. -/
theorem IsWalk_snoc (g : RoadGraph) {u w : ℕ} {es : List ℕ}
    (hw : IsWalk g u es w) : ∀ (eid : ℕ) (e : RoadEdge) (z : ℕ),
    g.edges.get? eid = some e → EdgeConn e w z →
    IsWalk g u (es ++ [eid]) z := by
  induction hw with
  | nil u =>
    intro eid e z he hc
    exact IsWalk.cons u z z eid [] e he hc (IsWalk.nil z)
  | cons u v w2 eid2 es2 e2 he2 hc2 _ ih =>
    intro eid e z he hc
    exact IsWalk.cons u v z eid2 _ e2 he2 hc2 (ih eid e z he hc)

/-- Decomposing a walk at its last edge. -/
theorem IsWalk_snoc_inv (g : RoadGraph) {u z : ℕ} {es : List ℕ} {eid : ℕ}
    (hw : IsWalk g u (es ++ [eid]) z) :
    ∃ m e, IsWalk g u es m ∧ g.edges.get? eid = some e ∧ EdgeConn e m z := by
  induction es generalizing u with
  | nil =>
    rcases hw with _ | ⟨u, v, w, eid1, es1, e, he, hc, htail⟩
    rcases htail with _ | _
    exact ⟨u, e, IsWalk.nil u, he, hc⟩
  | cons a es ih =>
    rcases hw with _ | ⟨u, v, w, eid1, es1, e, he, hc, htail⟩
    obtain ⟨m, e2, hw2, he2, hc2⟩ := ih htail
    exact ⟨m, e2, IsWalk.cons u v m a es e he hc hw2, he2, hc2⟩

theorem walkCost_nil (g : RoadGraph) (costFn : RoadEdge → ℝ) :
    walkCost g costFn [] = 0 := rfl

theorem walkCost_append (g : RoadGraph) (costFn : RoadEdge → ℝ) (es1 es2 : List ℕ) :
    walkCost g costFn (es1 ++ es2) = walkCost g costFn es1 + walkCost g costFn es2 := by
  unfold walkCost
  rw [List.map_append, List.sum_append]

theorem walkCost_single (g : RoadGraph) (costFn : RoadEdge → ℝ) (eid : ℕ)
    (e : RoadEdge) (he : g.edges.get? eid = some e) :
    walkCost g costFn [eid] = costFn e := by
  unfold walkCost
  rw [List.map_cons, List.map_nil, List.sum_cons, List.sum_nil, he, add_zero,
    Option.getD_some]

/-- Every edge of the graph can be looked up at its own id. -/
theorem GraphWF.get_of_mem {g : RoadGraph} (hWF : GraphWF g) {e : RoadEdge}
    (he : e ∈ g.edges) : g.edges.get? e.id = some e := by
  rcases List.mem_iff_get.mp he with ⟨⟨j, hj⟩, rfl⟩
  have := hWF.edgeIds j _ (List.get?_eq_get hj)
  rw [this]
  exact List.get?_eq_get hj

theorem heur_self (g : RoadGraph) (n : ℕ) : heur g n n = 0 := by
  unfold heur
  exact distV_self _

theorem fupd_same {α : Type} (f : ℕ → Option α) (k : ℕ) (v : α) :
    fupd f k v k = some v := by
  simp [fupd]

theorem fupd_ne {α : Type} (f : ℕ → Option α) (k m : ℕ) (v : α) (h : m ≠ k) :
    fupd f k v m = f m := by
  simp [fupd, h]

theorem mem_addOpen {l : List ℕ} {n m : ℕ} :
    n ∈ addOpen l m ↔ n ∈ l ∨ n = m := by
  unfold addOpen
  split_ifs with h
  · constructor
    · exact fun hn => Or.inl hn
    · rintro (hn | rfl)
      · exact hn
      · exact h
  · simp [List.mem_append]

theorem addOpen_self (l : List ℕ) (m : ℕ) : m ∈ addOpen l m :=
  mem_addOpen.mpr (Or.inr rfl)

theorem addOpen_mono {l : List ℕ} {n : ℕ} (m : ℕ) (h : n ∈ l) :
    n ∈ addOpen l m :=
  mem_addOpen.mpr (Or.inl h)

theorem addOpen_nodup {l : List ℕ} (m : ℕ) (h : l.Nodup) :
    (addOpen l m).Nodup := by
  unfold addOpen
  split_ifs with hm
  · exact h
  · simp [List.nodup_append, h, hm]

theorem addOpen_length (l : List ℕ) (m : ℕ) :
    (addOpen l m).length ≤ l.length + 1 := by
  unfold addOpen
  split_ifs with hm
  · omega
  · simp

theorem EdgeConn_step {e : RoadEdge} {u v : ℕ} (h : EdgeConn e u v) :
    v = if e.a = u then e.b else e.a := by
  rcases h with ⟨ha, hb⟩ | ⟨ha, hb⟩
  · rw [if_pos ha, hb]
  · by_cases hc : e.a = u
    · rw [if_pos hc]
      rw [hc] at ha
      rw [← ha, hb]
    · rw [if_neg hc, ha]

theorem not_oLT_some {t : ℝ} {y : Option ℝ} (h : ¬ oLT (some t) y) :
    ∃ b, y = some b ∧ b ≤ t := by
  cases y with
  | none => exact absurd trivial h
  | some b =>
    refine ⟨b, rfl, ?_⟩
    by_contra hc
    exact h (by simpa [oLT] using lt_of_not_le hc)

theorem oLT_some_some {a b : ℝ} (h : oLT (some a) (some b)) : a < b := h

theorem cntFin_congr (g : RoadGraph) {σ σ2 : AState}
    (h : ∀ m, (σ2.gsc m).isSome = (σ.gsc m).isSome) : cntFin g σ2 = cntFin g σ := by
  unfold cntFin
  congr 1
  apply Finset.filter_congr
  intro m _
  rw [h]

theorem cntFin_fresh (g : RoadGraph) {σ σ2 : AState} (nb : ℕ) (tent : ℝ)
    (hgsc : σ2.gsc = fupd σ.gsc nb tent) (hnone : σ.gsc nb = none)
    (hdom : nb < g.nodes.length) : cntFin g σ2 = cntFin g σ + 1 := by
  unfold cntFin
  rw [hgsc]
  have hset : (Finset.range g.nodes.length).filter
      (fun m => (fupd σ.gsc nb tent m).isSome) =
      insert nb ((Finset.range g.nodes.length).filter (fun m => (σ.gsc m).isSome)) := by
    ext m
    simp only [Finset.mem_filter, Finset.mem_insert, Finset.mem_range]
    constructor
    · rintro ⟨hm, hs⟩
      by_cases hmn : m = nb
      · exact Or.inl hmn
      · right
        refine ⟨hm, ?_⟩
        rwa [fupd_ne _ _ _ _ hmn] at hs
    · rintro (rfl | ⟨hm, hs⟩)
      · refine ⟨hdom, ?_⟩
        rw [fupd_same]
        rfl
      · have hmn : m ≠ nb := by
          rintro rfl
          rw [hnone] at hs
          cases hs
        refine ⟨hm, ?_⟩
        rwa [fupd_ne _ _ _ _ hmn]
  rw [hset, Finset.card_insert_of_not_mem]
  intro hmem
  rw [Finset.mem_filter, hnone] at hmem
  cases hmem.2

/-- Full case analysis of one relaxation step: either it does nothing, or
it performs the strict-improvement update on the edge's far endpoint. -/
theorem relaxEdge_cases (g : RoadGraph) (goal : ℕ) (costFn : RoadEdge → ℝ)
    (cur : ℕ) (σ : AState) (eid : ℕ) :
    (relaxEdge g goal costFn cur σ eid = σ ∧
      (∀ e, g.edges.get? eid = some e → ∀ gc, σ.gsc cur = some gc →
        ¬ oLT (some (gc + costFn e)) (σ.gsc (if e.a = cur then e.b else e.a)))) ∨
    (∃ e gc nb, g.edges.get? eid = some e ∧
      nb = (if e.a = cur then e.b else e.a) ∧ σ.gsc cur = some gc ∧
      oLT (some (gc + costFn e)) (σ.gsc nb) ∧
      relaxEdge g goal costFn cur σ eid =
        ⟨addOpen σ.openL nb, fupd σ.came nb cur, fupd σ.gsc nb (gc + costFn e),
          fupd σ.fsc nb (gc + costFn e + heur g nb goal)⟩) := by
  rcases he : g.edges.get? eid with _ | e
  · refine Or.inl ⟨by simp only [relaxEdge, he], ?_⟩
    intro e2 he2
    exact Option.noConfusion he2
  · rcases hg : σ.gsc cur with _ | gc
    · refine Or.inl ⟨by simp only [relaxEdge, he, hg], ?_⟩
      intro e2 he2 gc hgc
      exact Option.noConfusion hgc
    · by_cases hlt : oLT (some (gc + costFn e)) (σ.gsc (if e.a = cur then e.b else e.a))
      · refine Or.inr ⟨e, gc, (if e.a = cur then e.b else e.a), rfl, rfl, rfl, hlt, ?_⟩
        simp only [relaxEdge, he, hg]
        rw [if_pos hlt]
      · refine Or.inl ⟨by simp only [relaxEdge, he, hg]; rw [if_neg hlt], ?_⟩
        intro e2 he2 gc2 hgc2
        cases he2
        cases hgc2
        exact hlt

/-- One relaxation step of the popped node preserves the intermediate
invariant and extends the done prefix. -/
theorem relaxEdge_mid (g : RoadGraph) (costFn : RoadEdge → ℝ)
    (start goal cur : ℕ) (hWF : GraphWF g) (hc0 : ∀ e ∈ g.edges, 0 ≤ costFn e)
    (σ : AState) (done : List ℕ) (eid : ℕ) (heid : eid ∈ nodeEdges g cur)
    (hM : MidInv g costFn start goal cur σ)
    (hD : CurDone g costFn cur σ done) :
    MidInv g costFn start goal cur (relaxEdge g goal costFn cur σ eid) ∧
    CurDone g costFn cur (relaxEdge g goal costFn cur σ eid) (done ++ [eid]) := by
  rcases relaxEdge_cases g goal costFn cur σ eid with
    ⟨hEq, hNo⟩ | ⟨e, gc, nb, he, hnb, hg, hlt, hEq⟩
  · rw [hEq]
    refine ⟨hM, ?_⟩
    intro hco d hd
    rcases List.mem_append.mp hd with hd | hd
    · exact hD hco d hd
    · rcases List.mem_singleton.mp hd with rfl
      intro e2 he2 m hconn vc hvc
      have hm := EdgeConn_step hconn
      rcases not_oLT_some (hNo e2 he2 vc hvc) with ⟨b, hb, hble⟩
      refine ⟨b, ?_, hble⟩
      rw [hm]
      exact hb
  · -- facts about the updated edge
    have heMem : e ∈ g.edges := List.get?_mem he
    have hcurN : cur < g.nodes.length := hM.gDom cur gc hg
    have hcurNode : g.nodes.get? cur = some (g.nodes.get ⟨cur, hcurN⟩) :=
      List.get?_eq_get hcurN
    have hends : e.a = cur ∨ e.b = cur := by
      have heid2 : eid ∈ (g.nodes.get ⟨cur, hcurN⟩).edges := by
        have : nodeEdges g cur = (g.nodes.get ⟨cur, hcurN⟩).edges := by
          unfold nodeEdges
          rw [hcurNode]
          rfl
        rwa [this] at heid
      obtain ⟨e2, he2, hend⟩ := hWF.edgeListSound cur _ hcurNode eid heid2
      rw [he] at he2
      cases he2
      exact hend
    have hconn : EdgeConn e cur nb := by
      rcases hends with ha | hb
      · rw [hnb, if_pos ha]
        exact Or.inl ⟨ha, rfl⟩
      · by_cases hc : e.a = cur
        · rw [hnb, if_pos hc]
          exact Or.inl ⟨hc, rfl⟩
        · rw [hnb, if_neg hc]
          exact Or.inr ⟨rfl, hb⟩
    have hnbN : nb < g.nodes.length := by
      obtain ⟨hA, hB⟩ := hWF.endpoints e heMem
      rw [hnb]
      split <;> assumption
    have hce0 : 0 ≤ costFn e := hc0 e heMem
    have hgc0 : 0 ≤ gc := hM.gNonneg cur gc hg
    have hnbcur : nb ≠ cur := by
      rintro rfl
      rw [hg] at hlt
      have := oLT_some_some hlt
      linarith
    have hnbstart : nb ≠ start := by
      rintro rfl
      rw [hM.gs0] at hlt
      have := oLT_some_some hlt
      linarith
    have hO : (relaxEdge g goal costFn cur σ eid).openL = addOpen σ.openL nb := by
      rw [hEq]
    have hCm : (relaxEdge g goal costFn cur σ eid).came = fupd σ.came nb cur := by
      rw [hEq]
    have hG : (relaxEdge g goal costFn cur σ eid).gsc =
        fupd σ.gsc nb (gc + costFn e) := by
      rw [hEq]
    have hF : (relaxEdge g goal costFn cur σ eid).fsc =
        fupd σ.fsc nb (gc + costFn e + heur g nb goal) := by
      rw [hEq]
    have hgsc_cur : (relaxEdge g goal costFn cur σ eid).gsc cur = some gc := by
      rw [hG, fupd_ne _ _ _ _ (Ne.symm hnbcur)]
      exact hg
    refine ⟨⟨?_, ?_, ?_, ?_, ?_, ?_, ?_, ?_, ?_, ?_, ?_, ?_, ?_, ?_, ?_⟩, ?_⟩
    · -- openSub
      intro n hn
      rw [hO] at hn
      rcases mem_addOpen.mp hn with hn | rfl
      · exact hM.openSub n hn
      · exact hnbN
    · -- openNodup
      rw [hO]
      exact addOpen_nodup nb hM.openNodup
    · -- openG
      intro n hn
      rw [hO] at hn
      rw [hG]
      by_cases hnn : n = nb
      · subst hnn
        exact ⟨gc + costFn e, fupd_same _ _ _⟩
      · rcases mem_addOpen.mp hn with hn | hn
        · obtain ⟨v, hv⟩ := hM.openG n hn
          refine ⟨v, ?_⟩
          rw [fupd_ne _ _ _ _ hnn]
          exact hv
        · exact absurd hn hnn
    · -- fInv
      intro n v hv
      rw [hG] at hv
      rw [hF]
      by_cases hnn : n = nb
      · subst hnn
        rw [fupd_same] at hv
        cases hv
        exact fupd_same _ _ _
      · rw [fupd_ne _ _ _ _ hnn] at hv
        rw [fupd_ne _ _ _ _ hnn]
        exact hM.fInv n v hv
    · -- fDom
      intro n v hv
      rw [hF] at hv
      rw [hG]
      by_cases hnn : n = nb
      · subst hnn
        exact ⟨gc + costFn e, fupd_same _ _ _⟩
      · rw [fupd_ne _ _ _ _ hnn] at hv
        obtain ⟨w, hw⟩ := hM.fDom n v hv
        refine ⟨w, ?_⟩
        rw [fupd_ne _ _ _ _ hnn]
        exact hw
    · -- gs0
      rw [hG, fupd_ne _ _ _ _ (Ne.symm hnbstart)]
      exact hM.gs0
    · -- gNonneg
      intro n v hv
      rw [hG] at hv
      by_cases hnn : n = nb
      · subst hnn
        rw [fupd_same] at hv
        cases hv
        linarith
      · rw [fupd_ne _ _ _ _ hnn] at hv
        exact hM.gNonneg n v hv
    · -- cameInv
      intro n p hp
      rw [hCm] at hp
      rw [hG]
      by_cases hnn : n = nb
      · subst hnn
        rw [fupd_same] at hp
        cases hp
        refine ⟨e, gc + costFn e, gc, ⟨eid, he⟩, hconn, fupd_same _ _ _, ?_, le_refl _⟩
        rw [fupd_ne _ _ _ _ (Ne.symm hnbcur)]
        exact hg
      · rw [fupd_ne _ _ _ _ hnn] at hp
        obtain ⟨e2, vn, vp, hje, hconn2, hvn, hvp, hle⟩ := hM.cameInv n p hp
        by_cases hpn : p = nb
        · subst hpn
          rw [hvp] at hlt
          have htv := oLT_some_some hlt
          refine ⟨e2, vn, gc + costFn e, hje, hconn2, ?_, fupd_same _ _ _, by linarith⟩
          rw [fupd_ne _ _ _ _ hnn]
          exact hvn
        · refine ⟨e2, vn, vp, hje, hconn2, ?_, ?_, hle⟩
          · rw [fupd_ne _ _ _ _ hnn]
            exact hvn
          · rw [fupd_ne _ _ _ _ hpn]
            exact hvp
    · -- cameNone
      intro n v hv hnone
      rw [hG] at hv
      rw [hCm] at hnone
      by_cases hnn : n = nb
      · subst hnn
        rw [fupd_same] at hnone
        cases hnone
      · rw [fupd_ne _ _ _ _ hnn] at hv
        rw [fupd_ne _ _ _ _ hnn] at hnone
        exact hM.cameNone n v hv hnone
    · -- closure
      intro n vn hopen hncur hv
      rw [hO] at hopen
      rw [hG] at hv
      have hnnb : n ≠ nb := by
        rintro rfl
        exact hopen (addOpen_self _ _)
      have hnop : n ∉ σ.openL := fun hn => hopen (addOpen_mono nb hn)
      rw [fupd_ne _ _ _ _ hnnb] at hv
      intro eid2 heid2 e2 he2 m hconn2
      rw [hG]
      obtain ⟨vm, hvm, hle⟩ := hM.closure n vn hnop hncur hv eid2 heid2 e2 he2 m hconn2
      by_cases hmn : m = nb
      · subst hmn
        rw [hvm] at hlt
        have htv := oLT_some_some hlt
        exact ⟨gc + costFn e, fupd_same _ _ _, by linarith⟩
      · refine ⟨vm, ?_, hle⟩
        rw [fupd_ne _ _ _ _ hmn]
        exact hvm
    · -- goalOpen
      intro v hv
      rw [hG] at hv
      rw [hO]
      by_cases hgn : goal = nb
      · subst hgn
        exact addOpen_self _ _
      · rw [fupd_ne _ _ _ _ hgn] at hv
        exact addOpen_mono nb (hM.goalOpen v hv)
    · -- gWalk
      intro n v hv
      rw [hG] at hv
      by_cases hnn : n = nb
      · subst hnn
        rw [fupd_same] at hv
        cases hv
        obtain ⟨es, hwalk, hcost⟩ := hM.gWalk cur gc hg
        refine ⟨es ++ [eid], IsWalk_snoc g hwalk eid e n he hconn, ?_⟩
        rw [walkCost_append, hcost, walkCost_single g costFn eid e he]
      · rw [fupd_ne _ _ _ _ hnn] at hv
        exact hM.gWalk n v hv
    · -- gDom
      intro n v hv
      rw [hG] at hv
      by_cases hnn : n = nb
      · subst hnn
        exact hnbN
      · rw [fupd_ne _ _ _ _ hnn] at hv
        exact hM.gDom n v hv
    · -- gCnt
      intro cmax hm0 hcmax n v hv
      rw [hG] at hv
      rcases hnbold : σ.gsc nb with _ | old
      · have hcnt : cntFin g (relaxEdge g goal costFn cur σ eid) = cntFin g σ + 1 :=
          cntFin_fresh g nb (gc + costFn e) hG hnbold hnbN
        rw [hcnt]
        by_cases hnn : n = nb
        · subst hnn
          rw [fupd_same] at hv
          cases hv
          have h1 := hM.gCnt cmax hm0 hcmax cur gc hg
          have h2 := hcmax e heMem
          push_cast
          nlinarith [h1, h2]
        · rw [fupd_ne _ _ _ _ hnn] at hv
          have h1 := hM.gCnt cmax hm0 hcmax n v hv
          push_cast
          nlinarith [h1]
      · have hcnt : cntFin g (relaxEdge g goal costFn cur σ eid) = cntFin g σ := by
          apply cntFin_congr
          intro m
          rw [hG]
          by_cases hmn : m = nb
          · subst hmn
            rw [fupd_same, hnbold]
            rfl
          · rw [fupd_ne _ _ _ _ hmn]
        rw [hcnt]
        by_cases hnn : n = nb
        · subst hnn
          rw [fupd_same] at hv
          cases hv
          rw [hnbold] at hlt
          have htv := oLT_some_some hlt
          have h1 := hM.gCnt cmax hm0 hcmax n old hnbold
          linarith
        · rw [fupd_ne _ _ _ _ hnn] at hv
          exact hM.gCnt cmax hm0 hcmax n v hv
    · -- curG
      exact ⟨gc, hgsc_cur⟩
    · -- CurDone
      intro hco d hd
      rw [hO] at hco
      have hcoOld : cur ∉ σ.openL := fun hn => hco (addOpen_mono nb hn)
      rcases List.mem_append.mp hd with hd | hd
      · have hrel := hD hcoOld d hd
        intro e2 he2 m hconn2 vc hvc
        rw [hgsc_cur] at hvc
        cases hvc
        obtain ⟨vm, hvm, hle⟩ := hrel e2 he2 m hconn2 gc hg
        rw [hG]
        by_cases hmn : m = nb
        · subst hmn
          rw [hvm] at hlt
          have htv := oLT_some_some hlt
          exact ⟨gc + costFn e, fupd_same _ _ _, by linarith⟩
        · refine ⟨vm, ?_, hle⟩
          rw [fupd_ne _ _ _ _ hmn]
          exact hvm
      · rcases List.mem_singleton.mp hd with rfl
        intro e2 he2 m hconn2 vc hvc
        rw [he] at he2
        cases he2
        have hmnb : m = nb := by
          rw [EdgeConn_step hconn2, ← hnb]
        subst hmnb
        rw [hgsc_cur] at hvc
        cases hvc
        rw [hG]
        exact ⟨gc + costFn e, fupd_same _ _ _, le_refl _⟩

/-- Folding the relaxation over a sublist of the popped node's edges. -/
theorem relaxAll_fold (g : RoadGraph) (costFn : RoadEdge → ℝ)
    (start goal cur : ℕ) (hWF : GraphWF g) (hc0 : ∀ e ∈ g.edges, 0 ≤ costFn e) :
    ∀ (l : List ℕ) (σ : AState) (done : List ℕ),
    (∀ eid ∈ l, eid ∈ nodeEdges g cur) →
    MidInv g costFn start goal cur σ → CurDone g costFn cur σ done →
    MidInv g costFn start goal cur (l.foldl (relaxEdge g goal costFn cur) σ) ∧
    CurDone g costFn cur (l.foldl (relaxEdge g goal costFn cur) σ) (done ++ l) := by
  intro l
  induction l with
  | nil =>
    intro σ done _ hM hD
    simpa using ⟨hM, hD⟩
  | cons a l ih =>
    intro σ done hmem hM hD
    rw [List.foldl_cons]
    have hstep := relaxEdge_mid g costFn start goal cur hWF hc0 σ done a
      (hmem a (List.mem_cons_self a l)) hM hD
    have := ih (relaxEdge g goal costFn cur σ a) (done ++ [a])
      (fun eid he => hmem eid (List.mem_cons_of_mem a he)) hstep.1 hstep.2
    rw [List.append_assoc] at this
    simpa using this

/-- Relaxing every edge of the popped node preserves the intermediate
invariant and discharges the whole edge list. -/
theorem relaxAll_mid (g : RoadGraph) (costFn : RoadEdge → ℝ)
    (start goal cur : ℕ) (hWF : GraphWF g) (hc0 : ∀ e ∈ g.edges, 0 ≤ costFn e)
    (σ : AState) (hM : MidInv g costFn start goal cur σ)
    (hD : CurDone g costFn cur σ []) :
    MidInv g costFn start goal cur (relaxAll g goal costFn cur σ) ∧
    CurDone g costFn cur (relaxAll g goal costFn cur σ) (nodeEdges g cur) := by
  have := relaxAll_fold g costFn start goal cur hWF hc0 (nodeEdges g cur) σ []
    (fun eid he => he) hM hD
  simpa using this

/-- Popping a node from the open set yields the intermediate invariant. -/
theorem midInv_pop (g : RoadGraph) (costFn : RoadEdge → ℝ)
    (start goal cur : ℕ) (σ : AState)
    (hInv : AStarInv g costFn start goal σ) (hcur : cur ∈ σ.openL)
    (hgoal : cur ≠ goal) :
    MidInv g costFn start goal cur ⟨σ.openL.erase cur, σ.came, σ.gsc, σ.fsc⟩ ∧
    CurDone g costFn cur ⟨σ.openL.erase cur, σ.came, σ.gsc, σ.fsc⟩ [] := by
  refine ⟨⟨?_, ?_, ?_, ?_, ?_, ?_, ?_, ?_, ?_, ?_, ?_, ?_, ?_, ?_, ?_⟩, ?_⟩
  · intro n hn
    exact hInv.openSub n (σ.openL.erase_subset _ hn)
  · exact hInv.openNodup.erase cur
  · intro n hn
    exact hInv.openG n (σ.openL.erase_subset _ hn)
  · exact hInv.fInv
  · exact hInv.fDom
  · exact hInv.gs0
  · exact hInv.gNonneg
  · exact hInv.cameInv
  · exact hInv.cameNone
  · intro n vn hopen hncur hv
    have hnop : n ∉ σ.openL := by
      intro hn
      exact hopen ((List.mem_erase_of_ne hncur).mpr hn)
    exact hInv.closure n vn hnop hv
  · intro v hv
    exact (List.mem_erase_of_ne (Ne.symm hgoal)).mpr (hInv.goalOpen v hv)
  · exact hInv.gWalk
  · exact hInv.gDom
  · exact hInv.gCnt
  · exact hInv.openG cur hcur
  · intro _ d hd
    cases hd

/-- After the whole relaxation pass, the full loop invariant holds again. -/
theorem inv_of_mid (g : RoadGraph) (costFn : RoadEdge → ℝ)
    (start goal cur : ℕ) (hWF : GraphWF g) (σ : AState)
    (hM : MidInv g costFn start goal cur σ)
    (hD : CurDone g costFn cur σ (nodeEdges g cur)) :
    AStarInv g costFn start goal σ := by
  refine ⟨hM.openSub, hM.openNodup, hM.openG, hM.fInv, hM.fDom, hM.gs0,
    hM.gNonneg, hM.cameInv, hM.cameNone, ?_, hM.goalOpen, hM.gWalk, hM.gDom,
    hM.gCnt⟩
  intro n vn hopen hv eid heid e he m hconn
  by_cases hnc : n = cur
  · subst hnc
    obtain ⟨vc, hvc⟩ := hM.curG
    obtain ⟨vm, hvm, hle⟩ := hD hopen eid heid e he m hconn vc hvc
    rw [hvc] at hv
    cases hv
    exact ⟨vm, hvm, hle⟩
  · exact hM.closure n vn hopen hnc hv eid heid e he m hconn

/-- One full iteration of the while loop (pop a non-goal node, relax all of
its edges) preserves the loop invariant. -/
theorem step_inv (g : RoadGraph) (costFn : RoadEdge → ℝ)
    (start goal cur : ℕ) (hWF : GraphWF g) (hc0 : ∀ e ∈ g.edges, 0 ≤ costFn e)
    (σ : AState) (hInv : AStarInv g costFn start goal σ) (hcur : cur ∈ σ.openL)
    (hgoal : cur ≠ goal) :
    AStarInv g costFn start goal
      (relaxAll g goal costFn cur ⟨σ.openL.erase cur, σ.came, σ.gsc, σ.fsc⟩) := by
  obtain ⟨hM, hD⟩ := midInv_pop g costFn start goal cur σ hInv hcur hgoal
  obtain ⟨hM2, hD2⟩ := relaxAll_mid g costFn start goal cur hWF hc0 _ hM hD
  exact inv_of_mid g costFn start goal cur hWF _ hM2 hD2

/-- The invariant holds on the initial aStar state. -/
theorem init_inv (g : RoadGraph) (costFn : RoadEdge → ℝ) (start goal : ℕ)
    (hstart : start < g.nodes.length) :
    AStarInv g costFn start goal (aStarInit g start goal) := by
  have hO : (aStarInit g start goal).openL = [start] := rfl
  have hC : (aStarInit g start goal).came = fun _ => none := rfl
  have hG : (aStarInit g start goal).gsc = fupd (fun _ => none) start 0 := rfl
  have hF : (aStarInit g start goal).fsc =
      fupd (fun _ => none) start (heur g start goal) := rfl
  refine ⟨?_, ?_, ?_, ?_, ?_, ?_, ?_, ?_, ?_, ?_, ?_, ?_, ?_, ?_⟩
  · intro n hn
    rw [hO] at hn
    rcases List.mem_singleton.mp hn with rfl
    exact hstart
  · rw [hO]
    simp
  · intro n hn
    rw [hO] at hn
    rw [hG]
    rcases List.mem_singleton.mp hn with rfl
    exact ⟨0, fupd_same _ _ _⟩
  · intro n v hv
    rw [hG] at hv
    rw [hF]
    by_cases hn : n = start
    · subst hn
      rw [fupd_same] at hv
      cases hv
      rw [zero_add]
      exact fupd_same _ _ _
    · rw [fupd_ne _ _ _ _ hn] at hv
      cases hv
  · intro n v hv
    rw [hF] at hv
    rw [hG]
    by_cases hn : n = start
    · subst hn
      exact ⟨0, fupd_same _ _ _⟩
    · rw [fupd_ne _ _ _ _ hn] at hv
      cases hv
  · rw [hG]
    exact fupd_same _ _ _
  · intro n v hv
    rw [hG] at hv
    by_cases hn : n = start
    · subst hn
      rw [fupd_same] at hv
      cases hv
      exact le_refl 0
    · rw [fupd_ne _ _ _ _ hn] at hv
      cases hv
  · intro n p hp
    rw [hC] at hp
    cases hp
  · intro n v hv _
    rw [hG] at hv
    by_cases hn : n = start
    · exact hn
    · rw [fupd_ne _ _ _ _ hn] at hv
      cases hv
  · intro n vn hopen hv
    rw [hO] at hopen
    rw [hG] at hv
    by_cases hn : n = start
    · subst hn
      exact absurd (List.mem_singleton.mpr rfl) hopen
    · rw [fupd_ne _ _ _ _ hn] at hv
      cases hv
  · intro v hv
    rw [hG] at hv
    rw [hO]
    by_cases hn : goal = start
    · subst hn
      exact List.mem_singleton.mpr rfl
    · rw [fupd_ne _ _ _ _ hn] at hv
      cases hv
  · intro n v hv
    rw [hG] at hv
    by_cases hn : n = start
    · subst hn
      rw [fupd_same] at hv
      cases hv
      exact ⟨[], IsWalk.nil n, walkCost_nil g costFn⟩
    · rw [fupd_ne _ _ _ _ hn] at hv
      cases hv
  · intro n v hv
    rw [hG] at hv
    by_cases hn : n = start
    · subst hn
      exact hstart
    · rw [fupd_ne _ _ _ _ hn] at hv
      cases hv
  · intro cmax hm0 _ n v hv
    rw [hG] at hv
    by_cases hn : n = start
    · subst hn
      rw [fupd_same] at hv
      cases hv
      positivity
    · rw [fupd_ne _ _ _ _ hn] at hv
      cases hv

theorem walkCost_cons (g : RoadGraph) (costFn : RoadEdge → ℝ) (eid : ℕ)
    (es : List ℕ) :
    walkCost g costFn (eid :: es) =
      costFn ((g.edges.get? eid).getD default) + walkCost g costFn es := by
  unfold walkCost
  rw [List.map_cons, List.sum_cons]

/-- Fuel-bounded parent-chain reconstruction reaches a root when parents
strictly decrease a natural rank. -/
theorem reconstruct_spec (came : ℕ → Option ℕ) (rk : ℕ → ℕ)
    (hrk : ∀ n p, came n = some p → rk p < rk n) :
    ∀ (fuel cur : ℕ) (acc : List ℕ), rk cur < fuel →
    ∃ root pre, reconstruct came fuel cur acc = root :: (pre ++ acc) ∧
      came root = none ∧
      List.Chain' (fun a b => came b = some a) (root :: pre) ∧
      (root :: pre).getLast? = some cur := by
  intro fuel
  induction fuel with
  | zero =>
    intro cur acc h
    omega
  | succ fuel ih =>
    intro cur acc h
    rcases hc : came cur with _ | p
    · refine ⟨cur, [], ?_, hc, ?_, ?_⟩
      · simp [reconstruct, hc]
      · simp
      · simp
    · have hlt := hrk cur p hc
      have hfp : rk p < fuel := by omega
      obtain ⟨root, pre, hrec, hroot, hchain, hlast⟩ := ih p (cur :: acc) hfp
      refine ⟨root, pre ++ [cur], ?_, hroot, ?_, ?_⟩
      · simp only [reconstruct, hc]
        rw [hrec]
        simp
      · show List.Chain' (fun a b => came b = some a) ((root :: pre) ++ [cur])
        rw [List.chain'_append]
        refine ⟨hchain, by simp, ?_⟩
        intro x hx y hy
        simp only [Option.mem_def, hlast, Option.some.injEq] at hx
        simp only [Option.mem_def, List.head?_cons, Option.some.injEq] at hy
        subst hx
        subst hy
        exact hc
      · show ((root :: pre) ++ [cur]).getLast? = some cur
        rw [List.getLast?_concat]

/-- A came-chain is a walk whose cost telescopes into the gScore gap. -/
theorem chain_to_walk (g : RoadGraph) (costFn : RoadEdge → ℝ)
    (gsc : ℕ → Option ℝ) (came : ℕ → Option ℕ)
    (hcame : ∀ n p, came n = some p → ∃ e vn vp,
      (∃ j, g.edges.get? j = some e) ∧ EdgeConn e p n ∧
      gsc n = some vn ∧ gsc p = some vp ∧ vp + costFn e ≤ vn) :
    ∀ (l : List ℕ) (root y : ℕ),
    List.Chain' (fun a b => came b = some a) (root :: l) →
    (root :: l).getLast? = some y →
    ∃ es, IsWalk g root es y ∧ walkNodes g root es = root :: l ∧
      (∀ vr vy, gsc root = some vr → gsc y = some vy →
        walkCost g costFn es ≤ vy - vr) := by
  intro l
  induction l with
  | nil =>
    intro root y hchain hlast
    have hry : root = y := by simpa using hlast
    subst hry
    refine ⟨[], IsWalk.nil root, rfl, ?_⟩
    intro vr vy h1 h2
    rw [h1] at h2
    cases h2
    rw [walkCost_nil]
    linarith
  | cons b l ih =>
    intro root y hchain hlast
    rw [List.chain'_cons] at hchain
    obtain ⟨hcb, hchain2⟩ := hchain
    obtain ⟨e, vn, vp, ⟨j, hj⟩, hconn, hvb, hvroot, hle⟩ := hcame b root hcb
    have hlast2 : (b :: l).getLast? = some y := by
      rw [show ((root :: b :: l).getLast? = (b :: l).getLast?) from rfl] at hlast
      exact hlast
    obtain ⟨es, hwalk, hnodes, hcost⟩ := ih b y hchain2 hlast2
    have hstep : stepNode g root j = b := by
      simp only [stepNode, hj, Option.getD_some]
      exact (EdgeConn_step hconn).symm
    refine ⟨j :: es, IsWalk.cons root b y j es e hj hconn hwalk, ?_, ?_⟩
    · rw [show walkNodes g root (j :: es) =
        root :: walkNodes g (stepNode g root j) es from rfl, hstep, hnodes]
    · intro vr vy hvr hvy
      rw [hvroot] at hvr
      cases hvr
      have hc2 := hcost vn vy hvb hvy
      rw [walkCost_cons, hj, Option.getD_some]
      linarith

theorem gRank_le (g : RoadGraph) (σ : AState) (n : ℕ) :
    gRank g σ n ≤ g.nodes.length := by
  unfold gRank
  calc ((Finset.range g.nodes.length).filter _).card
      ≤ (Finset.range g.nodes.length).card := Finset.card_filter_le _ _
    _ = g.nodes.length := Finset.card_range _

/-- Under positive edge costs the parent chains strictly descend the
gScore rank. -/
theorem gRank_lt (g : RoadGraph) (costFn : RoadEdge → ℝ) (start goal : ℕ)
    (σ : AState) (hInv : AStarInv g costFn start goal σ)
    (hpos : ∀ e ∈ g.edges, 0 < costFn e) :
    ∀ n p, σ.came n = some p → gRank g σ p < gRank g σ n := by
  intro n p hp
  obtain ⟨e, vn, vp, ⟨j, hj⟩, hconn, hvn, hvp, hle⟩ := hInv.cameInv n p hp
  have hc := hpos e (List.get?_mem hj)
  have hvpn : vp < vn := by linarith
  apply Finset.card_lt_card
  constructor
  · intro m hm
    rw [Finset.mem_filter] at hm ⊢
    obtain ⟨hmr, v, w, h1, h2, hvw⟩ := hm
    rw [hvp] at h2
    cases h2
    exact ⟨hmr, v, vn, h1, hvn, lt_trans hvw hvpn⟩
  · intro hsub
    have hpmem : p ∈ (Finset.range g.nodes.length).filter
        (fun m => ∃ v w, σ.gsc m = some v ∧ σ.gsc n = some w ∧ v < w) := by
      rw [Finset.mem_filter]
      exact ⟨Finset.mem_range.mpr (hInv.gDom p vp hvp), vp, vn, hvp, hvn, hvpn⟩
    have := hsub hpmem
    rw [Finset.mem_filter] at this
    obtain ⟨_, v, w, h1, h2, hvw⟩ := this
    rw [hvp] at h1 h2
    cases h1
    cases h2
    exact lt_irrefl _ hvw

/-- Every walk from the start is covered: either its endpoint already has
a gScore at most its cost, or some prefix ends in an open node whose
gScore is at most the prefix cost. -/
theorem coverage (g : RoadGraph) (costFn : RoadEdge → ℝ) (start goal : ℕ)
    (σ : AState) (hWF : GraphWF g) (hInv : AStarInv g costFn start goal σ) :
    ∀ (es : List ℕ) (y : ℕ), IsWalk g start es y →
    (∃ v, σ.gsc y = some v ∧ v ≤ walkCost g costFn es) ∨
    (∃ n es1 es2, es = es1 ++ es2 ∧ IsWalk g start es1 n ∧ IsWalk g n es2 y ∧
      n ∈ σ.openL ∧ ∃ v, σ.gsc n = some v ∧ v ≤ walkCost g costFn es1) := by
  intro es
  induction es using List.reverseRecOn with
  | nil =>
    intro y hw
    rcases hw with _ | _
    exact Or.inl ⟨0, hInv.gs0, by rw [walkCost_nil]⟩
  | append_singleton es' eid ih =>
    intro y hw
    obtain ⟨m, e, hw', he, hconn⟩ := IsWalk_snoc_inv g hw
    have heMem : e ∈ g.edges := List.get?_mem he
    rcases ih m hw' with ⟨v, hv, hle⟩ | ⟨n, es1, es2, rfl, h1, h2, hn, v, hv, hle⟩
    · by_cases hm : m ∈ σ.openL
      · right
        exact ⟨m, es', [eid], rfl, hw',
          IsWalk.cons m y y eid [] e he hconn (IsWalk.nil y), hm, v, hv, hle⟩
      · left
        have heid : eid ∈ nodeEdges g m := by
          have hid : e.id = eid := hWF.edgeIds eid e he
          obtain ⟨hA, hB⟩ := hWF.incidence e heMem
          rcases hconn with ⟨ha, hb⟩ | ⟨ha, hb⟩
          · rw [← ha, ← hid]
            exact hA
          · rw [← hb, ← hid]
            exact hB
        obtain ⟨vy, hvy, hley⟩ :=
          hInv.closure m v hm hv eid heid e he y hconn
        refine ⟨vy, hvy, ?_⟩
        rw [walkCost_append, walkCost_single g costFn eid e he]
        linarith
    · right
      exact ⟨n, es1, es2 ++ [eid], by rw [List.append_assoc], h1,
        IsWalk_snoc g h2 eid e y he hconn, hn, v, hv, hle⟩

/-- Under an admissible heuristic, every walk to the goal is dominated by
the fScore of some open node. -/
theorem frontier (g : RoadGraph) (costFn : RoadEdge → ℝ) (start goal : ℕ)
    (σ : AState) (hWF : GraphWF g) (hInv : AStarInv g costFn start goal σ)
    (hAdm : Admissible g costFn goal) :
    ∀ es2, IsWalk g start es2 goal →
    ∃ n ∈ σ.openL, ∃ fn, σ.fsc n = some fn ∧ fn ≤ walkCost g costFn es2 := by
  intro es2 hw
  rcases coverage g costFn start goal σ hWF hInv es2 goal hw with
    ⟨v, hv, hle⟩ | ⟨n, es1, es2', heq, h1, h2, hn, v, hv, hle⟩
  · refine ⟨goal, hInv.goalOpen v hv, v + heur g goal goal,
      hInv.fInv goal v hv, ?_⟩
    rw [heur_self]
    linarith
  · refine ⟨n, hn, v + heur g n goal, hInv.fInv n v hv, ?_⟩
    have hh := hAdm n es2' h2
    rw [heq, walkCost_append]
    linarith

theorem aStarLoop_succ (g : RoadGraph) (goal : ℕ) (costFn : RoadEdge → ℝ)
    (fuel : ℕ) (σ : AState) :
    aStarLoop g goal costFn (fuel + 1) σ =
      if σ.openL = [] then .noPath
      else
        match (selBest σ.fsc σ.openL).1 with
        | none => .noPath
        | some cur =>
          if cur = goal then
            .found (reconstruct σ.came (g.nodes.length + 1) cur [])
          else
            aStarLoop g goal costFn fuel
              (relaxAll g goal costFn cur
                ⟨σ.openL.erase cur, σ.came, σ.gsc, σ.fsc⟩) := rfl

/-- A found result of the aStar loop is the node sequence of a walk from
start to goal; under an admissible heuristic that walk has minimal cost. -/
theorem loop_found (g : RoadGraph) (costFn : RoadEdge → ℝ) (start goal : ℕ)
    (hWF : GraphWF g) (hc0 : ∀ e ∈ g.edges, 0 ≤ costFn e)
    (hpos : ∀ e ∈ g.edges, 0 < costFn e) :
    ∀ (fuel : ℕ) (σ : AState) (l : List ℕ),
    AStarInv g costFn start goal σ →
    aStarLoop g goal costFn fuel σ = .found l →
    ∃ es, IsWalk g start es goal ∧ walkNodes g start es = l ∧
      (Admissible g costFn goal → ∀ es2, IsWalk g start es2 goal →
        walkCost g costFn es ≤ walkCost g costFn es2) := by
  intro fuel
  induction fuel with
  | zero =>
    intro σ l hInv h
    exact absurd h (by simp [aStarLoop])
  | succ fuel ih =>
    intro σ l hInv h
    rw [aStarLoop_succ] at h
    by_cases hOp : σ.openL = []
    · rw [if_pos hOp] at h
      cases h
    · rw [if_neg hOp] at h
      rcases hsel : (selBest σ.fsc σ.openL).1 with _ | cur
      · rw [hsel] at h
        simp at h
      · rw [hsel] at h
        simp only at h
        by_cases hcg : cur = goal
        · subst hcg
          rw [if_pos rfl] at h
          obtain ⟨hcurmem, fc, hfc, hmin⟩ := selBest_some σ.fsc σ.openL cur hsel
          obtain ⟨vg, hvg⟩ := hInv.fDom cur fc hfc
          have hfc2 := hInv.fInv cur vg hvg
          rw [heur_self, add_zero] at hfc2
          have hfcvg : fc = vg := by
            rw [hfc] at hfc2
            exact Option.some.inj hfc2
          have hrk := gRank_lt g costFn start cur σ hInv hpos
          have hbound : gRank g σ cur < g.nodes.length + 1 :=
            Nat.lt_succ_of_le (gRank_le g σ cur)
          obtain ⟨root, pre, hrec, hroot, hchain, hlast⟩ :=
            reconstruct_spec σ.came (gRank g σ) hrk (g.nodes.length + 1) cur [] hbound
          have hrootg : ∃ vr, σ.gsc root = some vr := by
            rcases pre with _ | ⟨b, pre2⟩
            · have hrg : root = cur := by simpa using hlast
              exact ⟨vg, by rw [hrg]; exact hvg⟩
            · rw [List.chain'_cons] at hchain
              obtain ⟨e2, vn2, vp2, _, _, _, hvp2, _⟩ :=
                hInv.cameInv b root hchain.1
              exact ⟨vp2, hvp2⟩
          obtain ⟨vr, hvr⟩ := hrootg
          have hrs : root = start := hInv.cameNone root vr hvr hroot
          rw [hrs] at hchain hlast hrec hvr
          have hvr0 : vr = 0 := by
            rw [hInv.gs0] at hvr
            injection hvr with hh
            exact hh.symm
          obtain ⟨es, hwalk, hnodes, hcost⟩ := chain_to_walk g costFn σ.gsc σ.came
            hInv.cameInv pre start cur hchain hlast
          have hl : l = start :: pre := by
            injection h with hh
            rw [hrec] at hh
            rw [← hh]
            simp
          refine ⟨es, hwalk, by rw [hnodes, hl], ?_⟩
          intro hAdm es2 hw2
          obtain ⟨n, hn, fn, hfn, hle2⟩ :=
            frontier g costFn start cur σ hWF hInv hAdm es2 hw2
          have hfcfn := hmin n hn fn hfn
          have hcb := hcost vr vg hvr hvg
          linarith
        · rw [if_neg hcg] at h
          have hcur : cur ∈ σ.openL := (selBest_some σ.fsc σ.openL cur hsel).1
          exact ih _ l (step_inv g costFn start goal cur hWF hc0 σ hInv hcur hcg) h

/-- A noPath result of the aStar loop certifies that no walk connects the
start to the goal. -/
theorem loop_noPath (g : RoadGraph) (costFn : RoadEdge → ℝ) (start goal : ℕ)
    (hWF : GraphWF g) (hc0 : ∀ e ∈ g.edges, 0 ≤ costFn e) :
    ∀ (fuel : ℕ) (σ : AState), AStarInv g costFn start goal σ →
    aStarLoop g goal costFn fuel σ = .noPath →
    ∀ es, ¬ IsWalk g start es goal := by
  intro fuel
  induction fuel with
  | zero =>
    intro σ hInv h
    exact absurd h (by simp [aStarLoop])
  | succ fuel ih =>
    intro σ hInv h
    rw [aStarLoop_succ] at h
    by_cases hOp : σ.openL = []
    · intro es hw
      rcases coverage g costFn start goal σ hWF hInv es goal hw with
        ⟨v, hv, _⟩ | ⟨n, _, _, _, _, _, hn, _⟩
      · have := hInv.goalOpen v hv
        rw [hOp] at this
        cases this
      · rw [hOp] at hn
        cases hn
    · rw [if_neg hOp] at h
      rcases hsel : (selBest σ.fsc σ.openL).1 with _ | cur
      · intro es hw
        obtain ⟨n, hn⟩ := List.exists_mem_of_ne_nil σ.openL hOp
        obtain ⟨v, hv⟩ := hInv.openG n hn
        have hfn := hInv.fInv n v hv
        have h2 := selBest_none σ.fsc σ.openL hsel n hn
        rw [h2] at hfn
        cases hfn
      · rw [hsel] at h
        simp only at h
        by_cases hcg : cur = goal
        · rw [if_pos hcg] at h
          cases h
        · rw [if_neg hcg] at h
          have hcur : cur ∈ σ.openL := (selBest_some σ.fsc σ.openL cur hsel).1
          exact ih _ (step_inv g costFn start goal cur hWF hc0 σ hInv hcur hcg) h

/-- A finite edge list with positive costs has a positive lower bound. -/
theorem exists_cmin (edges : List RoadEdge) (costFn : RoadEdge → ℝ)
    (hpos : ∀ e ∈ edges, 0 < costFn e) :
    ∃ cmin, 0 < cmin ∧ ∀ e ∈ edges, cmin ≤ costFn e := by
  induction edges with
  | nil => exact ⟨1, one_pos, by simp⟩
  | cons e l ih =>
    obtain ⟨c, hc, hall⟩ := ih (fun e2 he2 => hpos e2 (List.mem_cons_of_mem e he2))
    refine ⟨min c (costFn e), lt_min hc (hpos e (List.mem_cons_self e l)), ?_⟩
    intro e2 he2
    rcases List.mem_cons.mp he2 with rfl | he2
    · exact min_le_right _ _
    · exact le_trans (min_le_left _ _) (hall e2 he2)

/-- A finite edge list of nonnegative costs has a nonnegative upper bound. -/
theorem exists_cmax (edges : List RoadEdge) (costFn : RoadEdge → ℝ)
    (h0 : ∀ e ∈ edges, 0 ≤ costFn e) :
    ∃ cmax, 0 ≤ cmax ∧ ∀ e ∈ edges, costFn e ≤ cmax := by
  induction edges with
  | nil => exact ⟨0, le_refl 0, by simp⟩
  | cons e l ih =>
    obtain ⟨c, hc, hall⟩ := ih (fun e2 he2 => h0 e2 (List.mem_cons_of_mem e he2))
    refine ⟨max c (costFn e), le_trans hc (le_max_left _ _), ?_⟩
    intro e2 he2
    rcases List.mem_cons.mp he2 with rfl | he2
    · exact le_max_right _ _
    · exact le_trans (hall e2 he2) (le_max_left _ _)

/-- Walk edge ids index the edge array. -/
theorem walk_edges_valid (g : RoadGraph) {u w : ℕ} {es : List ℕ}
    (hw : IsWalk g u es w) : ∀ i ∈ es, i < g.edges.length := by
  induction hw with
  | nil u => simp
  | cons u v w eid es e he hc htail ih =>
    intro i hi
    rcases List.mem_cons.mp hi with rfl | hi
    · exact (List.get?_eq_some.mp he).1
    · exact ih i hi

/-- A positive cost floor gives a linear lower bound on walk costs. -/
theorem walkCost_ge (g : RoadGraph) (costFn : RoadEdge → ℝ) (cmin : ℝ)
    (hcmin : ∀ e ∈ g.edges, cmin ≤ costFn e) {u w : ℕ} {es : List ℕ}
    (hw : IsWalk g u es w) :
    (es.length : ℝ) * cmin ≤ walkCost g costFn es := by
  induction hw with
  | nil u =>
    rw [walkCost_nil]
    simp
  | cons u v w eid es e he hc htail ih =>
    rw [walkCost_cons, he, Option.getD_some, List.length_cons]
    have := hcmin e (List.get?_mem he)
    push_cast
    push_cast at ih
    nlinarith [ih, this]

theorem cntFin_le (g : RoadGraph) (σ : AState) : cntFin g σ ≤ g.nodes.length := by
  unfold cntFin
  calc ((Finset.range g.nodes.length).filter _).card
      ≤ (Finset.range g.nodes.length).card := Finset.card_filter_le _ _
    _ = g.nodes.length := Finset.card_range _

/-- Bounded-length edge id lists form a finite set. -/
theorem validEdgeLists_finite (E : ℕ) : ∀ K, (validEdgeLists E K).Finite := by
  intro K
  induction K with
  | zero =>
    apply Set.Finite.subset (Set.finite_singleton ([] : List ℕ))
    intro es hes
    obtain ⟨_, hlen⟩ := hes
    rw [Set.mem_singleton_iff]
    exact List.length_eq_zero.mp (Nat.le_zero.mp hlen)
  | succ K ih =>
    apply Set.Finite.subset
      (Set.Finite.union (Set.finite_singleton ([] : List ℕ))
        (Set.Finite.biUnion (Finset.range E).finite_toSet
          (fun i _ => ih.image (fun es => i :: es))))
    rintro es ⟨hval, hlen⟩
    rcases es with _ | ⟨a, es2⟩
    · exact Or.inl rfl
    · right
      rw [Set.mem_iUnion]
      refine ⟨a, ?_⟩
      rw [Set.mem_iUnion]
      refine ⟨by
        rw [Finset.mem_coe, Finset.mem_range]
        exact hval a (List.mem_cons_self a es2), ?_⟩
      refine ⟨es2, ⟨fun i hi => hval i (List.mem_cons_of_mem a hi), ?_⟩, rfl⟩
      have : es2.length + 1 ≤ K + 1 := hlen
      omega

theorem costSet_finite (g : RoadGraph) (costFn : RoadEdge → ℝ) (K : ℕ) :
    (costSet g costFn K).Finite :=
  (validEdgeLists_finite g.edges.length K).image _

theorem rankOf_lt_none {F : Set ℝ} (hF : F.Finite) {v : ℝ} (hv : v ∈ F) :
    rankOf F (some v) < rankOf F none := by
  refine Set.ncard_lt_ncard ?_ hF
  constructor
  · exact Set.inter_subset_left
  · intro hsub
    exact lt_irrefl v (hsub hv).2

theorem rankOf_lt_some {F : Set ℝ} (hF : F.Finite) {v v2 : ℝ} (hv : v ∈ F)
    (hlt : v < v2) : rankOf F (some v) < rankOf F (some v2) := by
  refine Set.ncard_lt_ncard ?_ (hF.inter_of_left _)
  constructor
  · intro w hw
    exact ⟨hw.1, lt_trans hw.2 hlt⟩
  · intro hsub
    exact lt_irrefl v (hsub ⟨hv, hlt⟩).2

/-- A strict gScore improvement strictly lowers the total rank mass. -/
theorem sumRank_update (g : RoadGraph) (F : Set ℝ) (σ σ2 : AState) (nb : ℕ)
    (tent : ℝ) (hG : σ2.gsc = fupd σ.gsc nb tent) (hnbN : nb < g.nodes.length)
    (hF : F.Finite) (htF : tent ∈ F) (hlt : oLT (some tent) (σ.gsc nb)) :
    sumRank g F σ2 + 1 ≤ sumRank g F σ := by
  unfold sumRank
  have hnbmem : nb ∈ Finset.range g.nodes.length := Finset.mem_range.mpr hnbN
  have h1 : ∑ n ∈ (Finset.range g.nodes.length).erase nb, rankOf F (σ.gsc n)
      + rankOf F (σ.gsc nb)
      = ∑ n ∈ Finset.range g.nodes.length, rankOf F (σ.gsc n) :=
    Finset.sum_erase_add (Finset.range g.nodes.length)
      (fun n => rankOf F (σ.gsc n)) hnbmem
  have h2 : ∑ n ∈ (Finset.range g.nodes.length).erase nb, rankOf F (σ2.gsc n)
      + rankOf F (σ2.gsc nb)
      = ∑ n ∈ Finset.range g.nodes.length, rankOf F (σ2.gsc n) :=
    Finset.sum_erase_add (Finset.range g.nodes.length)
      (fun n => rankOf F (σ2.gsc n)) hnbmem
  have hcong : ∑ n ∈ (Finset.range g.nodes.length).erase nb, rankOf F (σ2.gsc n)
      = ∑ n ∈ (Finset.range g.nodes.length).erase nb, rankOf F (σ.gsc n) := by
    apply Finset.sum_congr rfl
    intro x hx
    rw [hG, fupd_ne _ _ _ _ (Finset.mem_erase.mp hx).1]
  have hrank : rankOf F (σ2.gsc nb) < rankOf F (σ.gsc nb) := by
    rw [hG, fupd_same]
    rcases hnbv : σ.gsc nb with _ | old
    · exact rankOf_lt_none hF htF
    · rw [hnbv] at hlt
      exact rankOf_lt_some hF htF (oLT_some_some hlt)
  omega

/-- One relaxation step never increases the loop variant, as long as every
score value lies in the reference set. -/
theorem measureA_relaxEdge (g : RoadGraph) (costFn : RoadEdge → ℝ)
    (goal cur : ℕ) (hWF : GraphWF g) (F : Set ℝ) (hF : F.Finite)
    (σ : AState) (eid : ℕ)
    (hFm : ∀ n v, (relaxEdge g goal costFn cur σ eid).gsc n = some v → v ∈ F) :
    measureA g F (relaxEdge g goal costFn cur σ eid) ≤ measureA g F σ := by
  rcases relaxEdge_cases g goal costFn cur σ eid with
    ⟨hEq, _⟩ | ⟨e, gc, nb, he, hnb, hg, hlt, hEq⟩
  · rw [hEq]
  · have hnbN : nb < g.nodes.length := by
      obtain ⟨hA, hB⟩ := hWF.endpoints e (List.get?_mem he)
      rw [hnb]
      split <;> assumption
    have hG : (relaxEdge g goal costFn cur σ eid).gsc =
        fupd σ.gsc nb (gc + costFn e) := by rw [hEq]
    have hO : (relaxEdge g goal costFn cur σ eid).openL = addOpen σ.openL nb := by
      rw [hEq]
    have htF : gc + costFn e ∈ F := by
      apply hFm nb
      rw [hG]
      exact fupd_same _ _ _
    have hS := sumRank_update g F σ _ nb (gc + costFn e) hG hnbN hF htF hlt
    have hlen : (relaxEdge g goal costFn cur σ eid).openL.length ≤
        σ.openL.length + 1 := by
      rw [hO]
      exact addOpen_length _ _
    unfold measureA
    have hmul : (sumRank g F (relaxEdge g goal costFn cur σ eid) + 1) *
        (g.nodes.length + 1) ≤ sumRank g F σ * (g.nodes.length + 1) :=
      Nat.mul_le_mul_right _ hS
    nlinarith [hmul, hlen]

/-- Relaxing all edges of the popped node never increases the variant. -/
theorem relaxAll_measure (g : RoadGraph) (costFn : RoadEdge → ℝ)
    (start goal cur : ℕ) (hWF : GraphWF g) (hc0 : ∀ e ∈ g.edges, 0 ≤ costFn e)
    (F : Set ℝ) (hF : F.Finite)
    (hFmem : ∀ σ2, MidInv g costFn start goal cur σ2 →
      ∀ n v, σ2.gsc n = some v → v ∈ F) :
    ∀ (l : List ℕ) (σ : AState) (done : List ℕ),
    (∀ eid ∈ l, eid ∈ nodeEdges g cur) →
    MidInv g costFn start goal cur σ → CurDone g costFn cur σ done →
    measureA g F (l.foldl (relaxEdge g goal costFn cur) σ) ≤ measureA g F σ := by
  intro l
  induction l with
  | nil =>
    intro σ done _ _ _
    exact le_refl _
  | cons a l ih =>
    intro σ done hmem hM hD
    rw [List.foldl_cons]
    have hstep := relaxEdge_mid g costFn start goal cur hWF hc0 σ done a
      (hmem a (List.mem_cons_self a l)) hM hD
    have h1 : measureA g F (relaxEdge g goal costFn cur σ a) ≤ measureA g F σ :=
      measureA_relaxEdge g costFn goal cur hWF F hF σ a (hFmem _ hstep.1)
    have h2 := ih (relaxEdge g goal costFn cur σ a) (done ++ [a])
      (fun eid he => hmem eid (List.mem_cons_of_mem a he)) hstep.1 hstep.2
    exact le_trans h2 h1

/-- The gScores of any intermediate state are realisable walk costs with a
bounded number of edges. -/
theorem midInv_val_mem (g : RoadGraph) (costFn : RoadEdge → ℝ)
    (start goal cur : ℕ) (σ : AState)
    (hM : MidInv g costFn start goal cur σ) (cmin cmax : ℝ)
    (hcmin0 : 0 < cmin) (hcmin : ∀ e ∈ g.edges, cmin ≤ costFn e)
    (hcmax0 : 0 ≤ cmax) (hcmax : ∀ e ∈ g.edges, costFn e ≤ cmax) :
    ∀ n v, σ.gsc n = some v →
    v ∈ costSet g costFn (Nat.ceil (((g.nodes.length : ℝ) * cmax) / cmin)) := by
  intro n v hv
  obtain ⟨es, hwalk, hcost⟩ := hM.gWalk n v hv
  have hlen := walkCost_ge g costFn cmin hcmin hwalk
  have hvb := hM.gCnt cmax hcmax0 hcmax n v hv
  have hcnt : (cntFin g σ : ℝ) ≤ (g.nodes.length : ℝ) := by
    exact_mod_cast cntFin_le g σ
  have hv2 : v ≤ (g.nodes.length : ℝ) * cmax :=
    le_trans hvb (mul_le_mul_of_nonneg_right hcnt hcmax0)
  have hlenK : (es.length : ℝ) ≤ ((g.nodes.length : ℝ) * cmax) / cmin := by
    rw [le_div_iff hcmin0]
    rw [hcost] at hlen
    linarith
  rw [← hcost]
  refine Set.mem_image_of_mem _ ?_
  refine ⟨walk_edges_valid g hwalk, ?_⟩
  calc es.length = Nat.ceil ((es.length : ℝ)) := (Nat.ceil_natCast _).symm
    _ ≤ Nat.ceil (((g.nodes.length : ℝ) * cmax) / cmin) := Nat.ceil_mono hlenK

theorem distV_E3 (a b : P3) : distV a b = dist (E3 a) (E3 b) := by
  rw [EuclideanSpace.dist_eq]
  unfold distV E3
  congr 1
  rw [Fin.sum_univ_three]
  simp [Real.dist_eq, sq_abs]

theorem distV_symm (a b : P3) : distV a b = distV b a := by
  rw [distV_E3, distV_E3]
  exact dist_comm _ _

theorem distV_triangle (a b c : P3) : distV a c ≤ distV a b + distV b c := by
  rw [distV_E3, distV_E3, distV_E3]
  exact dist_triangle _ _ _

theorem edgeCost_zero (e : RoadEdge) : edgeCost 0 e = e.length := by
  unfold edgeCost
  rw [show max (0.2 : ℝ) (1 - 0 * e.shadeScore) = 1 by norm_num]
  rw [mul_one]

theorem edgeCost_nonneg_of_len (shadeBias : ℝ) (e : RoadEdge)
    (h : 0 ≤ e.length) : 0 ≤ edgeCost shadeBias e := by
  unfold edgeCost
  have : (0 : ℝ) ≤ max 0.2 (1 - shadeBias * e.shadeScore) :=
    le_trans (by norm_num) (le_max_left _ _)
  positivity

/-- When every edge is at least as long as the straight segment between
its endpoint node positions, the Euclidean heuristic toward any goal is
admissible for the length cost. -/
theorem admissible_of_len (g : RoadGraph)
    (hlen : ∀ e ∈ g.edges, distV (nodeP g e.a) (nodeP g e.b) ≤ e.length)
    (goal : ℕ) : Admissible g (edgeCost 0) goal := by
  intro y es hw
  induction hw with
  | nil u =>
    rw [walkCost_nil, heur_self]
  | cons u v w eid es e he hc htail ih =>
    rw [walkCost_cons, he, Option.getD_some, edgeCost_zero]
    have h1 : heur g u w ≤ heur g u v + heur g v w := distV_triangle _ _ _
    have h2 : heur g u v ≤ e.length := by
      rcases hc with ⟨ha, hb⟩ | ⟨ha, hb⟩
      · rw [show heur g u v = distV (nodeP g e.a) (nodeP g e.b) by
          rw [ha, hb]; rfl]
        exact hlen e (List.get?_mem he)
      · rw [show heur g u v = distV (nodeP g e.b) (nodeP g e.a) by
          rw [ha, hb]; rfl]
        rw [distV_symm]
        exact hlen e (List.get?_mem he)
    linarith

theorem snapToGraph_nil (g : RoadGraph) (p : P3) (h : g.edges = []) :
    snapToGraph g p = none := by
  unfold snapToGraph
  rw [h]
  rfl

theorem foldl_some {α β : Type} (f : Option α → β → Option α)
    (hf : ∀ s e, ∃ s2, f (some s) e = some s2) :
    ∀ (l : List β) (s : α), ∃ s2, l.foldl f (some s) = some s2 := by
  intro l
  induction l with
  | nil =>
    intro s
    exact ⟨s, rfl⟩
  | cons e l ih =>
    intro s
    rw [List.foldl_cons]
    obtain ⟨s2, hs2⟩ := hf s e
    rw [hs2]
    exact ih s2

theorem snapStep_none (p : P3) (e : RoadEdge) :
    snapStep p none e = some ⟨e, (nearestPointOnEdge e p).q,
      (nearestPointOnEdge e p).t, (nearestPointOnEdge e p).d⟩ := rfl

theorem snapStep_keep (p : P3) (s : Snapped) (e : RoadEdge)
    (hd : ¬ (nearestPointOnEdge e p).d < s.d) :
    snapStep p (some s) e = some s := by
  show (if (nearestPointOnEdge e p).d < s.d then
    some (⟨e, (nearestPointOnEdge e p).q, (nearestPointOnEdge e p).t,
      (nearestPointOnEdge e p).d⟩ : Snapped) else some s) = some s
  rw [if_neg hd]

theorem snapStep_some (p : P3) (s : Snapped) (e : RoadEdge) :
    ∃ s2, snapStep p (some s) e = some s2 := by
  show ∃ s2, (if (nearestPointOnEdge e p).d < s.d then
    some (⟨e, (nearestPointOnEdge e p).q, (nearestPointOnEdge e p).t,
      (nearestPointOnEdge e p).d⟩ : Snapped) else some s) = some s2
  split_ifs with hd
  · exact ⟨_, rfl⟩
  · exact ⟨s, rfl⟩

theorem snapToGraph_ne_nil (g : RoadGraph) (p : P3) (h : g.edges ≠ []) :
    ∃ s, snapToGraph g p = some s := by
  obtain ⟨e, l, hel⟩ := List.exists_cons_of_ne_nil h
  unfold snapToGraph
  rw [hel, List.foldl_cons]
  exact foldl_some _ (fun s e2 => snapStep_some p s e2) l _

theorem snapToGraph_some_ne_nil (g : RoadGraph) (p : P3) (s : Snapped)
    (h : snapToGraph g p = some s) : g.edges ≠ [] := by
  intro hnil
  rw [snapToGraph_nil g p hnil] at h
  cases h

theorem nnStep_pos (pt : P3) (acc : Option ℕ × Option ℝ) (n : RoadNode)
    (h : oLT (some (distV n.p pt)) acc.2) :
    nnStep pt acc n = (some n.id, some (distV n.p pt)) := by
  unfold nnStep
  rw [if_pos h]

theorem nnStep_neg (pt : P3) (acc : Option ℕ × Option ℝ) (n : RoadNode)
    (h : ¬ oLT (some (distV n.p pt)) acc.2) : nnStep pt acc n = acc := by
  unfold nnStep
  rw [if_neg h]

theorem nearestNode_fold_mem (pt : P3) :
    ∀ (l : List RoadNode) (acc : Option ℕ × Option ℝ) (m : ℕ),
    (l.foldl (nnStep pt) acc).1 = some m →
    (∃ nd ∈ l, nd.id = m) ∨ acc.1 = some m := by
  intro l
  induction l with
  | nil =>
    intro acc m h
    exact Or.inr h
  | cons n l ih =>
    intro acc m h
    rw [List.foldl_cons] at h
    by_cases hlt : oLT (some (distV n.p pt)) acc.2
    · rw [nnStep_pos pt acc n hlt] at h
      rcases ih _ m h with ⟨nd, hnd, hid⟩ | hacc
      · exact Or.inl ⟨nd, List.mem_cons_of_mem n hnd, hid⟩
      · refine Or.inl ⟨n, List.mem_cons_self n l, ?_⟩
        exact Option.some.inj hacc
    · rw [nnStep_neg pt acc n hlt] at h
      rcases ih acc m h with ⟨nd, hnd, hid⟩ | hacc
      · exact Or.inl ⟨nd, List.mem_cons_of_mem n hnd, hid⟩
      · exact Or.inr hacc

theorem nearestNode_fold_progress (pt : P3) :
    ∀ (l : List RoadNode) (acc : Option ℕ × Option ℝ) (v : ℕ),
    acc.1 = some v →
    ∃ m, (l.foldl (nnStep pt) acc).1 = some m := by
  intro l
  induction l with
  | nil =>
    intro acc v h
    exact ⟨v, h⟩
  | cons n l ih =>
    intro acc v h
    rw [List.foldl_cons]
    by_cases hlt : oLT (some (distV n.p pt)) acc.2
    · rw [nnStep_pos pt acc n hlt]
      exact ih _ n.id rfl
    · rw [nnStep_neg pt acc n hlt]
      exact ih acc v h

theorem nearestNodeToPoint_ne_nil (g : RoadGraph) (pt : P3)
    (h : g.nodes ≠ []) : ∃ m, nearestNodeToPoint g pt = some m := by
  obtain ⟨n, l, hel⟩ := List.exists_cons_of_ne_nil h
  unfold nearestNodeToPoint
  rw [hel, List.foldl_cons]
  rw [nnStep_pos pt _ n (by trivial)]
  exact nearestNode_fold_progress pt l _ n.id rfl

theorem nearestNodeToPoint_lt (g : RoadGraph) (hWF : GraphWF g) (pt : P3)
    (m : ℕ) (h : nearestNodeToPoint g pt = some m) : m < g.nodes.length := by
  unfold nearestNodeToPoint at h
  rcases nearestNode_fold_mem pt g.nodes _ m h with ⟨nd, hnd, hid⟩ | hacc
  · rcases List.mem_iff_get.mp hnd with ⟨⟨i, hi⟩, rfl⟩
    have := hWF.nodeIds i _ (List.get?_eq_get hi)
    rw [this] at hid
    rw [← hid]
    exact hi
  · cases hacc

/-- What a returned polyline of findRouteOnRoads is: the node-position
sequence of a walk joining the snapped endpoint nodes, and a minimal-cost
one whenever the heuristic is admissible. -/
theorem findRoute_some_spec (g : RoadGraph) (hWF : GraphWF g) (shadeBias : ℝ)
    (hc0 : ∀ e ∈ g.edges, 0 ≤ edgeCost shadeBias e)
    (hpos : ∀ e ∈ g.edges, 0 < edgeCost shadeBias e)
    (ws wg : P3) (poly : List P3)
    (h : FindRouteReturns g ws wg shadeBias (some poly)) :
    ∃ s t nS nG es,
      snapToGraph g ws = some s ∧ snapToGraph g wg = some t ∧
      nearestNodeToPoint g s.q = some nS ∧ nearestNodeToPoint g t.q = some nG ∧
      IsWalk g nS es nG ∧ poly = nodesPathToPolyline g (walkNodes g nS es) ∧
      (Admissible g (edgeCost shadeBias) nG →
        ∀ es2, IsWalk g nS es2 nG →
        walkCost g (edgeCost shadeBias) es ≤ walkCost g (edgeCost shadeBias) es2) := by
  obtain ⟨fuel, hf⟩ := h
  rcases hs : snapToGraph g ws with _ | s
  · simp [findRouteOnRoadsF, hs] at hf
  rcases ht : snapToGraph g wg with _ | t
  · simp [findRouteOnRoadsF, hs, ht] at hf
  rcases hns : nearestNodeToPoint g s.q with _ | nS
  · simp [findRouteOnRoadsF, hs, ht, hns] at hf
  rcases hng : nearestNodeToPoint g t.q with _ | nG
  · simp [findRouteOnRoadsF, hs, ht, hns, hng] at hf
  rcases har : aStarF g nS nG (edgeCost shadeBias) fuel with p | _ | _
  · have hpoly : nodesPathToPolyline g p = poly := by
      simp [findRouteOnRoadsF, hs, ht, hns, hng, har] at hf
      exact hf
    have hnsl : nS < g.nodes.length := nearestNodeToPoint_lt g hWF s.q nS hns
    have hInv := init_inv g (edgeCost shadeBias) nS nG hnsl
    unfold aStarF at har
    obtain ⟨es, hwalk, hnodes, hmin⟩ :=
      loop_found g (edgeCost shadeBias) nS nG hWF hc0 hpos fuel _ p hInv har
    exact ⟨s, t, nS, nG, es, rfl, rfl, hns, hng, hwalk,
      by rw [hnodes, hpoly], hmin⟩
  · simp [findRouteOnRoadsF, hs, ht, hns, hng, har] at hf
  · simp [findRouteOnRoadsF, hs, ht, hns, hng, har] at hf

/-- With positive, bounded edge costs the aStar loop cannot exhaust a fuel
budget exceeding the loop variant: it terminates. -/
theorem loop_term (g : RoadGraph) (costFn : RoadEdge → ℝ) (start goal : ℕ)
    (hWF : GraphWF g) (hc0 : ∀ e ∈ g.edges, 0 ≤ costFn e)
    (cmin cmax : ℝ) (hcmin0 : 0 < cmin) (hcmin : ∀ e ∈ g.edges, cmin ≤ costFn e)
    (hcmax0 : 0 ≤ cmax) (hcmax : ∀ e ∈ g.edges, costFn e ≤ cmax) :
    ∀ (fuel : ℕ) (σ : AState), AStarInv g costFn start goal σ →
    measureA g (costSet g costFn
      (Nat.ceil (((g.nodes.length : ℝ) * cmax) / cmin))) σ < fuel →
    aStarLoop g goal costFn fuel σ ≠ .fuelOut := by
  intro fuel
  induction fuel with
  | zero =>
    intro σ _ hm
    omega
  | succ fuel ih =>
    intro σ hInv hm
    rw [aStarLoop_succ]
    by_cases hOp : σ.openL = []
    · rw [if_pos hOp]
      intro h
      cases h
    · rw [if_neg hOp]
      rcases hsel : (selBest σ.fsc σ.openL).1 with _ | cur
      · intro h
        cases h
      · simp only
        by_cases hcg : cur = goal
        · rw [if_pos hcg]
          intro h
          cases h
        · rw [if_neg hcg]
          have hcur : cur ∈ σ.openL := (selBest_some σ.fsc σ.openL cur hsel).1
          apply ih
          · exact step_inv g costFn start goal cur hWF hc0 σ hInv hcur hcg
          · obtain ⟨hM, hD⟩ := midInv_pop g costFn start goal cur σ hInv hcur hcg
            have hrelax := relaxAll_measure g costFn start goal cur hWF hc0 _
              (costSet_finite g costFn _)
              (fun σ2 hM2 => midInv_val_mem g costFn start goal cur σ2 hM2
                cmin cmax hcmin0 hcmin hcmax0 hcmax)
              (nodeEdges g cur) ⟨σ.openL.erase cur, σ.came, σ.gsc, σ.fsc⟩ []
              (fun eid he => he) hM hD
            have hlen : (σ.openL.erase cur).length = σ.openL.length - 1 :=
              List.length_erase_of_mem hcur
            have hlen1 : 0 < σ.openL.length := List.length_pos.mpr hOp
            have hpop : measureA g (costSet g costFn
                (Nat.ceil (((g.nodes.length : ℝ) * cmax) / cmin)))
                ⟨σ.openL.erase cur, σ.came, σ.gsc, σ.fsc⟩ + 1 =
                measureA g (costSet g costFn
                  (Nat.ceil (((g.nodes.length : ℝ) * cmax) / cmin))) σ := by
              unfold measureA
              have hsr : sumRank g (costSet g costFn
                  (Nat.ceil (((g.nodes.length : ℝ) * cmax) / cmin)))
                  ⟨σ.openL.erase cur, σ.came, σ.gsc, σ.fsc⟩ =
                  sumRank g (costSet g costFn
                    (Nat.ceil (((g.nodes.length : ℝ) * cmax) / cmin))) σ := rfl
              rw [hsr]
              have : (AState.mk (σ.openL.erase cur) σ.came σ.gsc σ.fsc).openL.length
                  = σ.openL.length - 1 := hlen
              rw [this]
              omega
            unfold relaxAll at hrelax ⊢
            omega

/-- C1 (amended): for every well-formed road graph with positive
shade-biased edge costs, every pair of start and goal points and every
shadeBias, when findRouteOnRoads returns a polyline, that polyline is the
node-position sequence of a node path (walk along graph edges) joining the
two snapped endpoint nodes.  The original minimum-cost claim is refuted by
the counterexample below: with shadeBias above 0 the Euclidean heuristic
overestimates shade-discounted costs and the search can return a
suboptimal path. -/
theorem findRoute_polyline_is_walk (g : RoadGraph) (hWF : GraphWF g)
    (shadeBias : ℝ) (hpos : ∀ e ∈ g.edges, 0 < edgeCost shadeBias e)
    (ws wg : P3) (poly : List P3)
    (h : FindRouteReturns g ws wg shadeBias (some poly)) :
    ∃ s t nS nG es,
      snapToGraph g ws = some s ∧ snapToGraph g wg = some t ∧
      nearestNodeToPoint g s.q = some nS ∧ nearestNodeToPoint g t.q = some nG ∧
      IsWalk g nS es nG ∧ poly = nodesPathToPolyline g (walkNodes g nS es) := by
  obtain ⟨s, t, nS, nG, es, h1, h2, h3, h4, h5, h6, _⟩ :=
    findRoute_some_spec g hWF shadeBias (fun e he => le_of_lt (hpos e he))
      hpos ws wg poly h
  exact ⟨s, t, nS, nG, es, h1, h2, h3, h4, h5, h6⟩

/-- C2 (amended): with shadeBias = 0, on every well-formed road graph
whose edges are at least as long as the straight segment between their
endpoint node positions (no merge slack) and have positive length, a
returned polyline is the node-position sequence of a walk joining the
snapped endpoint nodes whose total length is minimal over all walks
between those nodes.  The original claim over every graph is refuted by
the counterexample below: the builder's merge slack lets an edge be
shorter than the straight node distance, which breaks the heuristic's
admissibility even at shadeBias 0. -/
theorem findRoute_bias0_shortest (g : RoadGraph) (hWF : GraphWF g)
    (hlen : ∀ e ∈ g.edges, distV (nodeP g e.a) (nodeP g e.b) ≤ e.length)
    (hpos : ∀ e ∈ g.edges, 0 < e.length) (ws wg : P3) (poly : List P3)
    (h : FindRouteReturns g ws wg 0 (some poly)) :
    ∃ s t nS nG es,
      snapToGraph g ws = some s ∧ snapToGraph g wg = some t ∧
      nearestNodeToPoint g s.q = some nS ∧ nearestNodeToPoint g t.q = some nG ∧
      IsWalk g nS es nG ∧ poly = nodesPathToPolyline g (walkNodes g nS es) ∧
      (∀ es2, IsWalk g nS es2 nG →
        walkCost g (edgeCost 0) es ≤ walkCost g (edgeCost 0) es2) := by
  have hpos2 : ∀ e ∈ g.edges, 0 < edgeCost 0 e := by
    intro e he
    rw [edgeCost_zero]
    exact hpos e he
  obtain ⟨s, t, nS, nG, es, h1, h2, h3, h4, h5, h6, h7⟩ :=
    findRoute_some_spec g hWF 0 (fun e he => le_of_lt (hpos2 e he))
      hpos2 ws wg poly h
  exact ⟨s, t, nS, nG, es, h1, h2, h3, h4, h5, h6,
    h7 (admissible_of_len g hlen nG)⟩

/-- C4: on every well-formed road graph with positive shade-biased edge
costs, findRouteOnRoads returns null exactly when the start or goal point
cannot be snapped onto any edge, or no node path joins the two snapped
endpoint nodes; and a reroute attempt whose router returns null leaves the
agent completely unchanged. -/
theorem findRoute_none_iff (g : RoadGraph) (hWF : GraphWF g) (shadeBias : ℝ)
    (hpos : ∀ e ∈ g.edges, 0 < edgeCost shadeBias e) (ws wg : P3) :
    (FindRouteReturns g ws wg shadeBias none ↔
      snapToGraph g ws = none ∨ snapToGraph g wg = none ∨
      (∃ s t nS nG, snapToGraph g ws = some s ∧ snapToGraph g wg = some t ∧
        nearestNodeToPoint g s.q = some nS ∧ nearestNodeToPoint g t.q = some nG ∧
        ∀ es, ¬ IsWalk g nS es nG)) ∧
    (∀ (hasGraph : Bool) (router : P3 → P3 → Option (List P3)) (σ : AgentState),
      (∀ a b, router a b = none) →
      trySmartReroute hasGraph router σ = (false, σ)) := by
  have hc0 : ∀ e ∈ g.edges, 0 ≤ edgeCost shadeBias e :=
    fun e he => le_of_lt (hpos e he)
  constructor
  · constructor
    · rintro ⟨fuel, hf⟩
      rcases hs : snapToGraph g ws with _ | s
      · exact Or.inl rfl
      rcases ht : snapToGraph g wg with _ | t
      · exact Or.inr (Or.inl rfl)
      have hene : g.edges ≠ [] := snapToGraph_some_ne_nil g ws s hs
      have hnodesne : g.nodes ≠ [] := by
        obtain ⟨e, hee⟩ := List.exists_mem_of_ne_nil _ hene
        have hlt := (hWF.endpoints e hee).1
        intro hnil
        rw [hnil] at hlt
        simp at hlt
      obtain ⟨nS, hns⟩ := nearestNodeToPoint_ne_nil g s.q hnodesne
      obtain ⟨nG, hng⟩ := nearestNodeToPoint_ne_nil g t.q hnodesne
      rcases har : aStarF g nS nG (edgeCost shadeBias) fuel with p | _ | _
      · simp [findRouteOnRoadsF, hs, ht, hns, hng, har] at hf
      · refine Or.inr (Or.inr ⟨s, t, nS, nG, rfl, rfl, hns, hng, ?_⟩)
        have hnsl : nS < g.nodes.length := nearestNodeToPoint_lt g hWF s.q nS hns
        have hInv := init_inv g (edgeCost shadeBias) nS nG hnsl
        unfold aStarF at har
        exact loop_noPath g (edgeCost shadeBias) nS nG hWF hc0 fuel _ hInv har
      · simp [findRouteOnRoadsF, hs, ht, hns, hng, har] at hf
    · intro hcase
      rcases hcase with hws | hwg | ⟨s, t, nS, nG, hs, ht, hns, hng, hnw⟩
      · exact ⟨0, by simp [findRouteOnRoadsF, hws]⟩
      · refine ⟨0, ?_⟩
        rcases hs2 : snapToGraph g ws with _ | s
        · simp [findRouteOnRoadsF, hs2]
        · simp [findRouteOnRoadsF, hs2, hwg]
      · have hnsl : nS < g.nodes.length := nearestNodeToPoint_lt g hWF s.q nS hns
        obtain ⟨cmin, hcmin0, hcmin⟩ := exists_cmin g.edges (edgeCost shadeBias) hpos
        obtain ⟨cmax, hcmax0, hcmax⟩ := exists_cmax g.edges (edgeCost shadeBias) hc0
        have hInv := init_inv g (edgeCost shadeBias) nS nG hnsl
        have hterm := loop_term g (edgeCost shadeBias) nS nG hWF hc0 cmin cmax
          hcmin0 hcmin hcmax0 hcmax
          (measureA g (costSet g (edgeCost shadeBias)
            (Nat.ceil (((g.nodes.length : ℝ) * cmax) / cmin)))
            (aStarInit g nS nG) + 1)
          (aStarInit g nS nG) hInv (Nat.lt_succ_self _)
        refine ⟨measureA g (costSet g (edgeCost shadeBias)
          (Nat.ceil (((g.nodes.length : ℝ) * cmax) / cmin)))
          (aStarInit g nS nG) + 1, ?_⟩
        rcases har : aStarF g nS nG (edgeCost shadeBias)
            (measureA g (costSet g (edgeCost shadeBias)
              (Nat.ceil (((g.nodes.length : ℝ) * cmax) / cmin)))
              (aStarInit g nS nG) + 1) with p | _ | _
        · exfalso
          unfold aStarF at har
          obtain ⟨es, hwalk, _, _⟩ := loop_found g (edgeCost shadeBias) nS nG hWF
            hc0 hpos _ _ p hInv har
          exact hnw es hwalk
        · simp [findRouteOnRoadsF, hs, ht, hns, hng, har]
        · exfalso
          unfold aStarF at har
          exact hterm har
  · intro hasGraph router σ hr
    rcases hfg : σ.finalGoal with _ | fg
    · simp [trySmartReroute, hfg]
    · simp [trySmartReroute, hfg, hr]

theorem distV_eval (a b : P3) (r : ℝ) (hr : 0 ≤ r)
    (h : (a.x - b.x) ^ 2 + (a.y - b.y) ^ 2 + (a.z - b.z) ^ 2 = r ^ 2) :
    distV a b = r := by
  unfold distV
  rw [h]
  exact Real.sqrt_sq hr

/-- Closed-form evaluation of the segment projection. -/
theorem nPE_eval (e : RoadEdge) (a b p q : P3) (t d : ℝ)
    (hp : e.poly = [a, b])
    (ht : clampR (vdot (vsub p a) (vsub b a) / lengthSq (vsub b a)) 0 1 = t)
    (hq : vadds a (vsub b a) t = q) (hd : distV p q = d) :
    nearestPointOnEdge e p = ⟨q, t, d⟩ := by
  unfold nearestPointOnEdge
  rw [hp]
  show SnapPt.mk
    (vadds a (vsub b a)
      (clampR (vdot (vsub p a) (vsub b a) / lengthSq (vsub b a)) 0 1))
    (clampR (vdot (vsub p a) (vsub b a) / lengthSq (vsub b a)) 0 1)
    (distV p (vadds a (vsub b a)
      (clampR (vdot (vsub p a) (vsub b a) / lengthSq (vsub b a)) 0 1))) = ⟨q, t, d⟩
  rw [ht, hq, hd]

theorem cexG1_cost0 :
    edgeCost 1 ⟨0, 0, 1, [⟨0, 0, 0⟩, ⟨14, 0, 0⟩], 14, 0⟩ = 14 := by
  show (14 : ℝ) * max 0.2 (1 - 1 * 0) = 14
  rw [show (1 : ℝ) - 1 * 0 = 1 by norm_num,
    max_eq_right (by norm_num : (0.2 : ℝ) ≤ 1)]
  norm_num

theorem cexG1_cost1 :
    edgeCost 1 ⟨1, 0, 2, [⟨0, 0, 0⟩, ⟨5, 0, 12⟩], 13, 1⟩ = 2.6 := by
  show (13 : ℝ) * max 0.2 (1 - 1 * 1) = 2.6
  rw [show (1 : ℝ) - 1 * 1 = 0 by norm_num,
    max_eq_left (by norm_num : (0 : ℝ) ≤ 0.2)]
  norm_num

theorem cexG1_cost2 :
    edgeCost 1 ⟨2, 2, 1, [⟨5, 0, 12⟩, ⟨14, 0, 0⟩], 15, 1⟩ = 3 := by
  show (15 : ℝ) * max 0.2 (1 - 1 * 1) = 3
  rw [show (1 : ℝ) - 1 * 1 = 0 by norm_num,
    max_eq_left (by norm_num : (0 : ℝ) ≤ 0.2)]
  norm_num

theorem cexG1_costZ0 :
    edgeCost 0 ⟨0, 0, 1, [⟨0, 0, 0⟩, ⟨14, 0, 0⟩], 14, 0⟩ = 14 := by
  rw [edgeCost_zero]

theorem cexG1_costZ1 :
    edgeCost 0 ⟨1, 0, 2, [⟨0, 0, 0⟩, ⟨5, 0, 12⟩], 13, 1⟩ = 13 := by
  rw [edgeCost_zero]

theorem cexG1_heur01 : heur cexG1 0 1 = 14 := by
  show distV ⟨0, 0, 0⟩ ⟨14, 0, 0⟩ = 14
  exact distV_eval _ _ 14 (by norm_num) (by norm_num)

theorem cexG1_heur21 : heur cexG1 2 1 = 15 := by
  show distV ⟨5, 0, 12⟩ ⟨14, 0, 0⟩ = 15
  exact distV_eval _ _ 15 (by norm_num) (by norm_num)

theorem cexG1_nPE0_ws :
    nearestPointOnEdge ⟨0, 0, 1, [⟨0, 0, 0⟩, ⟨14, 0, 0⟩], 14, 0⟩ ⟨0, 0, 0⟩ =
      ⟨⟨0, 0, 0⟩, 0, 0⟩ := by
  refine nPE_eval _ ⟨0, 0, 0⟩ ⟨14, 0, 0⟩ ⟨0, 0, 0⟩ ⟨0, 0, 0⟩ 0 0 rfl ?_ ?_ ?_
  · norm_num [clampR, vdot, vsub, lengthSq]
  · norm_num [vadds, vsub]
  · exact distV_self _

theorem cexG1_nPE1_ws :
    nearestPointOnEdge ⟨1, 0, 2, [⟨0, 0, 0⟩, ⟨5, 0, 12⟩], 13, 1⟩ ⟨0, 0, 0⟩ =
      ⟨⟨0, 0, 0⟩, 0, 0⟩ := by
  refine nPE_eval _ ⟨0, 0, 0⟩ ⟨5, 0, 12⟩ ⟨0, 0, 0⟩ ⟨0, 0, 0⟩ 0 0 rfl ?_ ?_ ?_
  · norm_num [clampR, vdot, vsub, lengthSq]
  · norm_num [vadds, vsub]
  · exact distV_self _

theorem cexG1_nPE2_ws :
    nearestPointOnEdge ⟨2, 2, 1, [⟨5, 0, 12⟩, ⟨14, 0, 0⟩], 15, 1⟩ ⟨0, 0, 0⟩ =
      ⟨⟨8.96, 0, 6.72⟩, 0.44, 11.2⟩ := by
  refine nPE_eval _ ⟨5, 0, 12⟩ ⟨14, 0, 0⟩ ⟨0, 0, 0⟩ ⟨8.96, 0, 6.72⟩ 0.44 11.2
    rfl ?_ ?_ ?_
  · norm_num [clampR, vdot, vsub, lengthSq]
  · norm_num [vadds, vsub]
  · exact distV_eval _ _ 11.2 (by norm_num) (by norm_num)

theorem cexG1_nPE0_wg :
    nearestPointOnEdge ⟨0, 0, 1, [⟨0, 0, 0⟩, ⟨14, 0, 0⟩], 14, 0⟩ ⟨14, 0, 0⟩ =
      ⟨⟨14, 0, 0⟩, 1, 0⟩ := by
  refine nPE_eval _ ⟨0, 0, 0⟩ ⟨14, 0, 0⟩ ⟨14, 0, 0⟩ ⟨14, 0, 0⟩ 1 0 rfl ?_ ?_ ?_
  · norm_num [clampR, vdot, vsub, lengthSq]
  · norm_num [vadds, vsub]
  · exact distV_self _

theorem cexG1_nPE1_wg :
    nearestPointOnEdge ⟨1, 0, 2, [⟨0, 0, 0⟩, ⟨5, 0, 12⟩], 13, 1⟩ ⟨14, 0, 0⟩ =
      ⟨⟨350 / 169, 0, 840 / 169⟩, 70 / 169, 168 / 13⟩ := by
  refine nPE_eval _ ⟨0, 0, 0⟩ ⟨5, 0, 12⟩ ⟨14, 0, 0⟩ ⟨350 / 169, 0, 840 / 169⟩
    (70 / 169) (168 / 13) rfl ?_ ?_ ?_
  · norm_num [clampR, vdot, vsub, lengthSq]
  · norm_num [vadds, vsub]
  · exact distV_eval _ _ (168 / 13) (by norm_num) (by norm_num)

theorem cexG1_nPE2_wg :
    nearestPointOnEdge ⟨2, 2, 1, [⟨5, 0, 12⟩, ⟨14, 0, 0⟩], 15, 1⟩ ⟨14, 0, 0⟩ =
      ⟨⟨14, 0, 0⟩, 1, 0⟩ := by
  refine nPE_eval _ ⟨5, 0, 12⟩ ⟨14, 0, 0⟩ ⟨14, 0, 0⟩ ⟨14, 0, 0⟩ 1 0 rfl ?_ ?_ ?_
  · norm_num [clampR, vdot, vsub, lengthSq]
  · norm_num [vadds, vsub]
  · exact distV_self _

theorem cexG1_snap_ws :
    snapToGraph cexG1 ⟨0, 0, 0⟩ =
      some ⟨⟨0, 0, 1, [⟨0, 0, 0⟩, ⟨14, 0, 0⟩], 14, 0⟩, ⟨0, 0, 0⟩, 0, 0⟩ := by
  have h0 : snapStep ⟨0, 0, 0⟩ none ⟨0, 0, 1, [⟨0, 0, 0⟩, ⟨14, 0, 0⟩], 14, 0⟩ =
      some ⟨⟨0, 0, 1, [⟨0, 0, 0⟩, ⟨14, 0, 0⟩], 14, 0⟩, ⟨0, 0, 0⟩, 0, 0⟩ := by
    rw [snapStep_none, cexG1_nPE0_ws]
  have h1 : snapStep ⟨0, 0, 0⟩
      (some ⟨⟨0, 0, 1, [⟨0, 0, 0⟩, ⟨14, 0, 0⟩], 14, 0⟩, ⟨0, 0, 0⟩, 0, 0⟩)
      ⟨1, 0, 2, [⟨0, 0, 0⟩, ⟨5, 0, 12⟩], 13, 1⟩ =
      some ⟨⟨0, 0, 1, [⟨0, 0, 0⟩, ⟨14, 0, 0⟩], 14, 0⟩, ⟨0, 0, 0⟩, 0, 0⟩ := by
    apply snapStep_keep
    rw [cexG1_nPE1_ws]
    norm_num
  have h2 : snapStep ⟨0, 0, 0⟩
      (some ⟨⟨0, 0, 1, [⟨0, 0, 0⟩, ⟨14, 0, 0⟩], 14, 0⟩, ⟨0, 0, 0⟩, 0, 0⟩)
      ⟨2, 2, 1, [⟨5, 0, 12⟩, ⟨14, 0, 0⟩], 15, 1⟩ =
      some ⟨⟨0, 0, 1, [⟨0, 0, 0⟩, ⟨14, 0, 0⟩], 14, 0⟩, ⟨0, 0, 0⟩, 0, 0⟩ := by
    apply snapStep_keep
    rw [cexG1_nPE2_ws]
    norm_num
  show List.foldl (snapStep ⟨0, 0, 0⟩) none
    [⟨0, 0, 1, [⟨0, 0, 0⟩, ⟨14, 0, 0⟩], 14, 0⟩,
     ⟨1, 0, 2, [⟨0, 0, 0⟩, ⟨5, 0, 12⟩], 13, 1⟩,
     ⟨2, 2, 1, [⟨5, 0, 12⟩, ⟨14, 0, 0⟩], 15, 1⟩] =
    some ⟨⟨0, 0, 1, [⟨0, 0, 0⟩, ⟨14, 0, 0⟩], 14, 0⟩, ⟨0, 0, 0⟩, 0, 0⟩
  rw [List.foldl_cons, h0, List.foldl_cons, h1, List.foldl_cons, h2,
    List.foldl_nil]

theorem cexG1_snap_wg :
    snapToGraph cexG1 ⟨14, 0, 0⟩ =
      some ⟨⟨0, 0, 1, [⟨0, 0, 0⟩, ⟨14, 0, 0⟩], 14, 0⟩, ⟨14, 0, 0⟩, 1, 0⟩ := by
  have h0 : snapStep ⟨14, 0, 0⟩ none ⟨0, 0, 1, [⟨0, 0, 0⟩, ⟨14, 0, 0⟩], 14, 0⟩ =
      some ⟨⟨0, 0, 1, [⟨0, 0, 0⟩, ⟨14, 0, 0⟩], 14, 0⟩, ⟨14, 0, 0⟩, 1, 0⟩ := by
    rw [snapStep_none, cexG1_nPE0_wg]
  have h1 : snapStep ⟨14, 0, 0⟩
      (some ⟨⟨0, 0, 1, [⟨0, 0, 0⟩, ⟨14, 0, 0⟩], 14, 0⟩, ⟨14, 0, 0⟩, 1, 0⟩)
      ⟨1, 0, 2, [⟨0, 0, 0⟩, ⟨5, 0, 12⟩], 13, 1⟩ =
      some ⟨⟨0, 0, 1, [⟨0, 0, 0⟩, ⟨14, 0, 0⟩], 14, 0⟩, ⟨14, 0, 0⟩, 1, 0⟩ := by
    apply snapStep_keep
    rw [cexG1_nPE1_wg]
    norm_num
  have h2 : snapStep ⟨14, 0, 0⟩
      (some ⟨⟨0, 0, 1, [⟨0, 0, 0⟩, ⟨14, 0, 0⟩], 14, 0⟩, ⟨14, 0, 0⟩, 1, 0⟩)
      ⟨2, 2, 1, [⟨5, 0, 12⟩, ⟨14, 0, 0⟩], 15, 1⟩ =
      some ⟨⟨0, 0, 1, [⟨0, 0, 0⟩, ⟨14, 0, 0⟩], 14, 0⟩, ⟨14, 0, 0⟩, 1, 0⟩ := by
    apply snapStep_keep
    rw [cexG1_nPE2_wg]
    norm_num
  show List.foldl (snapStep ⟨14, 0, 0⟩) none
    [⟨0, 0, 1, [⟨0, 0, 0⟩, ⟨14, 0, 0⟩], 14, 0⟩,
     ⟨1, 0, 2, [⟨0, 0, 0⟩, ⟨5, 0, 12⟩], 13, 1⟩,
     ⟨2, 2, 1, [⟨5, 0, 12⟩, ⟨14, 0, 0⟩], 15, 1⟩] =
    some ⟨⟨0, 0, 1, [⟨0, 0, 0⟩, ⟨14, 0, 0⟩], 14, 0⟩, ⟨14, 0, 0⟩, 1, 0⟩
  rw [List.foldl_cons, h0, List.foldl_cons, h1, List.foldl_cons, h2,
    List.foldl_nil]

theorem cexG1_nn_ws : nearestNodeToPoint cexG1 ⟨0, 0, 0⟩ = some 0 := by
  have h0 : nnStep ⟨0, 0, 0⟩ (none, none) ⟨0, ⟨0, 0, 0⟩, [0, 1]⟩ =
      (some 0, some 0) := by
    rw [nnStep_pos _ _ _ (by trivial)]
    show ((some 0 : Option ℕ), some (distV ⟨0, 0, 0⟩ ⟨0, 0, 0⟩)) = (some 0, some 0)
    rw [distV_self]
  have h1 : nnStep ⟨0, 0, 0⟩ ((some 0 : Option ℕ), (some 0 : Option ℝ))
      ⟨1, ⟨14, 0, 0⟩, [0, 2]⟩ = (some 0, some 0) := by
    apply nnStep_neg
    show ¬ oLT (some (distV ⟨14, 0, 0⟩ ⟨0, 0, 0⟩)) (some 0)
    rw [distV_eval _ _ 14 (by norm_num) (by norm_num)]
    show ¬ ((14 : ℝ) < 0)
    norm_num
  have h2 : nnStep ⟨0, 0, 0⟩ ((some 0 : Option ℕ), (some 0 : Option ℝ))
      ⟨2, ⟨5, 0, 12⟩, [1, 2]⟩ = (some 0, some 0) := by
    apply nnStep_neg
    show ¬ oLT (some (distV ⟨5, 0, 12⟩ ⟨0, 0, 0⟩)) (some 0)
    rw [distV_eval _ _ 13 (by norm_num) (by norm_num)]
    show ¬ ((13 : ℝ) < 0)
    norm_num
  show (List.foldl (nnStep ⟨0, 0, 0⟩) (none, none)
    [⟨0, ⟨0, 0, 0⟩, [0, 1]⟩, ⟨1, ⟨14, 0, 0⟩, [0, 2]⟩,
     ⟨2, ⟨5, 0, 12⟩, [1, 2]⟩]).1 = some 0
  rw [List.foldl_cons, h0, List.foldl_cons, h1, List.foldl_cons, h2,
    List.foldl_nil]

theorem cexG1_nn_wg : nearestNodeToPoint cexG1 ⟨14, 0, 0⟩ = some 1 := by
  have h0 : nnStep ⟨14, 0, 0⟩ (none, none) ⟨0, ⟨0, 0, 0⟩, [0, 1]⟩ =
      (some 0, some 14) := by
    rw [nnStep_pos _ _ _ (by trivial)]
    show ((some 0 : Option ℕ), some (distV ⟨0, 0, 0⟩ ⟨14, 0, 0⟩)) =
      (some 0, some 14)
    rw [distV_eval _ _ 14 (by norm_num) (by norm_num)]
  have h1 : nnStep ⟨14, 0, 0⟩ ((some 0 : Option ℕ), (some 14 : Option ℝ))
      ⟨1, ⟨14, 0, 0⟩, [0, 2]⟩ = (some 1, some 0) := by
    have hc : oLT (some (distV (⟨1, ⟨14, 0, 0⟩, [0, 2]⟩ : RoadNode).p ⟨14, 0, 0⟩))
        (((some 0 : Option ℕ), (some 14 : Option ℝ)).2) := by
      show oLT (some (distV ⟨14, 0, 0⟩ ⟨14, 0, 0⟩)) (some 14)
      rw [distV_self]
      show (0 : ℝ) < 14
      norm_num
    rw [nnStep_pos _ _ _ hc]
    show ((some 1 : Option ℕ), some (distV ⟨14, 0, 0⟩ ⟨14, 0, 0⟩)) =
      (some 1, some 0)
    rw [distV_self]
  have h2 : nnStep ⟨14, 0, 0⟩ ((some 1 : Option ℕ), (some 0 : Option ℝ))
      ⟨2, ⟨5, 0, 12⟩, [1, 2]⟩ = (some 1, some 0) := by
    apply nnStep_neg
    show ¬ oLT (some (distV ⟨5, 0, 12⟩ ⟨14, 0, 0⟩)) (some 0)
    rw [distV_eval _ _ 15 (by norm_num) (by norm_num)]
    show ¬ ((15 : ℝ) < 0)
    norm_num
  show (List.foldl (nnStep ⟨14, 0, 0⟩) (none, none)
    [⟨0, ⟨0, 0, 0⟩, [0, 1]⟩, ⟨1, ⟨14, 0, 0⟩, [0, 2]⟩,
     ⟨2, ⟨5, 0, 12⟩, [1, 2]⟩]).1 = some 1
  rw [List.foldl_cons, h0, List.foldl_cons, h1, List.foldl_cons, h2,
    List.foldl_nil]

theorem selBest_one (fsc : ℕ → Option ℝ) (a : ℕ) (va : ℝ)
    (ha : fsc a = some va) : (selBest fsc [a]).1 = some a := by
  unfold selBest
  simp only [List.foldl_cons, List.foldl_nil]
  rw [ha]
  rw [if_pos (show oLT (some va) (((none : Option ℕ), (none : Option ℝ)).2)
    from trivial)]

theorem selBest_two (fsc : ℕ → Option ℝ) (a b : ℕ) (va vb : ℝ)
    (ha : fsc a = some va) (hb : fsc b = some vb) (hcmp : ¬ vb < va) :
    (selBest fsc [a, b]).1 = some a := by
  unfold selBest
  simp only [List.foldl_cons, List.foldl_nil]
  rw [ha, hb]
  rw [if_pos (show oLT (some va) (((none : Option ℕ), (none : Option ℝ)).2)
    from trivial)]
  rw [if_neg (show ¬ oLT (some vb)
    (((some a : Option ℕ), (some va : Option ℝ)).2) from hcmp)]

/-- The two-iteration aStar trace on the triangle graph, for any cost
function under which the direct edge wins the second selection: pop the
start, relax both of its edges, then pop the goal first and reconstruct
the direct path. -/
theorem cexG1_astar (costFn : RoadEdge → ℝ)
    (hcmp : ¬ ((0 : ℝ) + costFn ⟨1, 0, 2, [⟨0, 0, 0⟩, ⟨5, 0, 12⟩], 13, 1⟩ +
        heur cexG1 2 1 <
      0 + costFn ⟨0, 0, 1, [⟨0, 0, 0⟩, ⟨14, 0, 0⟩], 14, 0⟩ + heur cexG1 1 1)) :
    aStarF cexG1 0 1 costFn 2 = .found [0, 1] := by
  have hsel1 : (selBest (aStarInit cexG1 0 1).fsc (aStarInit cexG1 0 1).openL).1
      = some 0 := by
    show (selBest (fupd (fun _ => none) 0 (heur cexG1 0 1)) [0]).1 = some 0
    exact selBest_one _ 0 (heur cexG1 0 1) (fupd_same _ _ _)
  unfold aStarF
  rw [show (2 : ℕ) = 1 + 1 from rfl, aStarLoop_succ]
  rw [if_neg (show ¬ (aStarInit cexG1 0 1).openL = [] by simp [aStarInit])]
  rw [hsel1]
  simp only
  rw [if_neg (show ¬ (0 : ℕ) = 1 by norm_num)]
  show aStarLoop cexG1 1 costFn 1 (relaxAll cexG1 1 costFn 0
    ⟨[], fun _ => none, fupd (fun _ => none) 0 0,
      fupd (fun _ => none) 0 (heur cexG1 0 1)⟩) = .found [0, 1]
  have hr0 : relaxEdge cexG1 1 costFn 0
      ⟨[], fun _ => none, fupd (fun _ => none) 0 0,
        fupd (fun _ => none) 0 (heur cexG1 0 1)⟩ 0 =
      ⟨[1], fupd (fun _ => none) 1 0,
        fupd (fupd (fun _ => none) 0 0) 1
          (0 + costFn ⟨0, 0, 1, [⟨0, 0, 0⟩, ⟨14, 0, 0⟩], 14, 0⟩),
        fupd (fupd (fun _ => none) 0 (heur cexG1 0 1)) 1
          (0 + costFn ⟨0, 0, 1, [⟨0, 0, 0⟩, ⟨14, 0, 0⟩], 14, 0⟩ +
            heur cexG1 1 1)⟩ := by
    show (if oLT (some ((0 : ℝ) +
        costFn ⟨0, 0, 1, [⟨0, 0, 0⟩, ⟨14, 0, 0⟩], 14, 0⟩)) (none : Option ℝ) then
      (⟨[1], fupd (fun _ => none) 1 0,
        fupd (fupd (fun _ => none) 0 0) 1
          (0 + costFn ⟨0, 0, 1, [⟨0, 0, 0⟩, ⟨14, 0, 0⟩], 14, 0⟩),
        fupd (fupd (fun _ => none) 0 (heur cexG1 0 1)) 1
          (0 + costFn ⟨0, 0, 1, [⟨0, 0, 0⟩, ⟨14, 0, 0⟩], 14, 0⟩ +
            heur cexG1 1 1)⟩ : AState)
      else ⟨[], fun _ => none, fupd (fun _ => none) 0 0,
        fupd (fun _ => none) 0 (heur cexG1 0 1)⟩) = _
    rw [if_pos (show oLT (some ((0 : ℝ) +
      costFn ⟨0, 0, 1, [⟨0, 0, 0⟩, ⟨14, 0, 0⟩], 14, 0⟩)) (none : Option ℝ)
      from trivial)]
  have hr1 : relaxEdge cexG1 1 costFn 0
      ⟨[1], fupd (fun _ => none) 1 0,
        fupd (fupd (fun _ => none) 0 0) 1
          (0 + costFn ⟨0, 0, 1, [⟨0, 0, 0⟩, ⟨14, 0, 0⟩], 14, 0⟩),
        fupd (fupd (fun _ => none) 0 (heur cexG1 0 1)) 1
          (0 + costFn ⟨0, 0, 1, [⟨0, 0, 0⟩, ⟨14, 0, 0⟩], 14, 0⟩ +
            heur cexG1 1 1)⟩ 1 =
      ⟨[1, 2], fupd (fupd (fun _ => none) 1 0) 2 0,
        fupd (fupd (fupd (fun _ => none) 0 0) 1
          (0 + costFn ⟨0, 0, 1, [⟨0, 0, 0⟩, ⟨14, 0, 0⟩], 14, 0⟩)) 2
          (0 + costFn ⟨1, 0, 2, [⟨0, 0, 0⟩, ⟨5, 0, 12⟩], 13, 1⟩),
        fupd (fupd (fupd (fun _ => none) 0 (heur cexG1 0 1)) 1
          (0 + costFn ⟨0, 0, 1, [⟨0, 0, 0⟩, ⟨14, 0, 0⟩], 14, 0⟩ +
            heur cexG1 1 1)) 2
          (0 + costFn ⟨1, 0, 2, [⟨0, 0, 0⟩, ⟨5, 0, 12⟩], 13, 1⟩ +
            heur cexG1 2 1)⟩ := by
    show (if oLT (some ((0 : ℝ) +
        costFn ⟨1, 0, 2, [⟨0, 0, 0⟩, ⟨5, 0, 12⟩], 13, 1⟩)) (none : Option ℝ) then
      (⟨[1, 2], fupd (fupd (fun _ => none) 1 0) 2 0,
        fupd (fupd (fupd (fun _ => none) 0 0) 1
          (0 + costFn ⟨0, 0, 1, [⟨0, 0, 0⟩, ⟨14, 0, 0⟩], 14, 0⟩)) 2
          (0 + costFn ⟨1, 0, 2, [⟨0, 0, 0⟩, ⟨5, 0, 12⟩], 13, 1⟩),
        fupd (fupd (fupd (fun _ => none) 0 (heur cexG1 0 1)) 1
          (0 + costFn ⟨0, 0, 1, [⟨0, 0, 0⟩, ⟨14, 0, 0⟩], 14, 0⟩ +
            heur cexG1 1 1)) 2
          (0 + costFn ⟨1, 0, 2, [⟨0, 0, 0⟩, ⟨5, 0, 12⟩], 13, 1⟩ +
            heur cexG1 2 1)⟩ : AState)
      else ⟨[1], fupd (fun _ => none) 1 0,
        fupd (fupd (fun _ => none) 0 0) 1
          (0 + costFn ⟨0, 0, 1, [⟨0, 0, 0⟩, ⟨14, 0, 0⟩], 14, 0⟩),
        fupd (fupd (fun _ => none) 0 (heur cexG1 0 1)) 1
          (0 + costFn ⟨0, 0, 1, [⟨0, 0, 0⟩, ⟨14, 0, 0⟩], 14, 0⟩ +
            heur cexG1 1 1)⟩) = _
    rw [if_pos (show oLT (some ((0 : ℝ) +
      costFn ⟨1, 0, 2, [⟨0, 0, 0⟩, ⟨5, 0, 12⟩], 13, 1⟩)) (none : Option ℝ)
      from trivial)]
  have hra : relaxAll cexG1 1 costFn 0
      ⟨[], fun _ => none, fupd (fun _ => none) 0 0,
        fupd (fun _ => none) 0 (heur cexG1 0 1)⟩ =
      ⟨[1, 2], fupd (fupd (fun _ => none) 1 0) 2 0,
        fupd (fupd (fupd (fun _ => none) 0 0) 1
          (0 + costFn ⟨0, 0, 1, [⟨0, 0, 0⟩, ⟨14, 0, 0⟩], 14, 0⟩)) 2
          (0 + costFn ⟨1, 0, 2, [⟨0, 0, 0⟩, ⟨5, 0, 12⟩], 13, 1⟩),
        fupd (fupd (fupd (fun _ => none) 0 (heur cexG1 0 1)) 1
          (0 + costFn ⟨0, 0, 1, [⟨0, 0, 0⟩, ⟨14, 0, 0⟩], 14, 0⟩ +
            heur cexG1 1 1)) 2
          (0 + costFn ⟨1, 0, 2, [⟨0, 0, 0⟩, ⟨5, 0, 12⟩], 13, 1⟩ +
            heur cexG1 2 1)⟩ := by
    show List.foldl (relaxEdge cexG1 1 costFn 0)
      ⟨[], fun _ => none, fupd (fun _ => none) 0 0,
        fupd (fun _ => none) 0 (heur cexG1 0 1)⟩ [0, 1] = _
    rw [List.foldl_cons, hr0, List.foldl_cons, hr1, List.foldl_nil]
  rw [hra]
  rw [show (1 : ℕ) = 0 + 1 from rfl, aStarLoop_succ]
  rw [show (AState.mk [1, 2] (fupd (fupd (fun _ => none) 1 0) 2 0)
        (fupd (fupd (fupd (fun _ => none) 0 0) 1
          (0 + costFn ⟨0, 0, 1, [⟨0, 0, 0⟩, ⟨14, 0, 0⟩], 14, 0⟩)) 2
          (0 + costFn ⟨1, 0, 2, [⟨0, 0, 0⟩, ⟨5, 0, 12⟩], 13, 1⟩))
        (fupd (fupd (fupd (fun _ => none) 0 (heur cexG1 0 1)) 1
          (0 + costFn ⟨0, 0, 1, [⟨0, 0, 0⟩, ⟨14, 0, 0⟩], 14, 0⟩ +
            heur cexG1 1 1)) 2
          (0 + costFn ⟨1, 0, 2, [⟨0, 0, 0⟩, ⟨5, 0, 12⟩], 13, 1⟩ +
            heur cexG1 2 1))).openL = [1, 2] from rfl]
  rw [show (AState.mk [1, 2] (fupd (fupd (fun _ => none) 1 0) 2 0)
        (fupd (fupd (fupd (fun _ => none) 0 0) 1
          (0 + costFn ⟨0, 0, 1, [⟨0, 0, 0⟩, ⟨14, 0, 0⟩], 14, 0⟩)) 2
          (0 + costFn ⟨1, 0, 2, [⟨0, 0, 0⟩, ⟨5, 0, 12⟩], 13, 1⟩))
        (fupd (fupd (fupd (fun _ => none) 0 (heur cexG1 0 1)) 1
          (0 + costFn ⟨0, 0, 1, [⟨0, 0, 0⟩, ⟨14, 0, 0⟩], 14, 0⟩ +
            heur cexG1 1 1)) 2
          (0 + costFn ⟨1, 0, 2, [⟨0, 0, 0⟩, ⟨5, 0, 12⟩], 13, 1⟩ +
            heur cexG1 2 1))).fsc =
      fupd (fupd (fupd (fun _ => none) 0 (heur cexG1 0 1)) 1
        (0 + costFn ⟨0, 0, 1, [⟨0, 0, 0⟩, ⟨14, 0, 0⟩], 14, 0⟩ +
          heur cexG1 1 1)) 2
        (0 + costFn ⟨1, 0, 2, [⟨0, 0, 0⟩, ⟨5, 0, 12⟩], 13, 1⟩ +
          heur cexG1 2 1) from rfl]
  rw [show (AState.mk [1, 2] (fupd (fupd (fun _ => none) 1 0) 2 0)
        (fupd (fupd (fupd (fun _ => none) 0 0) 1
          (0 + costFn ⟨0, 0, 1, [⟨0, 0, 0⟩, ⟨14, 0, 0⟩], 14, 0⟩)) 2
          (0 + costFn ⟨1, 0, 2, [⟨0, 0, 0⟩, ⟨5, 0, 12⟩], 13, 1⟩))
        (fupd (fupd (fupd (fun _ => none) 0 (heur cexG1 0 1)) 1
          (0 + costFn ⟨0, 0, 1, [⟨0, 0, 0⟩, ⟨14, 0, 0⟩], 14, 0⟩ +
            heur cexG1 1 1)) 2
          (0 + costFn ⟨1, 0, 2, [⟨0, 0, 0⟩, ⟨5, 0, 12⟩], 13, 1⟩ +
            heur cexG1 2 1))).came =
      fupd (fupd (fun _ => none) 1 0) 2 0 from rfl]
  rw [if_neg (show ¬ ([1, 2] : List ℕ) = [] by simp)]
  have hsel2 : (selBest
      (fupd (fupd (fupd (fun _ => none) 0 (heur cexG1 0 1)) 1
        (0 + costFn ⟨0, 0, 1, [⟨0, 0, 0⟩, ⟨14, 0, 0⟩], 14, 0⟩ +
          heur cexG1 1 1)) 2
        (0 + costFn ⟨1, 0, 2, [⟨0, 0, 0⟩, ⟨5, 0, 12⟩], 13, 1⟩ +
          heur cexG1 2 1)) [1, 2]).1 = some 1 :=
    selBest_two _ 1 2
      (0 + costFn ⟨0, 0, 1, [⟨0, 0, 0⟩, ⟨14, 0, 0⟩], 14, 0⟩ + heur cexG1 1 1)
      (0 + costFn ⟨1, 0, 2, [⟨0, 0, 0⟩, ⟨5, 0, 12⟩], 13, 1⟩ + heur cexG1 2 1)
      rfl rfl hcmp
  rw [hsel2]
  rfl

theorem cexG1_astar_b1 : aStarF cexG1 0 1 (edgeCost 1) 2 = .found [0, 1] :=
  cexG1_astar (edgeCost 1) (by
    rw [cexG1_cost1, cexG1_cost0, cexG1_heur21, heur_self]
    norm_num)

theorem cexG1_astar_b0 : aStarF cexG1 0 1 (edgeCost 0) 2 = .found [0, 1] :=
  cexG1_astar (edgeCost 0) (by
    rw [cexG1_costZ1, cexG1_costZ0, cexG1_heur21, heur_self]
    norm_num)

theorem cexG1_run_b1 : findRouteOnRoadsF 2 cexG1 ⟨0, 0, 0⟩ ⟨14, 0, 0⟩ 1 =
    .res (some [⟨0, 0, 0⟩, ⟨14, 0, 0⟩]) := by
  simp only [findRouteOnRoadsF, cexG1_snap_ws, cexG1_snap_wg, cexG1_nn_ws,
    cexG1_nn_wg, cexG1_astar_b1]
  rfl

theorem cexG1_run_b0 : findRouteOnRoadsF 2 cexG1 ⟨0, 0, 0⟩ ⟨14, 0, 0⟩ 0 =
    .res (some [⟨0, 0, 0⟩, ⟨14, 0, 0⟩]) := by
  simp only [findRouteOnRoadsF, cexG1_snap_ws, cexG1_snap_wg, cexG1_nn_ws,
    cexG1_nn_wg, cexG1_astar_b0]
  rfl

theorem cexG1_WF : GraphWF cexG1 := by
  refine ⟨?_, ?_, ?_, ?_, ?_⟩
  · intro i n h
    rcases i with _ | _ | _ | i
    · rw [show cexG1.nodes.get? 0 = some ⟨0, ⟨0, 0, 0⟩, [0, 1]⟩ from rfl] at h
      cases h
      rfl
    · rw [show cexG1.nodes.get? 1 = some ⟨1, ⟨14, 0, 0⟩, [0, 2]⟩ from rfl] at h
      cases h
      rfl
    · rw [show cexG1.nodes.get? 2 = some ⟨2, ⟨5, 0, 12⟩, [1, 2]⟩ from rfl] at h
      cases h
      rfl
    · rw [show cexG1.nodes.get? (i + 3) = none from rfl] at h
      cases h
  · intro j e h
    rcases j with _ | _ | _ | j
    · rw [show cexG1.edges.get? 0 =
        some ⟨0, 0, 1, [⟨0, 0, 0⟩, ⟨14, 0, 0⟩], 14, 0⟩ from rfl] at h
      cases h
      rfl
    · rw [show cexG1.edges.get? 1 =
        some ⟨1, 0, 2, [⟨0, 0, 0⟩, ⟨5, 0, 12⟩], 13, 1⟩ from rfl] at h
      cases h
      rfl
    · rw [show cexG1.edges.get? 2 =
        some ⟨2, 2, 1, [⟨5, 0, 12⟩, ⟨14, 0, 0⟩], 15, 1⟩ from rfl] at h
      cases h
      rfl
    · rw [show cexG1.edges.get? (j + 3) = none from rfl] at h
      cases h
  · intro e he
    simp [cexG1] at he
    rcases he with rfl | rfl | rfl <;> exact ⟨by decide, by decide⟩
  · intro e he
    simp [cexG1] at he
    rcases he with rfl | rfl | rfl <;> exact ⟨by decide, by decide⟩
  · intro i n h eid heid
    rcases i with _ | _ | _ | i
    · rw [show cexG1.nodes.get? 0 = some ⟨0, ⟨0, 0, 0⟩, [0, 1]⟩ from rfl] at h
      cases h
      simp at heid
      rcases heid with rfl | rfl
      · exact ⟨⟨0, 0, 1, [⟨0, 0, 0⟩, ⟨14, 0, 0⟩], 14, 0⟩, rfl, Or.inl rfl⟩
      · exact ⟨⟨1, 0, 2, [⟨0, 0, 0⟩, ⟨5, 0, 12⟩], 13, 1⟩, rfl, Or.inl rfl⟩
    · rw [show cexG1.nodes.get? 1 = some ⟨1, ⟨14, 0, 0⟩, [0, 2]⟩ from rfl] at h
      cases h
      simp at heid
      rcases heid with rfl | rfl
      · exact ⟨⟨0, 0, 1, [⟨0, 0, 0⟩, ⟨14, 0, 0⟩], 14, 0⟩, rfl, Or.inr rfl⟩
      · exact ⟨⟨2, 2, 1, [⟨5, 0, 12⟩, ⟨14, 0, 0⟩], 15, 1⟩, rfl, Or.inr rfl⟩
    · rw [show cexG1.nodes.get? 2 = some ⟨2, ⟨5, 0, 12⟩, [1, 2]⟩ from rfl] at h
      cases h
      simp at heid
      rcases heid with rfl | rfl
      · exact ⟨⟨1, 0, 2, [⟨0, 0, 0⟩, ⟨5, 0, 12⟩], 13, 1⟩, rfl, Or.inr rfl⟩
      · exact ⟨⟨2, 2, 1, [⟨5, 0, 12⟩, ⟨14, 0, 0⟩], 15, 1⟩, rfl, Or.inl rfl⟩
    · rw [show cexG1.nodes.get? (i + 3) = none from rfl] at h
      cases h

theorem cexG1_pos_b1 : ∀ e ∈ cexG1.edges, 0 < edgeCost 1 e := by
  intro e he
  simp [cexG1] at he
  rcases he with rfl | rfl | rfl
  · rw [cexG1_cost0]
    norm_num
  · rw [cexG1_cost1]
    norm_num
  · rw [cexG1_cost2]
    norm_num

theorem cexG1_lenpos : ∀ e ∈ cexG1.edges, 0 < e.length := by
  intro e he
  simp [cexG1] at he
  rcases he with rfl | rfl | rfl <;> norm_num

theorem cexG1_len : ∀ e ∈ cexG1.edges,
    distV (nodeP cexG1 e.a) (nodeP cexG1 e.b) ≤ e.length := by
  intro e he
  simp [cexG1] at he
  rcases he with rfl | rfl | rfl
  · show distV ⟨0, 0, 0⟩ ⟨14, 0, 0⟩ ≤ 14
    rw [distV_eval _ _ 14 (by norm_num) (by norm_num)]
  · show distV ⟨0, 0, 0⟩ ⟨5, 0, 12⟩ ≤ 13
    rw [distV_eval _ _ 13 (by norm_num) (by norm_num)]
  · show distV ⟨5, 0, 12⟩ ⟨14, 0, 0⟩ ≤ 15
    rw [distV_eval _ _ 15 (by norm_num) (by norm_num)]

theorem cexG2_astar (costFn : RoadEdge → ℝ)
    (hcmp : ¬ ((0 : ℝ) + costFn ⟨1, 0, 2, [⟨0, 0, 0⟩, ⟨10.5, 0, 0⟩], 10.5, 0⟩ +
        heur cexG2 2 1 <
      0 + costFn ⟨0, 0, 1, [⟨0, 0, 0⟩, ⟨20, 0, 0⟩], 20, 0⟩ + heur cexG2 1 1)) :
    aStarF cexG2 0 1 costFn 2 = .found [0, 1] := by
  have hsel1 : (selBest (aStarInit cexG2 0 1).fsc (aStarInit cexG2 0 1).openL).1
      = some 0 := by
    show (selBest (fupd (fun _ => none) 0 (heur cexG2 0 1)) [0]).1 = some 0
    exact selBest_one _ 0 (heur cexG2 0 1) (fupd_same _ _ _)
  unfold aStarF
  rw [show (2 : ℕ) = 1 + 1 from rfl, aStarLoop_succ]
  rw [if_neg (show ¬ (aStarInit cexG2 0 1).openL = [] by simp [aStarInit])]
  rw [hsel1]
  simp only
  rw [if_neg (show ¬ (0 : ℕ) = 1 by norm_num)]
  show aStarLoop cexG2 1 costFn 1 (relaxAll cexG2 1 costFn 0
    ⟨[], fun _ => none, fupd (fun _ => none) 0 0,
      fupd (fun _ => none) 0 (heur cexG2 0 1)⟩) = .found [0, 1]
  have hr0 : relaxEdge cexG2 1 costFn 0
      ⟨[], fun _ => none, fupd (fun _ => none) 0 0,
        fupd (fun _ => none) 0 (heur cexG2 0 1)⟩ 0 =
      ⟨[1], fupd (fun _ => none) 1 0,
        fupd (fupd (fun _ => none) 0 0) 1
          (0 + costFn ⟨0, 0, 1, [⟨0, 0, 0⟩, ⟨20, 0, 0⟩], 20, 0⟩),
        fupd (fupd (fun _ => none) 0 (heur cexG2 0 1)) 1
          (0 + costFn ⟨0, 0, 1, [⟨0, 0, 0⟩, ⟨20, 0, 0⟩], 20, 0⟩ +
            heur cexG2 1 1)⟩ := by
    show (if oLT (some ((0 : ℝ) +
        costFn ⟨0, 0, 1, [⟨0, 0, 0⟩, ⟨20, 0, 0⟩], 20, 0⟩)) (none : Option ℝ) then
      (⟨[1], fupd (fun _ => none) 1 0,
        fupd (fupd (fun _ => none) 0 0) 1
          (0 + costFn ⟨0, 0, 1, [⟨0, 0, 0⟩, ⟨20, 0, 0⟩], 20, 0⟩),
        fupd (fupd (fun _ => none) 0 (heur cexG2 0 1)) 1
          (0 + costFn ⟨0, 0, 1, [⟨0, 0, 0⟩, ⟨20, 0, 0⟩], 20, 0⟩ +
            heur cexG2 1 1)⟩ : AState)
      else ⟨[], fun _ => none, fupd (fun _ => none) 0 0,
        fupd (fun _ => none) 0 (heur cexG2 0 1)⟩) = _
    rw [if_pos (show oLT (some ((0 : ℝ) +
      costFn ⟨0, 0, 1, [⟨0, 0, 0⟩, ⟨20, 0, 0⟩], 20, 0⟩)) (none : Option ℝ)
      from trivial)]
  have hr1 : relaxEdge cexG2 1 costFn 0
      ⟨[1], fupd (fun _ => none) 1 0,
        fupd (fupd (fun _ => none) 0 0) 1
          (0 + costFn ⟨0, 0, 1, [⟨0, 0, 0⟩, ⟨20, 0, 0⟩], 20, 0⟩),
        fupd (fupd (fun _ => none) 0 (heur cexG2 0 1)) 1
          (0 + costFn ⟨0, 0, 1, [⟨0, 0, 0⟩, ⟨20, 0, 0⟩], 20, 0⟩ +
            heur cexG2 1 1)⟩ 1 =
      ⟨[1, 2], fupd (fupd (fun _ => none) 1 0) 2 0,
        fupd (fupd (fupd (fun _ => none) 0 0) 1
          (0 + costFn ⟨0, 0, 1, [⟨0, 0, 0⟩, ⟨20, 0, 0⟩], 20, 0⟩)) 2
          (0 + costFn ⟨1, 0, 2, [⟨0, 0, 0⟩, ⟨10.5, 0, 0⟩], 10.5, 0⟩),
        fupd (fupd (fupd (fun _ => none) 0 (heur cexG2 0 1)) 1
          (0 + costFn ⟨0, 0, 1, [⟨0, 0, 0⟩, ⟨20, 0, 0⟩], 20, 0⟩ +
            heur cexG2 1 1)) 2
          (0 + costFn ⟨1, 0, 2, [⟨0, 0, 0⟩, ⟨10.5, 0, 0⟩], 10.5, 0⟩ +
            heur cexG2 2 1)⟩ := by
    show (if oLT (some ((0 : ℝ) +
        costFn ⟨1, 0, 2, [⟨0, 0, 0⟩, ⟨10.5, 0, 0⟩], 10.5, 0⟩)) (none : Option ℝ) then
      (⟨[1, 2], fupd (fupd (fun _ => none) 1 0) 2 0,
        fupd (fupd (fupd (fun _ => none) 0 0) 1
          (0 + costFn ⟨0, 0, 1, [⟨0, 0, 0⟩, ⟨20, 0, 0⟩], 20, 0⟩)) 2
          (0 + costFn ⟨1, 0, 2, [⟨0, 0, 0⟩, ⟨10.5, 0, 0⟩], 10.5, 0⟩),
        fupd (fupd (fupd (fun _ => none) 0 (heur cexG2 0 1)) 1
          (0 + costFn ⟨0, 0, 1, [⟨0, 0, 0⟩, ⟨20, 0, 0⟩], 20, 0⟩ +
            heur cexG2 1 1)) 2
          (0 + costFn ⟨1, 0, 2, [⟨0, 0, 0⟩, ⟨10.5, 0, 0⟩], 10.5, 0⟩ +
            heur cexG2 2 1)⟩ : AState)
      else ⟨[1], fupd (fun _ => none) 1 0,
        fupd (fupd (fun _ => none) 0 0) 1
          (0 + costFn ⟨0, 0, 1, [⟨0, 0, 0⟩, ⟨20, 0, 0⟩], 20, 0⟩),
        fupd (fupd (fun _ => none) 0 (heur cexG2 0 1)) 1
          (0 + costFn ⟨0, 0, 1, [⟨0, 0, 0⟩, ⟨20, 0, 0⟩], 20, 0⟩ +
            heur cexG2 1 1)⟩) = _
    rw [if_pos (show oLT (some ((0 : ℝ) +
      costFn ⟨1, 0, 2, [⟨0, 0, 0⟩, ⟨10.5, 0, 0⟩], 10.5, 0⟩)) (none : Option ℝ)
      from trivial)]
  have hra : relaxAll cexG2 1 costFn 0
      ⟨[], fun _ => none, fupd (fun _ => none) 0 0,
        fupd (fun _ => none) 0 (heur cexG2 0 1)⟩ =
      ⟨[1, 2], fupd (fupd (fun _ => none) 1 0) 2 0,
        fupd (fupd (fupd (fun _ => none) 0 0) 1
          (0 + costFn ⟨0, 0, 1, [⟨0, 0, 0⟩, ⟨20, 0, 0⟩], 20, 0⟩)) 2
          (0 + costFn ⟨1, 0, 2, [⟨0, 0, 0⟩, ⟨10.5, 0, 0⟩], 10.5, 0⟩),
        fupd (fupd (fupd (fun _ => none) 0 (heur cexG2 0 1)) 1
          (0 + costFn ⟨0, 0, 1, [⟨0, 0, 0⟩, ⟨20, 0, 0⟩], 20, 0⟩ +
            heur cexG2 1 1)) 2
          (0 + costFn ⟨1, 0, 2, [⟨0, 0, 0⟩, ⟨10.5, 0, 0⟩], 10.5, 0⟩ +
            heur cexG2 2 1)⟩ := by
    show List.foldl (relaxEdge cexG2 1 costFn 0)
      ⟨[], fun _ => none, fupd (fun _ => none) 0 0,
        fupd (fun _ => none) 0 (heur cexG2 0 1)⟩ [0, 1] = _
    rw [List.foldl_cons, hr0, List.foldl_cons, hr1, List.foldl_nil]
  rw [hra]
  rw [show (1 : ℕ) = 0 + 1 from rfl, aStarLoop_succ]
  rw [show (AState.mk [1, 2] (fupd (fupd (fun _ => none) 1 0) 2 0)
        (fupd (fupd (fupd (fun _ => none) 0 0) 1
          (0 + costFn ⟨0, 0, 1, [⟨0, 0, 0⟩, ⟨20, 0, 0⟩], 20, 0⟩)) 2
          (0 + costFn ⟨1, 0, 2, [⟨0, 0, 0⟩, ⟨10.5, 0, 0⟩], 10.5, 0⟩))
        (fupd (fupd (fupd (fun _ => none) 0 (heur cexG2 0 1)) 1
          (0 + costFn ⟨0, 0, 1, [⟨0, 0, 0⟩, ⟨20, 0, 0⟩], 20, 0⟩ +
            heur cexG2 1 1)) 2
          (0 + costFn ⟨1, 0, 2, [⟨0, 0, 0⟩, ⟨10.5, 0, 0⟩], 10.5, 0⟩ +
            heur cexG2 2 1))).openL = [1, 2] from rfl]
  rw [show (AState.mk [1, 2] (fupd (fupd (fun _ => none) 1 0) 2 0)
        (fupd (fupd (fupd (fun _ => none) 0 0) 1
          (0 + costFn ⟨0, 0, 1, [⟨0, 0, 0⟩, ⟨20, 0, 0⟩], 20, 0⟩)) 2
          (0 + costFn ⟨1, 0, 2, [⟨0, 0, 0⟩, ⟨10.5, 0, 0⟩], 10.5, 0⟩))
        (fupd (fupd (fupd (fun _ => none) 0 (heur cexG2 0 1)) 1
          (0 + costFn ⟨0, 0, 1, [⟨0, 0, 0⟩, ⟨20, 0, 0⟩], 20, 0⟩ +
            heur cexG2 1 1)) 2
          (0 + costFn ⟨1, 0, 2, [⟨0, 0, 0⟩, ⟨10.5, 0, 0⟩], 10.5, 0⟩ +
            heur cexG2 2 1))).fsc =
      fupd (fupd (fupd (fun _ => none) 0 (heur cexG2 0 1)) 1
        (0 + costFn ⟨0, 0, 1, [⟨0, 0, 0⟩, ⟨20, 0, 0⟩], 20, 0⟩ +
          heur cexG2 1 1)) 2
        (0 + costFn ⟨1, 0, 2, [⟨0, 0, 0⟩, ⟨10.5, 0, 0⟩], 10.5, 0⟩ +
          heur cexG2 2 1) from rfl]
  rw [show (AState.mk [1, 2] (fupd (fupd (fun _ => none) 1 0) 2 0)
        (fupd (fupd (fupd (fun _ => none) 0 0) 1
          (0 + costFn ⟨0, 0, 1, [⟨0, 0, 0⟩, ⟨20, 0, 0⟩], 20, 0⟩)) 2
          (0 + costFn ⟨1, 0, 2, [⟨0, 0, 0⟩, ⟨10.5, 0, 0⟩], 10.5, 0⟩))
        (fupd (fupd (fupd (fun _ => none) 0 (heur cexG2 0 1)) 1
          (0 + costFn ⟨0, 0, 1, [⟨0, 0, 0⟩, ⟨20, 0, 0⟩], 20, 0⟩ +
            heur cexG2 1 1)) 2
          (0 + costFn ⟨1, 0, 2, [⟨0, 0, 0⟩, ⟨10.5, 0, 0⟩], 10.5, 0⟩ +
            heur cexG2 2 1))).came =
      fupd (fupd (fun _ => none) 1 0) 2 0 from rfl]
  rw [if_neg (show ¬ ([1, 2] : List ℕ) = [] by simp)]
  have hsel2 : (selBest
      (fupd (fupd (fupd (fun _ => none) 0 (heur cexG2 0 1)) 1
        (0 + costFn ⟨0, 0, 1, [⟨0, 0, 0⟩, ⟨20, 0, 0⟩], 20, 0⟩ +
          heur cexG2 1 1)) 2
        (0 + costFn ⟨1, 0, 2, [⟨0, 0, 0⟩, ⟨10.5, 0, 0⟩], 10.5, 0⟩ +
          heur cexG2 2 1)) [1, 2]).1 = some 1 :=
    selBest_two _ 1 2
      (0 + costFn ⟨0, 0, 1, [⟨0, 0, 0⟩, ⟨20, 0, 0⟩], 20, 0⟩ + heur cexG2 1 1)
      (0 + costFn ⟨1, 0, 2, [⟨0, 0, 0⟩, ⟨10.5, 0, 0⟩], 10.5, 0⟩ + heur cexG2 2 1)
      rfl rfl hcmp
  rw [hsel2]
  rfl

theorem cexG2_costZ0 :
    edgeCost 0 ⟨0, 0, 1, [⟨0, 0, 0⟩, ⟨20, 0, 0⟩], 20, 0⟩ = 20 := by
  rw [edgeCost_zero]

theorem cexG2_costZ1 :
    edgeCost 0 ⟨1, 0, 2, [⟨0, 0, 0⟩, ⟨10.5, 0, 0⟩], 10.5, 0⟩ = 10.5 := by
  rw [edgeCost_zero]

theorem cexG2_costZ2 :
    edgeCost 0 ⟨2, 2, 1, [⟨11, 0, 0⟩, ⟨20, 0, 0⟩], 9, 0⟩ = 9 := by
  rw [edgeCost_zero]

theorem cexG2_heur21 : heur cexG2 2 1 = 10 := by
  show distV ⟨10, 0, 0⟩ ⟨20, 0, 0⟩ = 10
  exact distV_eval _ _ 10 (by norm_num) (by norm_num)

theorem cexG2_nPE0_ws :
    nearestPointOnEdge ⟨0, 0, 1, [⟨0, 0, 0⟩, ⟨20, 0, 0⟩], 20, 0⟩ ⟨0, 0, 0⟩ =
      ⟨⟨0, 0, 0⟩, 0, 0⟩ := by
  refine nPE_eval _ ⟨0, 0, 0⟩ ⟨20, 0, 0⟩ ⟨0, 0, 0⟩ ⟨0, 0, 0⟩ 0 0 rfl ?_ ?_ ?_
  · norm_num [clampR, vdot, vsub, lengthSq]
  · norm_num [vadds, vsub]
  · exact distV_self _

theorem cexG2_nPE1_ws :
    nearestPointOnEdge ⟨1, 0, 2, [⟨0, 0, 0⟩, ⟨10.5, 0, 0⟩], 10.5, 0⟩ ⟨0, 0, 0⟩ =
      ⟨⟨0, 0, 0⟩, 0, 0⟩ := by
  refine nPE_eval _ ⟨0, 0, 0⟩ ⟨10.5, 0, 0⟩ ⟨0, 0, 0⟩ ⟨0, 0, 0⟩ 0 0 rfl ?_ ?_ ?_
  · norm_num [clampR, vdot, vsub, lengthSq]
  · norm_num [vadds, vsub]
  · exact distV_self _

theorem cexG2_nPE2_ws :
    nearestPointOnEdge ⟨2, 2, 1, [⟨11, 0, 0⟩, ⟨20, 0, 0⟩], 9, 0⟩ ⟨0, 0, 0⟩ =
      ⟨⟨11, 0, 0⟩, 0, 11⟩ := by
  refine nPE_eval _ ⟨11, 0, 0⟩ ⟨20, 0, 0⟩ ⟨0, 0, 0⟩ ⟨11, 0, 0⟩ 0 11 rfl ?_ ?_ ?_
  · norm_num [clampR, vdot, vsub, lengthSq]
  · norm_num [vadds, vsub]
  · exact distV_eval _ _ 11 (by norm_num) (by norm_num)

theorem cexG2_nPE0_wg :
    nearestPointOnEdge ⟨0, 0, 1, [⟨0, 0, 0⟩, ⟨20, 0, 0⟩], 20, 0⟩ ⟨20, 0, 0⟩ =
      ⟨⟨20, 0, 0⟩, 1, 0⟩ := by
  refine nPE_eval _ ⟨0, 0, 0⟩ ⟨20, 0, 0⟩ ⟨20, 0, 0⟩ ⟨20, 0, 0⟩ 1 0 rfl ?_ ?_ ?_
  · norm_num [clampR, vdot, vsub, lengthSq]
  · norm_num [vadds, vsub]
  · exact distV_self _

theorem cexG2_nPE1_wg :
    nearestPointOnEdge ⟨1, 0, 2, [⟨0, 0, 0⟩, ⟨10.5, 0, 0⟩], 10.5, 0⟩
      ⟨20, 0, 0⟩ = ⟨⟨10.5, 0, 0⟩, 1, 9.5⟩ := by
  refine nPE_eval _ ⟨0, 0, 0⟩ ⟨10.5, 0, 0⟩ ⟨20, 0, 0⟩ ⟨10.5, 0, 0⟩ 1 9.5
    rfl ?_ ?_ ?_
  · norm_num [clampR, vdot, vsub, lengthSq]
  · norm_num [vadds, vsub]
  · exact distV_eval _ _ 9.5 (by norm_num) (by norm_num)

theorem cexG2_nPE2_wg :
    nearestPointOnEdge ⟨2, 2, 1, [⟨11, 0, 0⟩, ⟨20, 0, 0⟩], 9, 0⟩ ⟨20, 0, 0⟩ =
      ⟨⟨20, 0, 0⟩, 1, 0⟩ := by
  refine nPE_eval _ ⟨11, 0, 0⟩ ⟨20, 0, 0⟩ ⟨20, 0, 0⟩ ⟨20, 0, 0⟩ 1 0 rfl ?_ ?_ ?_
  · norm_num [clampR, vdot, vsub, lengthSq]
  · norm_num [vadds, vsub]
  · exact distV_self _

theorem cexG2_snap_ws :
    snapToGraph cexG2 ⟨0, 0, 0⟩ =
      some ⟨⟨0, 0, 1, [⟨0, 0, 0⟩, ⟨20, 0, 0⟩], 20, 0⟩, ⟨0, 0, 0⟩, 0, 0⟩ := by
  have h0 : snapStep ⟨0, 0, 0⟩ none ⟨0, 0, 1, [⟨0, 0, 0⟩, ⟨20, 0, 0⟩], 20, 0⟩ =
      some ⟨⟨0, 0, 1, [⟨0, 0, 0⟩, ⟨20, 0, 0⟩], 20, 0⟩, ⟨0, 0, 0⟩, 0, 0⟩ := by
    rw [snapStep_none, cexG2_nPE0_ws]
  have h1 : snapStep ⟨0, 0, 0⟩
      (some ⟨⟨0, 0, 1, [⟨0, 0, 0⟩, ⟨20, 0, 0⟩], 20, 0⟩, ⟨0, 0, 0⟩, 0, 0⟩)
      ⟨1, 0, 2, [⟨0, 0, 0⟩, ⟨10.5, 0, 0⟩], 10.5, 0⟩ =
      some ⟨⟨0, 0, 1, [⟨0, 0, 0⟩, ⟨20, 0, 0⟩], 20, 0⟩, ⟨0, 0, 0⟩, 0, 0⟩ := by
    apply snapStep_keep
    rw [cexG2_nPE1_ws]
    norm_num
  have h2 : snapStep ⟨0, 0, 0⟩
      (some ⟨⟨0, 0, 1, [⟨0, 0, 0⟩, ⟨20, 0, 0⟩], 20, 0⟩, ⟨0, 0, 0⟩, 0, 0⟩)
      ⟨2, 2, 1, [⟨11, 0, 0⟩, ⟨20, 0, 0⟩], 9, 0⟩ =
      some ⟨⟨0, 0, 1, [⟨0, 0, 0⟩, ⟨20, 0, 0⟩], 20, 0⟩, ⟨0, 0, 0⟩, 0, 0⟩ := by
    apply snapStep_keep
    rw [cexG2_nPE2_ws]
    norm_num
  show List.foldl (snapStep ⟨0, 0, 0⟩) none
    [⟨0, 0, 1, [⟨0, 0, 0⟩, ⟨20, 0, 0⟩], 20, 0⟩,
     ⟨1, 0, 2, [⟨0, 0, 0⟩, ⟨10.5, 0, 0⟩], 10.5, 0⟩,
     ⟨2, 2, 1, [⟨11, 0, 0⟩, ⟨20, 0, 0⟩], 9, 0⟩] =
    some ⟨⟨0, 0, 1, [⟨0, 0, 0⟩, ⟨20, 0, 0⟩], 20, 0⟩, ⟨0, 0, 0⟩, 0, 0⟩
  rw [List.foldl_cons, h0, List.foldl_cons, h1, List.foldl_cons, h2,
    List.foldl_nil]

theorem cexG2_snap_wg :
    snapToGraph cexG2 ⟨20, 0, 0⟩ =
      some ⟨⟨0, 0, 1, [⟨0, 0, 0⟩, ⟨20, 0, 0⟩], 20, 0⟩, ⟨20, 0, 0⟩, 1, 0⟩ := by
  have h0 : snapStep ⟨20, 0, 0⟩ none ⟨0, 0, 1, [⟨0, 0, 0⟩, ⟨20, 0, 0⟩], 20, 0⟩ =
      some ⟨⟨0, 0, 1, [⟨0, 0, 0⟩, ⟨20, 0, 0⟩], 20, 0⟩, ⟨20, 0, 0⟩, 1, 0⟩ := by
    rw [snapStep_none, cexG2_nPE0_wg]
  have h1 : snapStep ⟨20, 0, 0⟩
      (some ⟨⟨0, 0, 1, [⟨0, 0, 0⟩, ⟨20, 0, 0⟩], 20, 0⟩, ⟨20, 0, 0⟩, 1, 0⟩)
      ⟨1, 0, 2, [⟨0, 0, 0⟩, ⟨10.5, 0, 0⟩], 10.5, 0⟩ =
      some ⟨⟨0, 0, 1, [⟨0, 0, 0⟩, ⟨20, 0, 0⟩], 20, 0⟩, ⟨20, 0, 0⟩, 1, 0⟩ := by
    apply snapStep_keep
    rw [cexG2_nPE1_wg]
    norm_num
  have h2 : snapStep ⟨20, 0, 0⟩
      (some ⟨⟨0, 0, 1, [⟨0, 0, 0⟩, ⟨20, 0, 0⟩], 20, 0⟩, ⟨20, 0, 0⟩, 1, 0⟩)
      ⟨2, 2, 1, [⟨11, 0, 0⟩, ⟨20, 0, 0⟩], 9, 0⟩ =
      some ⟨⟨0, 0, 1, [⟨0, 0, 0⟩, ⟨20, 0, 0⟩], 20, 0⟩, ⟨20, 0, 0⟩, 1, 0⟩ := by
    apply snapStep_keep
    rw [cexG2_nPE2_wg]
    norm_num
  show List.foldl (snapStep ⟨20, 0, 0⟩) none
    [⟨0, 0, 1, [⟨0, 0, 0⟩, ⟨20, 0, 0⟩], 20, 0⟩,
     ⟨1, 0, 2, [⟨0, 0, 0⟩, ⟨10.5, 0, 0⟩], 10.5, 0⟩,
     ⟨2, 2, 1, [⟨11, 0, 0⟩, ⟨20, 0, 0⟩], 9, 0⟩] =
    some ⟨⟨0, 0, 1, [⟨0, 0, 0⟩, ⟨20, 0, 0⟩], 20, 0⟩, ⟨20, 0, 0⟩, 1, 0⟩
  rw [List.foldl_cons, h0, List.foldl_cons, h1, List.foldl_cons, h2,
    List.foldl_nil]

theorem cexG2_nn_ws : nearestNodeToPoint cexG2 ⟨0, 0, 0⟩ = some 0 := by
  have h0 : nnStep ⟨0, 0, 0⟩ (none, none) ⟨0, ⟨0, 0, 0⟩, [0, 1]⟩ =
      (some 0, some 0) := by
    rw [nnStep_pos _ _ _ (by trivial)]
    show ((some 0 : Option ℕ), some (distV ⟨0, 0, 0⟩ ⟨0, 0, 0⟩)) = (some 0, some 0)
    rw [distV_self]
  have h1 : nnStep ⟨0, 0, 0⟩ ((some 0 : Option ℕ), (some 0 : Option ℝ))
      ⟨1, ⟨20, 0, 0⟩, [0, 2]⟩ = (some 0, some 0) := by
    apply nnStep_neg
    show ¬ oLT (some (distV ⟨20, 0, 0⟩ ⟨0, 0, 0⟩)) (some 0)
    rw [distV_eval _ _ 20 (by norm_num) (by norm_num)]
    show ¬ ((20 : ℝ) < 0)
    norm_num
  have h2 : nnStep ⟨0, 0, 0⟩ ((some 0 : Option ℕ), (some 0 : Option ℝ))
      ⟨2, ⟨10, 0, 0⟩, [1, 2]⟩ = (some 0, some 0) := by
    apply nnStep_neg
    show ¬ oLT (some (distV ⟨10, 0, 0⟩ ⟨0, 0, 0⟩)) (some 0)
    rw [distV_eval _ _ 10 (by norm_num) (by norm_num)]
    show ¬ ((10 : ℝ) < 0)
    norm_num
  show (List.foldl (nnStep ⟨0, 0, 0⟩) (none, none)
    [⟨0, ⟨0, 0, 0⟩, [0, 1]⟩, ⟨1, ⟨20, 0, 0⟩, [0, 2]⟩,
     ⟨2, ⟨10, 0, 0⟩, [1, 2]⟩]).1 = some 0
  rw [List.foldl_cons, h0, List.foldl_cons, h1, List.foldl_cons, h2,
    List.foldl_nil]

theorem cexG2_nn_wg : nearestNodeToPoint cexG2 ⟨20, 0, 0⟩ = some 1 := by
  have h0 : nnStep ⟨20, 0, 0⟩ (none, none) ⟨0, ⟨0, 0, 0⟩, [0, 1]⟩ =
      (some 0, some 20) := by
    rw [nnStep_pos _ _ _ (by trivial)]
    show ((some 0 : Option ℕ), some (distV ⟨0, 0, 0⟩ ⟨20, 0, 0⟩)) =
      (some 0, some 20)
    rw [distV_eval _ _ 20 (by norm_num) (by norm_num)]
  have h1 : nnStep ⟨20, 0, 0⟩ ((some 0 : Option ℕ), (some 20 : Option ℝ))
      ⟨1, ⟨20, 0, 0⟩, [0, 2]⟩ = (some 1, some 0) := by
    have hc : oLT (some (distV (⟨1, ⟨20, 0, 0⟩, [0, 2]⟩ : RoadNode).p ⟨20, 0, 0⟩))
        (((some 0 : Option ℕ), (some 20 : Option ℝ)).2) := by
      show oLT (some (distV ⟨20, 0, 0⟩ ⟨20, 0, 0⟩)) (some 20)
      rw [distV_self]
      show (0 : ℝ) < 20
      norm_num
    rw [nnStep_pos _ _ _ hc]
    show ((some 1 : Option ℕ), some (distV ⟨20, 0, 0⟩ ⟨20, 0, 0⟩)) =
      (some 1, some 0)
    rw [distV_self]
  have h2 : nnStep ⟨20, 0, 0⟩ ((some 1 : Option ℕ), (some 0 : Option ℝ))
      ⟨2, ⟨10, 0, 0⟩, [1, 2]⟩ = (some 1, some 0) := by
    apply nnStep_neg
    show ¬ oLT (some (distV ⟨10, 0, 0⟩ ⟨20, 0, 0⟩)) (some 0)
    rw [distV_eval _ _ 10 (by norm_num) (by norm_num)]
    show ¬ ((10 : ℝ) < 0)
    norm_num
  show (List.foldl (nnStep ⟨20, 0, 0⟩) (none, none)
    [⟨0, ⟨0, 0, 0⟩, [0, 1]⟩, ⟨1, ⟨20, 0, 0⟩, [0, 2]⟩,
     ⟨2, ⟨10, 0, 0⟩, [1, 2]⟩]).1 = some 1
  rw [List.foldl_cons, h0, List.foldl_cons, h1, List.foldl_cons, h2,
    List.foldl_nil]

theorem cexG2_astar_b0 : aStarF cexG2 0 1 (edgeCost 0) 2 = .found [0, 1] :=
  cexG2_astar (edgeCost 0) (by
    rw [cexG2_costZ1, cexG2_costZ0, cexG2_heur21, heur_self]
    norm_num)

theorem cexG2_run_b0 : findRouteOnRoadsF 2 cexG2 ⟨0, 0, 0⟩ ⟨20, 0, 0⟩ 0 =
    .res (some [⟨0, 0, 0⟩, ⟨20, 0, 0⟩]) := by
  simp only [findRouteOnRoadsF, cexG2_snap_ws, cexG2_snap_wg, cexG2_nn_ws,
    cexG2_nn_wg, cexG2_astar_b0]
  rfl

theorem cexG2_WF : GraphWF cexG2 := by
  refine ⟨?_, ?_, ?_, ?_, ?_⟩
  · intro i n h
    rcases i with _ | _ | _ | i
    · rw [show cexG2.nodes.get? 0 = some ⟨0, ⟨0, 0, 0⟩, [0, 1]⟩ from rfl] at h
      cases h
      rfl
    · rw [show cexG2.nodes.get? 1 = some ⟨1, ⟨20, 0, 0⟩, [0, 2]⟩ from rfl] at h
      cases h
      rfl
    · rw [show cexG2.nodes.get? 2 = some ⟨2, ⟨10, 0, 0⟩, [1, 2]⟩ from rfl] at h
      cases h
      rfl
    · rw [show cexG2.nodes.get? (i + 3) = none from rfl] at h
      cases h
  · intro j e h
    rcases j with _ | _ | _ | j
    · rw [show cexG2.edges.get? 0 =
        some ⟨0, 0, 1, [⟨0, 0, 0⟩, ⟨20, 0, 0⟩], 20, 0⟩ from rfl] at h
      cases h
      rfl
    · rw [show cexG2.edges.get? 1 =
        some ⟨1, 0, 2, [⟨0, 0, 0⟩, ⟨10.5, 0, 0⟩], 10.5, 0⟩ from rfl] at h
      cases h
      rfl
    · rw [show cexG2.edges.get? 2 =
        some ⟨2, 2, 1, [⟨11, 0, 0⟩, ⟨20, 0, 0⟩], 9, 0⟩ from rfl] at h
      cases h
      rfl
    · rw [show cexG2.edges.get? (j + 3) = none from rfl] at h
      cases h
  · intro e he
    simp [cexG2] at he
    rcases he with rfl | rfl | rfl <;> exact ⟨by decide, by decide⟩
  · intro e he
    simp [cexG2] at he
    rcases he with rfl | rfl | rfl <;> exact ⟨by decide, by decide⟩
  · intro i n h eid heid
    rcases i with _ | _ | _ | i
    · rw [show cexG2.nodes.get? 0 = some ⟨0, ⟨0, 0, 0⟩, [0, 1]⟩ from rfl] at h
      cases h
      simp at heid
      rcases heid with rfl | rfl
      · exact ⟨⟨0, 0, 1, [⟨0, 0, 0⟩, ⟨20, 0, 0⟩], 20, 0⟩, rfl, Or.inl rfl⟩
      · exact ⟨⟨1, 0, 2, [⟨0, 0, 0⟩, ⟨10.5, 0, 0⟩], 10.5, 0⟩, rfl, Or.inl rfl⟩
    · rw [show cexG2.nodes.get? 1 = some ⟨1, ⟨20, 0, 0⟩, [0, 2]⟩ from rfl] at h
      cases h
      simp at heid
      rcases heid with rfl | rfl
      · exact ⟨⟨0, 0, 1, [⟨0, 0, 0⟩, ⟨20, 0, 0⟩], 20, 0⟩, rfl, Or.inr rfl⟩
      · exact ⟨⟨2, 2, 1, [⟨11, 0, 0⟩, ⟨20, 0, 0⟩], 9, 0⟩, rfl, Or.inr rfl⟩
    · rw [show cexG2.nodes.get? 2 = some ⟨2, ⟨10, 0, 0⟩, [1, 2]⟩ from rfl] at h
      cases h
      simp at heid
      rcases heid with rfl | rfl
      · exact ⟨⟨1, 0, 2, [⟨0, 0, 0⟩, ⟨10.5, 0, 0⟩], 10.5, 0⟩, rfl, Or.inr rfl⟩
      · exact ⟨⟨2, 2, 1, [⟨11, 0, 0⟩, ⟨20, 0, 0⟩], 9, 0⟩, rfl, Or.inl rfl⟩
    · rw [show cexG2.nodes.get? (i + 3) = none from rfl] at h
      cases h

theorem emptyG_WF : GraphWF emptyG := by
  refine ⟨?_, ?_, ?_, ?_, ?_⟩
  · intro i n h
    cases h
  · intro j e h
    cases h
  · intro e he
    cases he
  · intro e he
    cases he
  · intro i n h
    cases h

/-- C1 counterexample: at shadeBias 1 on the triangle graph, the returned
polyline is the straight unshaded edge between the snapped nodes 0 and 1,
a path of shade-biased cost 14, although the two-edge shaded detour
between the same nodes costs 5.6; so findRouteOnRoads does not return a
minimum-total-cost node path. -/
theorem findRoute_returns_suboptimal_path :
    FindRouteReturns cexG1 ⟨0, 0, 0⟩ ⟨14, 0, 0⟩ 1
      (some [⟨0, 0, 0⟩, ⟨14, 0, 0⟩]) ∧
    snapToGraph cexG1 ⟨0, 0, 0⟩ =
      some ⟨⟨0, 0, 1, [⟨0, 0, 0⟩, ⟨14, 0, 0⟩], 14, 0⟩, ⟨0, 0, 0⟩, 0, 0⟩ ∧
    snapToGraph cexG1 ⟨14, 0, 0⟩ =
      some ⟨⟨0, 0, 1, [⟨0, 0, 0⟩, ⟨14, 0, 0⟩], 14, 0⟩, ⟨14, 0, 0⟩, 1, 0⟩ ∧
    nearestNodeToPoint cexG1 ⟨0, 0, 0⟩ = some 0 ∧
    nearestNodeToPoint cexG1 ⟨14, 0, 0⟩ = some 1 ∧
    [(⟨0, 0, 0⟩ : P3), ⟨14, 0, 0⟩] =
      nodesPathToPolyline cexG1 (walkNodes cexG1 0 [0]) ∧
    IsWalk cexG1 0 [0] 1 ∧
    IsWalk cexG1 0 [1, 2] 1 ∧
    walkCost cexG1 (edgeCost 1) [1, 2] < walkCost cexG1 (edgeCost 1) [0] := by
  refine ⟨⟨2, cexG1_run_b1⟩, cexG1_snap_ws, cexG1_snap_wg, cexG1_nn_ws,
    cexG1_nn_wg, rfl, ?_, ?_, ?_⟩
  · exact IsWalk.cons 0 1 1 0 [] ⟨0, 0, 1, [⟨0, 0, 0⟩, ⟨14, 0, 0⟩], 14, 0⟩ rfl
      (Or.inl ⟨rfl, rfl⟩) (IsWalk.nil 1)
  · exact IsWalk.cons 0 2 1 1 [2] ⟨1, 0, 2, [⟨0, 0, 0⟩, ⟨5, 0, 12⟩], 13, 1⟩ rfl
      (Or.inl ⟨rfl, rfl⟩)
      (IsWalk.cons 2 1 1 2 [] ⟨2, 2, 1, [⟨5, 0, 12⟩, ⟨14, 0, 0⟩], 15, 1⟩ rfl
        (Or.inl ⟨rfl, rfl⟩) (IsWalk.nil 1))
  · show edgeCost 1 ⟨1, 0, 2, [⟨0, 0, 0⟩, ⟨5, 0, 12⟩], 13, 1⟩ +
      (edgeCost 1 ⟨2, 2, 1, [⟨5, 0, 12⟩, ⟨14, 0, 0⟩], 15, 1⟩ + 0) <
      edgeCost 1 ⟨0, 0, 1, [⟨0, 0, 0⟩, ⟨14, 0, 0⟩], 14, 0⟩ + 0
    rw [cexG1_cost1, cexG1_cost2, cexG1_cost0]
    norm_num

/-- C1 witness: the amended theorem applied to the triangle graph at
shadeBias 1 with its concrete run. -/
theorem findRoute_polyline_is_walk_witness :
    ∃ s t nS nG es,
      snapToGraph cexG1 ⟨0, 0, 0⟩ = some s ∧
      snapToGraph cexG1 ⟨14, 0, 0⟩ = some t ∧
      nearestNodeToPoint cexG1 s.q = some nS ∧
      nearestNodeToPoint cexG1 t.q = some nG ∧
      IsWalk cexG1 nS es nG ∧
      [(⟨0, 0, 0⟩ : P3), ⟨14, 0, 0⟩] =
        nodesPathToPolyline cexG1 (walkNodes cexG1 nS es) :=
  findRoute_polyline_is_walk cexG1 cexG1_WF 1 cexG1_pos_b1 ⟨0, 0, 0⟩
    ⟨14, 0, 0⟩ [⟨0, 0, 0⟩, ⟨14, 0, 0⟩] ⟨2, cexG1_run_b1⟩

/-- C2 counterexample: with shadeBias 0 on the merge-slack graph, the
returned polyline is the direct edge of length 20 between the snapped
nodes 0 and 1, although the two-edge path through node 2 has total length
19.5; so the returned path does not minimise total length over node paths
on every constructed graph. -/
theorem findRoute_bias0_not_shortest :
    FindRouteReturns cexG2 ⟨0, 0, 0⟩ ⟨20, 0, 0⟩ 0
      (some [⟨0, 0, 0⟩, ⟨20, 0, 0⟩]) ∧
    snapToGraph cexG2 ⟨0, 0, 0⟩ =
      some ⟨⟨0, 0, 1, [⟨0, 0, 0⟩, ⟨20, 0, 0⟩], 20, 0⟩, ⟨0, 0, 0⟩, 0, 0⟩ ∧
    snapToGraph cexG2 ⟨20, 0, 0⟩ =
      some ⟨⟨0, 0, 1, [⟨0, 0, 0⟩, ⟨20, 0, 0⟩], 20, 0⟩, ⟨20, 0, 0⟩, 1, 0⟩ ∧
    nearestNodeToPoint cexG2 ⟨0, 0, 0⟩ = some 0 ∧
    nearestNodeToPoint cexG2 ⟨20, 0, 0⟩ = some 1 ∧
    [(⟨0, 0, 0⟩ : P3), ⟨20, 0, 0⟩] =
      nodesPathToPolyline cexG2 (walkNodes cexG2 0 [0]) ∧
    IsWalk cexG2 0 [0] 1 ∧
    IsWalk cexG2 0 [1, 2] 1 ∧
    walkCost cexG2 (edgeCost 0) [1, 2] < walkCost cexG2 (edgeCost 0) [0] := by
  refine ⟨⟨2, cexG2_run_b0⟩, cexG2_snap_ws, cexG2_snap_wg, cexG2_nn_ws,
    cexG2_nn_wg, rfl, ?_, ?_, ?_⟩
  · exact IsWalk.cons 0 1 1 0 [] ⟨0, 0, 1, [⟨0, 0, 0⟩, ⟨20, 0, 0⟩], 20, 0⟩ rfl
      (Or.inl ⟨rfl, rfl⟩) (IsWalk.nil 1)
  · exact IsWalk.cons 0 2 1 1 [2] ⟨1, 0, 2, [⟨0, 0, 0⟩, ⟨10.5, 0, 0⟩], 10.5, 0⟩
      rfl (Or.inl ⟨rfl, rfl⟩)
      (IsWalk.cons 2 1 1 2 [] ⟨2, 2, 1, [⟨11, 0, 0⟩, ⟨20, 0, 0⟩], 9, 0⟩ rfl
        (Or.inl ⟨rfl, rfl⟩) (IsWalk.nil 1))
  · show edgeCost 0 ⟨1, 0, 2, [⟨0, 0, 0⟩, ⟨10.5, 0, 0⟩], 10.5, 0⟩ +
      (edgeCost 0 ⟨2, 2, 1, [⟨11, 0, 0⟩, ⟨20, 0, 0⟩], 9, 0⟩ + 0) <
      edgeCost 0 ⟨0, 0, 1, [⟨0, 0, 0⟩, ⟨20, 0, 0⟩], 20, 0⟩ + 0
    rw [cexG2_costZ1, cexG2_costZ2, cexG2_costZ0]
    norm_num

/-- C2 witness: the amended theorem applied to the slack-free triangle
graph at shadeBias 0 with its concrete run. -/
theorem findRoute_bias0_shortest_witness :
    ∃ s t nS nG es,
      snapToGraph cexG1 ⟨0, 0, 0⟩ = some s ∧
      snapToGraph cexG1 ⟨14, 0, 0⟩ = some t ∧
      nearestNodeToPoint cexG1 s.q = some nS ∧
      nearestNodeToPoint cexG1 t.q = some nG ∧
      IsWalk cexG1 nS es nG ∧
      [(⟨0, 0, 0⟩ : P3), ⟨14, 0, 0⟩] =
        nodesPathToPolyline cexG1 (walkNodes cexG1 nS es) ∧
      (∀ es2, IsWalk cexG1 nS es2 nG →
        walkCost cexG1 (edgeCost 0) es ≤ walkCost cexG1 (edgeCost 0) es2) :=
  findRoute_bias0_shortest cexG1 cexG1_WF cexG1_len cexG1_lenpos ⟨0, 0, 0⟩
    ⟨14, 0, 0⟩ [⟨0, 0, 0⟩, ⟨14, 0, 0⟩] ⟨2, cexG1_run_b0⟩

/-- C4 witness: the characterisation applied to the empty graph, on which
snapping fails and the route query returns null. -/
theorem findRoute_none_iff_witness :
    FindRouteReturns emptyG ⟨0, 0, 0⟩ ⟨1, 0, 0⟩ 0 none :=
  (findRoute_none_iff emptyG emptyG_WF 0
    (fun e he => absurd he (List.not_mem_nil e)) ⟨0, 0, 0⟩ ⟨1, 0, 0⟩).1.mpr
    (Or.inl (snapToGraph_nil emptyG _ rfl))

end AStarTheorems

end CitySim
